import Mathlib

/-!
# sdrangelove: sample FIFO and DSP engine

A shallow embedding of `sdrbase/dsp/samplefifo.cpp` and `dsp/dspengine.cpp`.

* `uint` is a 32-bit unsigned integer: values are naturals below `UINT_MOD`
  and every `uint` operation is reduced modulo `UINT_MOD`.
* `int` / `qint32` are 32-bit signed integers (`wrap32`), `qint16` is a
  16-bit signed integer (`wrap16`).
* Iterators into `m_data` are indices; `m_data.end()` is `m_data.length`.
* Calls to collaborators (log lines, signals, sink and source hooks) are
  recorded as events, in call order.
-/

set_option autoImplicit false

namespace SDRangelove

/-! ## Machine integers -/

/-- Number of values of a 32-bit `uint`. -/
def UINT_MOD : Nat := 4294967296

/-- Conversion of a non-negative value to `uint`. -/
def toUInt (n : Nat) : Nat := n % UINT_MOD

/-- The `uint` sum `a + b`. -/
def uintAdd (a b : Nat) : Nat := (a + b) % UINT_MOD

/-- The `uint` difference `a - b` (wraps below zero), for `b` a `uint`. -/
def uintSub (a b : Nat) : Nat := (a + UINT_MOD - b % UINT_MOD) % UINT_MOD

/-- The macro `MIN(x, y) (((x) < (y)) ? (x) : (y))`. -/
def MIN (x y : Nat) : Nat := if x < y then x else y

/-- Two's-complement reduction to a 32-bit signed integer. -/
def wrap32 (x : Int) : Int := (x + 2147483648) % 4294967296 - 2147483648

/-- Two's-complement reduction to a 16-bit signed integer. -/
def wrap16 (x : Int) : Int := (x + 32768) % 65536 - 32768

/-- Conversion of a signed integer to 32-bit `uint`. -/
def intToUInt (x : Int) : Nat := (x % 4294967296).toNat

/-! ## Samples -/

/-- A complex sample: a pair of `qint16` components. -/
structure Sample where
  m_real : Int
  m_imag : Int
deriving DecidableEq, Repr

instance : Inhabited Sample := ⟨⟨0, 0⟩⟩

/-- The samples in the iterator range `[b, e)` of `data`. -/
def spanOf (data : List Sample) (b e : Nat) : List Sample :=
  (List.range (e - b)).map (fun i => data.getD (b + i) default)

/-- Overwrite `data` from index `pos` on with `src` (`std::copy`, and in-place
mutation through an iterator range); slots beyond the vector are dropped. -/
def copyAt (data : List Sample) (pos : Nat) : List Sample → List Sample
  | [] => data
  | x :: xs => copyAt (data.set pos x) (pos + 1) xs

/-- The vector `data` after `resize(s)`: truncated or padded with default samples. -/
def resize (data : List Sample) (s : Nat) : List Sample :=
  data.take s ++ List.replicate (s - data.length) default

/-! ## SampleFifo -/

/-- Log lines and signals emitted by the FIFO. -/
inductive FifoEvent where
  | outOfMemory
  | timerStart
  | overflow (dropped : Nat)
  | messagesDropped (suppressed : Int)
  | underflow (missing : Nat)
  | cannotCommit
  | dataReady
deriving DecidableEq, Repr

/-- The fields of `SampleFifo`. -/
structure SampleFifo where
  m_data : List Sample
  m_suppressed : Int
  m_size : Nat
  m_fill : Nat
  m_head : Nat
  m_tail : Nat
deriving DecidableEq, Repr

/-- The method `SampleFifo::create(uint s)`. -/
def SampleFifo.create (f : SampleFifo) (s : Nat) : SampleFifo × List FifoEvent :=
  let data := resize f.m_data s
  let size := toUInt data.length
  ({ f with m_data := data, m_size := size, m_fill := 0, m_head := 0, m_tail := 0 },
    if size ≠ s then [FifoEvent.outOfMemory] else [])

/-- The constructor `SampleFifo::SampleFifo(QObject*)`. -/
def SampleFifo.empty : SampleFifo :=
  { m_data := [], m_suppressed := -1, m_size := 0, m_fill := 0, m_head := 0, m_tail := 0 }

/-- The constructor `SampleFifo::SampleFifo(int size, QObject*)`; `size` is converted to `uint`. -/
def SampleFifo.ofSize (size : Int) : SampleFifo :=
  ({ SampleFifo.empty with m_suppressed := -1 }.create (intToUInt size)).1

/-- The method `SampleFifo::setSize(int size)`: new state and returned flag. -/
def SampleFifo.setSize (f : SampleFifo) (size : Int) : SampleFifo × Bool :=
  let f1 := (f.create (intToUInt size)).1
  (f1, decide (f1.m_size = intToUInt size))

/-- The copy loop `while(remaining > 0)` of `SampleFifo::write`; `none` when the
iteration budget is used up before the loop exits. -/
def SampleFifo.writeLoop : Nat → SampleFifo → List Sample → Nat → Option SampleFifo
  | 0, s, _, remaining => if remaining > 0 then none else some s
  | fuel + 1, s, src, remaining =>
    if remaining > 0 then
      let len := MIN remaining (uintSub s.m_size s.m_tail)
      let s1 : SampleFifo :=
        { s with
          m_data := copyAt s.m_data s.m_tail (src.take len)
          m_tail := uintAdd s.m_tail len % s.m_size
          m_fill := uintAdd s.m_fill len }
      SampleFifo.writeLoop fuel s1 (src.drop len) (uintSub remaining len)
    else some s

/-- The overflow-report branch of `SampleFifo::write`, taken when `total < count`;
`elapsed` is the value of `m_msgRateTimer.elapsed()`. -/
def SampleFifo.reportOverflow (s : SampleFifo) (count total : Nat) (elapsed : Int) :
    SampleFifo × List FifoEvent :=
  if s.m_suppressed < 0 then
    ({ s with m_suppressed := 0 },
      [FifoEvent.timerStart, FifoEvent.overflow (uintSub count total)])
  else if elapsed > 2500 then
    ({ s with m_suppressed := -1 },
      [FifoEvent.messagesDropped s.m_suppressed, FifoEvent.overflow (uintSub count total)])
  else
    ({ s with m_suppressed := wrap32 (s.m_suppressed + 1) }, [])

/-- The method `SampleFifo::write(begin, end)`: new state, returned count and
events. The loop budget `total + 1` is never exhausted on a consistent ring. -/
def SampleFifo.write (s : SampleFifo) (span : List Sample) (elapsed : Int) :
    Option (SampleFifo × Nat × List FifoEvent) :=
  let count := toUInt span.length
  let total := MIN count (uintSub s.m_size s.m_fill)
  let r := if total < count then s.reportOverflow count total elapsed else (s, [])
  match SampleFifo.writeLoop (total + 1) r.1 span total with
  | none => none
  | some s2 =>
    some (s2, total, r.2 ++ (if s2.m_fill > 0 then [FifoEvent.dataReady] else []))

/-- The iterators and count handed out by `SampleFifo::readBegin`. -/
structure ReadRegion where
  done : Nat
  part1Begin : Nat
  part1End : Nat
  part2Begin : Nat
  part2End : Nat
deriving DecidableEq, Repr

/-- The method `SampleFifo::readBegin(count, ...)`: state afterwards, the two
iterator ranges with the returned count, and events. -/
def SampleFifo.readBegin (s : SampleFifo) (count : Nat) :
    SampleFifo × ReadRegion × List FifoEvent :=
  let head := s.m_head
  let total := MIN count s.m_fill
  let ev := if total < count then [FifoEvent.underflow (uintSub count total)] else []
  let remaining := total
  let p1 : (Nat × Nat) × Nat × Nat × Nat :=
    if remaining > 0 then
      let len := MIN remaining (uintSub s.m_size head)
      ((head, head + len), uintAdd head len % s.m_size, uintSub remaining len, uintAdd 0 len)
    else
      ((s.m_data.length, s.m_data.length), head, remaining, 0)
  let head1 := p1.2.1
  let remaining1 := p1.2.2.1
  let done1 := p1.2.2.2
  let p2 : (Nat × Nat) × Nat :=
    if remaining1 > 0 then
      let len := MIN remaining1 (uintSub s.m_size head1)
      ((head1, head1 + len), uintAdd done1 len)
    else
      ((s.m_data.length, s.m_data.length), done1)
  (s, { done := p2.2, part1Begin := p1.1.1, part1End := p1.1.2,
        part2Begin := p2.1.1, part2End := p2.1.2 }, ev)

/-- The method `SampleFifo::readCommit(count)`: new state, returned count, events. On a
ring of capacity 0 the source divides by zero in `% m_size` and has no result; this
function describes the method on rings with `m_size > 0`, and `readOpChecked` makes the
fault explicit. -/
def SampleFifo.readCommit (s : SampleFifo) (count : Nat) :
    SampleFifo × Nat × List FifoEvent :=
  let c := if count > s.m_fill then s.m_fill else count
  let ev := if count > s.m_fill then [FifoEvent.cannotCommit] else []
  ({ s with m_head := uintAdd s.m_head c % s.m_size, m_fill := uintSub s.m_fill c }, c, ev)

/-- The ring invariant: `fill <= capacity` and, for a non-zero capacity, both
indices are inside the ring and `(head + fill) mod capacity == tail`. -/
def SampleFifo.ringInv (s : SampleFifo) : Prop :=
  s.m_fill ≤ s.m_size ∧
    (0 < s.m_size →
      s.m_head < s.m_size ∧ s.m_tail < s.m_size ∧ (s.m_head + s.m_fill) % s.m_size = s.m_tail)

instance (s : SampleFifo) : Decidable s.ringInv := by
  unfold SampleFifo.ringInv; infer_instance

/-- The stored samples in FIFO order: logical positions `head, head+1, ...`
(`fill` of them), taken modulo the capacity. -/
def SampleFifo.contents (s : SampleFifo) : List Sample :=
  (List.range s.m_fill).map (fun i => s.m_data.getD ((s.m_head + i) % s.m_size) default)

/-- A ring of capacity 4 holding three samples that wrap around the end of the vector. -/
def wrapFifo : SampleFifo :=
  { m_data := [⟨10, 11⟩, ⟨20, 21⟩, ⟨30, 31⟩, ⟨40, 41⟩], m_suppressed := -1,
    m_size := 4, m_fill := 3, m_head := 3, m_tail := 2 }

/-- A full ring of capacity `3 * 2^30` whose head is at the last slot. -/
def bigFifo : SampleFifo :=
  { m_data := List.replicate 3221225472 default, m_suppressed := -1,
    m_size := 3221225472, m_fill := 3221225472, m_head := 3221225471, m_tail := 3221225471 }

/-- An operation on the ring: a `write` of a span (with the timer reading seen by
that call), or a read, that is `readBegin(k)` followed by `readCommit` of the count
that `readBegin` returned. -/
inductive FifoOp where
  | write (span : List Sample) (elapsed : Int)
  | read (k : Nat)
deriving DecidableEq, Repr

/-- A read: `readBegin(k)`, take `part1 ++ part2`, then `readCommit(done)`. -/
def SampleFifo.readOp (s : SampleFifo) (k : Nat) : SampleFifo × List Sample :=
  let r := s.readBegin k
  let out := spanOf r.1.m_data r.2.1.part1Begin r.2.1.part1End
    ++ spanOf r.1.m_data r.2.1.part2Begin r.2.1.part2End
  ((r.1.readCommit r.2.1.done).1, out)

/-- Run a sequence of operations; the result holds the final state and the
concatenation of all regions handed out by the reads. -/
def runOps : SampleFifo → List FifoOp → Option (SampleFifo × List Sample)
  | s, [] => some (s, [])
  | s, FifoOp.write span elapsed :: ops =>
    match s.write span elapsed with
    | none => none
    | some r => runOps r.1 ops
  | s, FifoOp.read k :: ops =>
    match runOps (s.readOp k).1 ops with
    | none => none
    | some r => some (r.1, (s.readOp k).2 ++ r.2)

/-- The concatenation of all spans written by a sequence of operations. -/
def written : List FifoOp → List Sample
  | [] => []
  | FifoOp.write span _ :: ops => span ++ written ops
  | FifoOp.read _ :: ops => written ops

/-- No write of the sequence exceeds the free space of the ring at its turn. -/
def withinCapacity : SampleFifo → List FifoOp → Bool
  | _, [] => true
  | s, FifoOp.write span elapsed :: ops =>
    decide (span.length ≤ s.m_size - s.m_fill) &&
      match s.write span elapsed with
      | none => true
      | some r => withinCapacity r.1 ops
  | s, FifoOp.read k :: ops => withinCapacity (s.readOp k).1 ops

/-! ## Correction stage of DSPEngine -/

/-- Arithmetic right shift `x >> n` of a signed integer. -/
def asr (x : Int) (n : Nat) : Int := Int.shiftRight x n

/-- Conversion of a signed integer to the 64-bit `size_t`. -/
def intToSizeT (x : Int) : Nat := (x % 18446744073709551616).toNat

/-- The engine states `DSPEngine::State`. -/
inductive State where
  | StNotStarted
  | StIdle
  | StRunning
  | StError
deriving DecidableEq, Repr

/-- What the engine can observe of a `SampleSource`: its FIFO and the values its
hooks return. -/
structure SampleSource where
  fifo : SampleFifo
  startInputResult : Bool
  deviceDescription : String
  sampleRate : Int
  centerFrequency : Nat
deriving DecidableEq, Repr

/-- Calls the engine makes on its collaborators; sinks are identified by pointer value. -/
inductive EngineEvent where
  | sinkStart (sink : Nat)
  | sinkStop (sink : Nat)
  | sinkSetSampleRate (sink : Nat) (rate : Int)
  | sinkFeed (sink : Nat) (span : List Sample) (firstOfBurst : Bool)
  | sinkHandleMessage (sink : Nat) (msg : Nat)
  | sourceStartInput
  | sourceStopInput
  | sourceHandleConfiguration
  | disconnectDataReady
  | connectDataReady
  | report (sampleRate : Int) (centerFrequency : Nat)
  | exitEventLoop
deriving DecidableEq, Repr

/-- The fields of `DSPEngine`, with the list of collaborator calls made so far. The
running estimates are 32-bit signed integers (the Q15.16 encoding of `m_imbalance`);
the declaring header `dspengine.h` is not among the sources at hand. -/
structure DSPEngine where
  m_state : State
  m_sampleSource : Option SampleSource
  m_sampleSinks : List Nat
  m_sampleRate : Int
  m_centerFrequency : Nat
  m_dcOffsetCorrection : Bool
  m_iqImbalanceCorrection : Bool
  m_iOffset : Int
  m_qOffset : Int
  m_iRange : Int
  m_qRange : Int
  m_imbalance : Int
  m_errorMessage : String
  m_deviceDescription : String
  trace : List EngineEvent
deriving DecidableEq, Repr

/-- The constructor `DSPEngine::DSPEngine`. -/
def DSPEngine.init : DSPEngine :=
  { m_state := State.StNotStarted, m_sampleSource := none, m_sampleSinks := [],
    m_sampleRate := 0, m_centerFrequency := 0, m_dcOffsetCorrection := false,
    m_iqImbalanceCorrection := false, m_iOffset := 0, m_qOffset := 0,
    m_iRange := 65536, m_qRange := 65536, m_imbalance := 65536,
    m_errorMessage := "", m_deviceDescription := "", trace := [] }

/-- The 32-bit sum `io` of the I components of a span (`io += it->real()`). -/
def sumReal (span : List Sample) : Int :=
  span.foldl (fun acc s => wrap32 (acc + s.m_real)) 0

/-- The 32-bit sum `qo` of the Q components of a span (`qo += it->imag()`). -/
def sumImag (span : List Sample) : Int :=
  span.foldl (fun acc s => wrap32 (acc + s.m_imag)) 0

/-- The quotient `io / count` of `dcOffset` (C++ division truncates toward zero). -/
def frameMean (sum : Int) (span : List Sample) : Int :=
  wrap32 (Int.tdiv sum (wrap32 span.length))

/-- The update `(offset * 3 + mean) >> 2` of a running DC estimate. -/
def slideOffset (offset mean : Int) : Int :=
  asr (wrap32 (wrap32 (offset * 3) + mean)) 2

/-- Modelled from the spec: `Sample::operator-=` (declared in `dsptypes.h`, which is not
part of the sources at hand) subtracts component-wise in `qint16`, after the
correction `Sample(m_iOffset, m_qOffset)` has been narrowed to `qint16`. -/
def Sample.sub (s : Sample) (iOffset qOffset : Int) : Sample :=
  { m_real := wrap16 (s.m_real - wrap16 iOffset), m_imag := wrap16 (s.m_imag - wrap16 qOffset) }

/-- The method `DSPEngine::dcOffset(begin, end)` on the samples of the range: the
engine with the updated estimates, and the corrected samples. -/
def DSPEngine.dcOffset (e : DSPEngine) (span : List Sample) : DSPEngine × List Sample :=
  let io := sumReal span
  let qo := sumImag span
  let iOffset := slideOffset e.m_iOffset (frameMean io span)
  let qOffset := slideOffset e.m_qOffset (frameMean qo span)
  ({ e with m_iOffset := iOffset, m_qOffset := qOffset },
    span.map (fun s => s.sub iOffset qOffset))

/-- One step of the extrema scan of `imbalance` for a sample other than the first. -/
def scanStep (acc : Int × Int × Int × Int) (s : Sample) : Int × Int × Int × Int :=
  let iMin := acc.1
  let iMax := acc.2.1
  let qMin := acc.2.2.1
  let qMax := acc.2.2.2
  let i2 : Int × Int :=
    if s.m_real < iMin then (s.m_real, iMax)
    else if s.m_real > iMax then (iMin, s.m_real) else (iMin, iMax)
  let q2 : Int × Int :=
    if s.m_imag < qMin then (s.m_imag, qMax)
    else if s.m_imag > qMax then (qMin, s.m_imag) else (qMin, qMax)
  (i2.1, i2.2, q2.1, q2.2)

/-- The extrema scan of `imbalance`: `(iMin, iMax, qMin, qMax)`, all zero on an empty
range and set from the first sample otherwise. -/
def scanExtrema : List Sample → Int × Int × Int × Int
  | [] => (0, 0, 0, 0)
  | s :: rest => rest.foldl scanStep (s.m_real, s.m_real, s.m_imag, s.m_imag)

/-- The update `(range * 15 + (max - min)) >> 4` of a running range estimate. -/
def slideRange (range lo hi : Int) : Int :=
  asr (wrap32 (wrap32 (range * 15) + wrap32 (hi - lo))) 4

/-- The method `DSPEngine::imbalance(begin, end)` on the samples of the range. -/
def DSPEngine.imbalance (e : DSPEngine) (span : List Sample) : DSPEngine × List Sample :=
  let ext := scanExtrema span
  let iRange := slideRange e.m_iRange ext.1 ext.2.1
  let qRange := slideRange e.m_qRange ext.2.2.1 ext.2.2.2
  let imb :=
    if qRange ≠ 0 then
      wrap32 ((((intToUInt iRange) * 65536 % UINT_MOD) / intToUInt qRange : Nat) : Int)
    else e.m_imbalance
  ({ e with m_iRange := iRange, m_qRange := qRange, m_imbalance := imb },
    span.map (fun s => { s with m_imag := wrap16 (asr (wrap32 (s.m_imag * imb)) 16) }))

/-- The correction part of one branch of `work`: `dcOffset` if enabled, then
`imbalance` if enabled, in place on the range `[b, e)` of the FIFO vector. -/
def DSPEngine.correct (e : DSPEngine) (data : List Sample) (b en : Nat) :
    DSPEngine × List Sample :=
  let r1 : DSPEngine × List Sample :=
    if e.m_dcOffsetCorrection then
      let r := e.dcOffset (spanOf data b en)
      (r.1, copyAt data b r.2)
    else (e, data)
  if r1.1.m_iqImbalanceCorrection then
    let r := r1.1.imbalance (spanOf r1.2 b en)
    (r.1, copyAt r1.2 b r.2)
  else r1

/-- The calls `(*it)->feed(begin, end, firstOfBurst)` on every sink, in list order. -/
def feedAll (sinks : List Nat) (span : List Sample) (firstOfBurst : Bool) : List EngineEvent :=
  sinks.map (fun k => EngineEvent.sinkFeed k span firstOfBurst)

/-! ## DSPEngine: state transitions, commands and the drain pass -/

/-- The method `DSPEngine::gotoIdle()`: engine afterwards and returned state. The
method does not assign `m_state`; the callers do. -/
def DSPEngine.gotoIdle (e : DSPEngine) : DSPEngine × State :=
  match e.m_state with
  | State.StNotStarted => (e, State.StNotStarted)
  | State.StIdle => (e, State.StIdle)
  | State.StError => (e, State.StIdle)
  | State.StRunning =>
    match e.m_sampleSource with
    | none => (e, State.StIdle)
    | some _ =>
      ({ e with
          trace := e.trace ++ e.m_sampleSinks.map EngineEvent.sinkStop
            ++ [EngineEvent.sourceStopInput]
          m_deviceDescription := "" }, State.StIdle)

/-- The method `DSPEngine::gotoError(errorMessage)`. -/
def DSPEngine.gotoError (e : DSPEngine) (errorMessage : String) : DSPEngine × State :=
  ({ e with m_errorMessage := errorMessage, m_deviceDescription := "",
            m_state := State.StError }, State.StError)

/-- The method `DSPEngine::gotoRunning()`: engine afterwards and returned state. -/
def DSPEngine.gotoRunning (e : DSPEngine) : DSPEngine × State :=
  match e.m_state with
  | State.StNotStarted => (e, State.StNotStarted)
  | State.StRunning => (e, State.StRunning)
  | _ =>
    match e.m_sampleSource with
    | none => e.gotoError "No sample source configured"
    | some src =>
      let e1 : DSPEngine :=
        { e with m_iOffset := 0, m_qOffset := 0, m_iRange := 65536, m_qRange := 65536,
                 trace := e.trace ++ [EngineEvent.sourceStartInput] }
      if !src.startInputResult then e1.gotoError "Could not start sample source"
      else
        ({ e1 with
            m_deviceDescription := src.deviceDescription
            trace := e1.trace ++ e1.m_sampleSinks.map EngineEvent.sinkStart },
          State.StRunning)

/-- The method `DSPEngine::generateReport()` for the attached source `src`. -/
def DSPEngine.generateReport (e : DSPEngine) (src : SampleSource) : DSPEngine :=
  let sampleRate := wrap32 src.sampleRate
  let centerFrequency := src.centerFrequency
  let r1 : DSPEngine × Bool :=
    if sampleRate ≠ e.m_sampleRate then
      ({ e with
          m_sampleRate := sampleRate
          trace := e.trace
            ++ e.m_sampleSinks.map (fun k => EngineEvent.sinkSetSampleRate k sampleRate) },
        true)
    else (e, false)
  let r2 : DSPEngine × Bool :=
    if centerFrequency ≠ r1.1.m_centerFrequency then
      ({ r1.1 with m_centerFrequency := centerFrequency }, true)
    else r1
  if r2.2 then
    { r2.1 with
        trace := r2.1.trace ++ [EngineEvent.report r2.1.m_sampleRate r2.1.m_centerFrequency] }
  else r2.1

/-- The method `DSPEngine::handleSetSource(source)` for a non-null source. -/
def DSPEngine.handleSetSource (e : DSPEngine) (source : SampleSource) : DSPEngine :=
  let e1 := e.gotoIdle.1
  let e2 : DSPEngine :=
    if e1.m_sampleSource.isSome then
      { e1 with trace := e1.trace ++ [EngineEvent.disconnectDataReady] }
    else e1
  let e3 : DSPEngine :=
    { e2 with m_sampleSource := some source,
              trace := e2.trace ++ [EngineEvent.connectDataReady] }
  e3.generateReport source

/-- The commands dispatched by `DSPEngine::handleMessages`. `configureSource` carries
the effect of the source's `handleConfiguration` on the source. -/
inductive Command where
  | ping
  | exit
  | acquisitionStart
  | acquisitionStop
  | getDeviceDescription
  | getErrorMessage
  | setSource (source : SampleSource)
  | addSink (sink : Nat)
  | removeSink (sink : Nat)
  | configureCorrection (dcOffsetCorrection iqImbalanceCorrection : Bool)
  | configureSource (configure : SampleSource → SampleSource)
  | other (msg : Nat)

/-- What `cmd->completed(...)` hands back to the submitter. -/
inductive Reply where
  | state (s : State)
  | text (s : String)
  | done
deriving DecidableEq, Repr

/-- One iteration of the `while` loop of `DSPEngine::handleMessages`: the `switch` on
the command type. -/
def DSPEngine.handleMessage (e : DSPEngine) : Command → DSPEngine × Reply
  | Command.ping => (e, Reply.state e.m_state)
  | Command.exit =>
    let e1 : DSPEngine :=
      { e.gotoIdle.1 with
          m_state := State.StNotStarted
          trace := e.gotoIdle.1.trace ++ [EngineEvent.exitEventLoop] }
    (e1, Reply.state e1.m_state)
  | Command.acquisitionStart =>
    let r := e.gotoIdle
    let e1 : DSPEngine := { r.1 with m_state := r.2 }
    let e2 : DSPEngine :=
      if e1.m_state = State.StIdle then
        { e1.gotoRunning.1 with m_state := e1.gotoRunning.2 }
      else e1
    (e2, Reply.state e2.m_state)
  | Command.acquisitionStop =>
    let r := e.gotoIdle
    let e1 : DSPEngine := { r.1 with m_state := r.2 }
    (e1, Reply.state e1.m_state)
  | Command.getDeviceDescription => (e, Reply.text e.m_deviceDescription)
  | Command.getErrorMessage => (e, Reply.text e.m_errorMessage)
  | Command.setSource source => (e.handleSetSource source, Reply.done)
  | Command.addSink sink =>
    let e1 : DSPEngine :=
      if e.m_state = State.StRunning then
        { e with trace := e.trace
            ++ [EngineEvent.sinkSetSampleRate sink e.m_sampleRate, EngineEvent.sinkStart sink] }
      else e
    ({ e1 with m_sampleSinks := e1.m_sampleSinks ++ [sink] }, Reply.done)
  | Command.removeSink sink =>
    let e1 : DSPEngine :=
      if e.m_state = State.StRunning then
        { e with trace := e.trace ++ [EngineEvent.sinkStop sink] }
      else e
    ({ e1 with m_sampleSinks := e1.m_sampleSinks.filter (fun k => k ≠ sink) }, Reply.done)
  | Command.configureCorrection dc iq =>
    let e1 : DSPEngine := { e with m_iqImbalanceCorrection := iq }
    let e2 : DSPEngine :=
      if e1.m_dcOffsetCorrection ≠ dc then
        { e1 with m_dcOffsetCorrection := dc, m_iOffset := 0, m_qOffset := 0 }
      else e1
    let e3 : DSPEngine :=
      if e2.m_iqImbalanceCorrection ≠ iq then
        { e2 with m_iqImbalanceCorrection := iq, m_iRange := 65536, m_qRange := 65536,
                  m_imbalance := 65536 }
      else e2
    (e3, Reply.done)
  | Command.configureSource configure =>
    match e.m_sampleSource with
    | none => (e, Reply.done)
    | some src =>
      let e1 : DSPEngine :=
        { e with m_sampleSource := some (configure src),
                 trace := e.trace ++ [EngineEvent.sourceHandleConfiguration] }
      (e1.generateReport (configure src), Reply.done)
  | Command.other msg =>
    ({ e with trace := e.trace
        ++ e.m_sampleSinks.map (fun k => EngineEvent.sinkHandleMessage k msg) }, Reply.done)

/-- The method `DSPEngine::handleMessages()` on the queued commands, in order. -/
def DSPEngine.handleMessages : DSPEngine → List Command → DSPEngine × List Reply
  | e, [] => (e, [])
  | e, cmd :: rest =>
    let r := e.handleMessage cmd
    let rs := DSPEngine.handleMessages r.1 rest
    (rs.1, r.2 :: rs.2)

/-- The method `DSPEngine::run()` up to the event loop: enter `StIdle`, then handle the
commands already queued. -/
def DSPEngine.run (e : DSPEngine) (queue : List Command) : DSPEngine × List Reply :=
  DSPEngine.handleMessages { e with m_state := State.StIdle } queue

/-- The body of the `while` loop of `DSPEngine::work()`: engine, FIFO, `samplesDone`
and `firstOfBurst` after one iteration. In the second branch the sinks are fed the
range `[part1begin, part1end)`, as in the source. -/
def DSPEngine.workBody (e : DSPEngine) (fifo : SampleFifo) (samplesDone : Nat)
    (firstOfBurst : Bool) : DSPEngine × SampleFifo × Nat × Bool :=
  let rb := fifo.readBegin fifo.m_fill
  let f0 := rb.1
  let reg := rb.2.1
  let count := reg.done
  let r1 : DSPEngine × List Sample × Bool :=
    if reg.part1Begin ≠ reg.part1End then
      let c := e.correct f0.m_data reg.part1Begin reg.part1End
      ({ c.1 with
          trace := c.1.trace
            ++ feedAll c.1.m_sampleSinks (spanOf c.2 reg.part1Begin reg.part1End) firstOfBurst },
        c.2, false)
    else (e, f0.m_data, firstOfBurst)
  let r2 : DSPEngine × List Sample × Bool :=
    if reg.part2Begin ≠ reg.part2End then
      let c := r1.1.correct r1.2.1 reg.part2Begin reg.part2End
      ({ c.1 with
          trace := c.1.trace
            ++ feedAll c.1.m_sampleSinks (spanOf c.2 reg.part1Begin reg.part1End) r1.2.2 },
        c.2, false)
    else r1
  let f1 : SampleFifo := { f0 with m_data := r2.2.1 }
  (r2.1, (f1.readCommit count).1, (samplesDone + count) % 18446744073709551616, r2.2.2)

/-- The `while` loop of `DSPEngine::work()`; `pending` is what
`m_messageQueue.countPending()` returns. `none` when the iteration budget is used up
before the loop exits. -/
def DSPEngine.workLoop : Nat → DSPEngine → SampleFifo → Nat → Nat → Bool →
    Option (DSPEngine × SampleFifo)
  | 0, e, fifo, pending, samplesDone, _ =>
    if fifo.m_fill > 0 ∧ pending = 0 ∧ samplesDone < intToSizeT e.m_sampleRate then none
    else some (e, fifo)
  | fuel + 1, e, fifo, pending, samplesDone, firstOfBurst =>
    if fifo.m_fill > 0 ∧ pending = 0 ∧ samplesDone < intToSizeT e.m_sampleRate then
      let r := e.workBody fifo samplesDone firstOfBurst
      DSPEngine.workLoop fuel r.1 r.2.1 pending r.2.2.1 r.2.2.2
    else some (e, fifo)

/-- The method `DSPEngine::work()`: one drain pass over the FIFO of the attached
source. `none` when no source is attached (null dereference) or the loop budget
`fill + 1` is used up; on a consistent ring one iteration empties the FIFO. -/
def DSPEngine.work (e : DSPEngine) (pending : Nat) : Option DSPEngine :=
  match e.m_sampleSource with
  | none => none
  | some src =>
    match DSPEngine.workLoop (src.fifo.m_fill + 1) e src.fifo pending 0 true with
    | none => none
    | some r => some { r.1 with m_sampleSource := some { src with fifo := r.2 } }

/-- The method `DSPEngine::handleData()`. -/
def DSPEngine.handleData (e : DSPEngine) (pending : Nat) : Option DSPEngine :=
  if e.m_state = State.StRunning then e.work pending else some e

/-- A source holding the wrapped ring `wrapFifo`, whose `startInput` succeeds. -/
def goodSource : SampleSource :=
  { fifo := wrapFifo, startInputResult := true, deviceDescription := "device",
    sampleRate := 2000000, centerFrequency := 100000000 }

/-- An engine in `StError` with `goodSource` attached and the sinks 1 and 2. -/
def errorEngine : DSPEngine :=
  { DSPEngine.init with
      m_state := State.StError, m_sampleSource := some goodSource, m_sampleSinks := [1, 2],
      m_errorMessage := "Could not start sample source" }

/-- The `feed` calls of a drain pass that hands the given spans, in order, to every
entry of the sink list: `firstOfBurst` is `first` for the first span and `false` for
the later ones. -/
def feedSeq (sinks : List Nat) : List (List Sample) → Bool → List EngineEvent
  | [], _ => []
  | span :: rest, first => feedAll sinks span first ++ feedSeq sinks rest false

/-- An engine in `StRunning` with `goodSource` attached, one sink and both corrections off. -/
def runningEngine : DSPEngine :=
  { DSPEngine.init with
      m_state := State.StRunning, m_sampleSource := some goodSource, m_sampleSinks := [1],
      m_sampleRate := 2000000 }

/-- A ring of capacity 4 holding one sample, at slot 0. -/
def flatFifo : SampleFifo :=
  { m_data := [⟨10, 11⟩, ⟨20, 21⟩, ⟨30, 31⟩, ⟨40, 41⟩], m_suppressed := -1,
    m_size := 4, m_fill := 1, m_head := 0, m_tail := 1 }

/-- An engine in `StRunning` on `flatFifo` with the same sink registered twice. -/
def twiceEngine : DSPEngine :=
  { runningEngine with
      m_sampleSource := some { goodSource with fifo := flatFifo }, m_sampleSinks := [7, 7] }

/-- Number of `feed` calls on `sink` with `firstOfBurst = true` among the events. -/
def firstFeeds (sink : Nat) (events : List EngineEvent) : Nat :=
  (events.filter (fun ev =>
    match ev with
    | EngineEvent.sinkFeed k _ first => decide (k = sink) && first
    | _ => false)).length

/-- The engine after `dcOffset` has been applied to the frames in order. -/
def DSPEngine.dcOffsetFrames (e : DSPEngine) (frames : List (List Sample)) : DSPEngine :=
  frames.foldl (fun acc f => (acc.dcOffset f).1) e

/-- The running DC estimate after `n` frames of mean `c`, starting from 0. -/
def dcIter (c : Int) : Nat → Int
  | 0 => 0
  | n + 1 => (3 * dcIter c n + c) / 4

/-- The distance `c - estimate` after `n` frames, starting from distance `e`. -/
def dcGap : Nat → Int → Int
  | 0, e => e
  | n + 1, e => (3 * dcGap n e + 3) / 4

/-- An idle engine with `goodSource` attached, one sink, and running estimates left
over from an earlier acquisition; both corrections are off. -/
def staleEngine : DSPEngine :=
  { DSPEngine.init with
      m_state := State.StIdle, m_sampleSource := some goodSource, m_sampleSinks := [1],
      m_iOffset := 10, m_qOffset := -4, m_iRange := 1000, m_qRange := 2000,
      m_imbalance := 32768 }

/-- A second source, with another rate and center frequency, whose `startInput` fails. -/
def otherSource : SampleSource :=
  { fifo := flatFifo, startInputResult := false, deviceDescription := "other",
    sampleRate := 1000000, centerFrequency := 433000000 }

/-- The engine states the worker thread can reach: the constructed engine, entry into
`run()`, handled commands, `handleData` calls, and changes the attached source
undergoes on its own (its FIFO being filled, its reported values changing). -/
inductive Reachable : DSPEngine → Prop where
  | init : Reachable DSPEngine.init
  | run (e : DSPEngine) : Reachable e → Reachable { e with m_state := State.StIdle }
  | message (e : DSPEngine) (cmd : Command) : Reachable e → Reachable (e.handleMessage cmd).1
  | data (e e' : DSPEngine) (pending : Nat) :
      Reachable e → e.handleData pending = some e' → Reachable e'
  | source (e : DSPEngine) (src src' : SampleSource) :
      Reachable e → e.m_sampleSource = some src →
      Reachable { e with m_sampleSource := some src' }
/-- An engine brought to `StRunning` by the worker: `run()`, `SetSource`, `AcquisitionStart`. -/
def startedEngine : DSPEngine :=
  ((({ DSPEngine.init with m_state := State.StIdle } : DSPEngine).handleMessage
    (Command.setSource goodSource)).1.handleMessage Command.acquisitionStart).1

/-! ## Preset -/

/-- A value stored under a tag of a serialized blob. -/
inductive Value where
  | string (v : String)
  | u64 (v : Nat)
  | s32 (v : Int)
  | bool (v : Bool)
  | blob (v : List Nat)
deriving DecidableEq, Repr

/-- Modelled from the spec: the blob written by `SimpleSerializer` and parsed by
`SimpleDeserializer` (`util/simpleserializer.h` is not among the sources at hand): a
validity flag, a version, and a faithful store from tags to typed values. -/
structure Blob where
  valid : Bool
  version : Nat
  store : Int → Option Value

/-- Modelled from the spec: the constructor `SimpleSerializer s(version)`. -/
def Blob.init (version : Nat) : Blob :=
  { valid := true, version := version, store := fun _ => none }

/-- Modelled from the spec: the `write...(id, value)` methods of `SimpleSerializer`
store the value under the tag. -/
def Blob.write (b : Blob) (tag : Int) (v : Value) : Blob :=
  { b with store := fun t => if t = tag then some v else b.store t }

/-- Modelled from the spec: `readString(id, &result, def)` yields the string stored
under the tag, and the default when there is none. -/
def Blob.readString (b : Blob) (tag : Int) (dflt : String) : String :=
  match b.store tag with
  | some (Value.string v) => v
  | _ => dflt

/-- Modelled from the spec: `readU64(id, &result, def)`. -/
def Blob.readU64 (b : Blob) (tag : Int) (dflt : Nat) : Nat :=
  match b.store tag with
  | some (Value.u64 v) => v
  | _ => dflt

/-- Modelled from the spec: `readS32(id, &result, def)`. -/
def Blob.readS32 (b : Blob) (tag : Int) (dflt : Int) : Int :=
  match b.store tag with
  | some (Value.s32 v) => v
  | _ => dflt

/-- Modelled from the spec: `readBool(id, &result, def)`. -/
def Blob.readBool (b : Blob) (tag : Int) (dflt : Bool) : Bool :=
  match b.store tag with
  | some (Value.bool v) => v
  | _ => dflt

/-- Modelled from the spec: `readBlob(id, &result)`, with the empty array as default. -/
def Blob.readBlob (b : Blob) (tag : Int) : List Nat :=
  match b.store tag with
  | some (Value.blob v) => v
  | _ => []

/-- The fields of `Preset`; a demod entry is the pair `(m_demod, m_config)`. -/
structure Preset where
  m_group : String
  m_description : String
  m_centerFrequency : Nat
  m_showScope : Bool
  m_layout : List Nat
  m_spectrumConfig : List Nat
  m_dcOffsetCorrection : Bool
  m_iqImbalanceCorrection : Bool
  m_scopeConfig : List Nat
  m_source : String
  m_sourceGeneralConfig : List Nat
  m_sourceConfig : List Nat
  m_demodConfigs : List (String × List Nat)
deriving DecidableEq, Repr

/-- The method `Preset::resetToDefaults()`; it has no assignment to
`m_sourceGeneralConfig`. -/
def Preset.resetToDefaults (p : Preset) : Preset :=
  { p with
      m_group := "default", m_description := "no name", m_centerFrequency := 0,
      m_spectrumConfig := [], m_scopeConfig := [], m_dcOffsetCorrection := true,
      m_iqImbalanceCorrection := true, m_showScope := true, m_layout := [],
      m_demodConfigs := [], m_source := "", m_sourceConfig := [] }

/-- The members of a `Preset` before the constructor body runs: empty strings, arrays
and list. -/
def Preset.blank : Preset :=
  { m_group := "", m_description := "", m_centerFrequency := 0, m_showScope := false,
    m_layout := [], m_spectrumConfig := [], m_dcOffsetCorrection := false,
    m_iqImbalanceCorrection := false, m_scopeConfig := [], m_source := "",
    m_sourceGeneralConfig := [], m_sourceConfig := [], m_demodConfigs := [] }

/-- The constructor `Preset::Preset()`. -/
def Preset.new : Preset := Preset.blank.resetToDefaults

/-- The tag `101 + i * 2` of `int` arithmetic. -/
def demodTag (i : Nat) : Int := wrap32 (101 + wrap32 ((i : Int) * 2))

/-- The tag `102 + i * 2` of `int` arithmetic. -/
def configTag (i : Nat) : Int := wrap32 (102 + wrap32 ((i : Int) * 2))

/-- The loop of `Preset::serialize` over `m_demodConfigs`, from index `i` on. -/
def writeDemods (s : Blob) (i : Nat) : List (String × List Nat) → Blob
  | [] => s
  | d :: rest =>
    writeDemods ((s.write (demodTag i) (Value.string d.1)).write (configTag i) (Value.blob d.2))
      (i + 1) rest

/-- The method `Preset::serialize()`. -/
def Preset.serialize (p : Preset) : Blob :=
  let s := Blob.init 1
  let s := s.write 1 (Value.string p.m_group)
  let s := s.write 2 (Value.string p.m_description)
  let s := s.write 3 (Value.u64 p.m_centerFrequency)
  let s := s.write 4 (Value.bool p.m_showScope)
  let s := s.write 5 (Value.blob p.m_layout)
  let s := s.write 6 (Value.blob p.m_spectrumConfig)
  let s := s.write 7 (Value.bool p.m_dcOffsetCorrection)
  let s := s.write 8 (Value.bool p.m_iqImbalanceCorrection)
  let s := s.write 9 (Value.blob p.m_scopeConfig)
  let s := s.write 10 (Value.string p.m_source)
  let s := s.write 11 (Value.blob p.m_sourceGeneralConfig)
  let s := s.write 12 (Value.blob p.m_sourceConfig)
  let s := s.write 100 (Value.s32 (wrap32 p.m_demodConfigs.length))
  writeDemods s 0 p.m_demodConfigs

/-- The loop of `Preset::deserialize` that appends `demodCount` entries to the list. -/
def readDemods (d : Blob) (demodCount : Int) (demods : List (String × List Nat)) :
    List (String × List Nat) :=
  (List.range demodCount.toNat).foldl
    (fun acc i => acc ++ [(d.readString (demodTag i) "unknown-demod", d.readBlob (configTag i))])
    demods

/-- The method `Preset::deserialize(data)`: the preset afterwards and the returned flag. -/
def Preset.deserialize (p : Preset) (d : Blob) : Preset × Bool :=
  if !d.valid then (p.resetToDefaults, false)
  else if d.version = 1 then
    let q : Preset :=
      { p with
          m_group := d.readString 1 "default"
          m_description := d.readString 2 "no name"
          m_centerFrequency := d.readU64 3 0
          m_showScope := d.readBool 4 true
          m_layout := d.readBlob 5
          m_spectrumConfig := d.readBlob 6
          m_dcOffsetCorrection := d.readBool 7 true
          m_iqImbalanceCorrection := d.readBool 8 true
          m_scopeConfig := d.readBlob 9
          m_source := d.readString 10 ""
          m_sourceGeneralConfig := d.readBlob 11
          m_sourceConfig := d.readBlob 12 }
    let demodCount := d.readS32 100 0
    ({ q with m_demodConfigs := readDemods d demodCount q.m_demodConfigs }, true)
  else (p.resetToDefaults, false)

/-- A preset with two demodulators. -/
def samplePreset : Preset :=
  { m_group := "fm", m_description := "local stations", m_centerFrequency := 100000000,
    m_showScope := false, m_layout := [1, 2], m_spectrumConfig := [3],
    m_dcOffsetCorrection := true, m_iqImbalanceCorrection := false, m_scopeConfig := [4, 5],
    m_source := "osmosdr", m_sourceGeneralConfig := [6], m_sourceConfig := [7, 8],
    m_demodConfigs := [("nfm", [9]), ("am", [10, 11])] }

/-- A blob that fails to parse. -/
def invalidBlob : Blob := { valid := false, version := 0, store := fun _ => none }
/-- A span of four samples whose first sample lies far above the mean. -/
def spikeSpan : List Sample := [⟨32767, 0⟩, ⟨-32768, 0⟩, ⟨-32768, 0⟩, ⟨-32768, 0⟩]

/-- Both components of the sample are `qint16` values. -/
def Sample.isInt16 (s : Sample) : Prop :=
  -32768 ≤ s.m_real ∧ s.m_real ≤ 32767 ∧ -32768 ≤ s.m_imag ∧ s.m_imag ≤ 32767

instance (s : Sample) : Decidable s.isInt16 := by
  unfold Sample.isInt16; infer_instance

/-- The quadruple `(iMin, iMax, qMin, qMax)` holds the least and the greatest I
component and the least and the greatest Q component of the span. -/
def IsExtrema (span : List Sample) (ext : Int × Int × Int × Int) : Prop :=
  (∃ s ∈ span, s.m_real = ext.1) ∧ (∃ s ∈ span, s.m_real = ext.2.1) ∧
  (∃ s ∈ span, s.m_imag = ext.2.2.1) ∧ (∃ s ∈ span, s.m_imag = ext.2.2.2) ∧
  ∀ s ∈ span, ext.1 ≤ s.m_real ∧ s.m_real ≤ ext.2.1 ∧ ext.2.2.1 ≤ s.m_imag ∧
    s.m_imag ≤ ext.2.2.2

instance (span : List Sample) (ext : Int × Int × Int × Int) : Decidable (IsExtrema span ext) := by
  unfold IsExtrema; infer_instance

/-- The engine after `imbalance` has been applied to the frames in order. -/
def DSPEngine.imbalanceFrames (e : DSPEngine) (frames : List (List Sample)) : DSPEngine :=
  frames.foldl (fun acc f => (acc.imbalance f).1) e

/-- A span whose I components cover the whole `qint16` range while its Q components
are all 32767. -/
def tiltSpan : List Sample := [⟨32767, 32767⟩, ⟨-32768, 32767⟩]

/-- A span of `2^32 - 1` samples: zeros, then eight samples with I component 32767. -/
def longSpan : List Sample :=
  List.replicate 4294967287 ⟨0, 0⟩ ++ List.replicate 8 ⟨32767, 0⟩

/-- The overflow log lines among the events of the FIFO: overflow reports and
summaries of suppressed reports. -/
def reports (ev : List FifoEvent) : List FifoEvent :=
  ev.filter (fun x =>
    match x with
    | FifoEvent.overflow _ => true
    | FifoEvent.messagesDropped _ => true
    | _ => false)

/-- The test `total < count` of `SampleFifo::write`: the write drops samples. -/
def SampleFifo.drops (s : SampleFifo) (span : List Sample) : Prop :=
  MIN (toUInt span.length) (uintSub s.m_size s.m_fill) < toUInt span.length

instance (s : SampleFifo) (span : List Sample) : Decidable (s.drops span) := by
  unfold SampleFifo.drops; infer_instance

/-- A read as `readOp`, with the fault of the source made explicit: on a ring of
capacity 0 `readCommit` divides by zero in `% m_size`, and there is no result. -/
def SampleFifo.readOpChecked (s : SampleFifo) (k : Nat) : Option (SampleFifo × List Sample) :=
  if s.m_size = 0 then none else some (s.readOp k)

/-- Run a sequence of operations and collect the events of its writes, in order; `none`
when a read faults or the copy loop of a write does not finish. -/
def runEvents : SampleFifo → List FifoOp → Option (SampleFifo × List FifoEvent)
  | s, [] => some (s, [])
  | s, FifoOp.write span elapsed :: ops =>
    match s.write span elapsed with
    | none => none
    | some r =>
      match runEvents r.1 ops with
      | none => none
      | some r2 => some (r2.1, r.2.2 ++ r2.2)
  | s, FifoOp.read k :: ops =>
    match s.readOpChecked k with
    | none => none
    | some r => runEvents r.1 ops

/-- Number of writes of the sequence that drop samples at their turn. -/
def droppingWrites : SampleFifo → List FifoOp → Nat
  | _, [] => 0
  | s, FifoOp.write span elapsed :: ops =>
    (if s.drops span then 1 else 0) +
      match s.write span elapsed with
      | none => 0
      | some r => droppingWrites r.1 ops
  | s, FifoOp.read k :: ops => droppingWrites (s.readOp k).1 ops

/-- Every write of the sequence that drops samples sees a timer reading of at most
2500 ms. -/
def withinWindow : SampleFifo → List FifoOp → Bool
  | _, [] => true
  | s, FifoOp.write span elapsed :: ops =>
    (decide (s.drops span → elapsed ≤ 2500)) &&
      match s.write span elapsed with
      | none => true
      | some r => withinWindow r.1 ops
  | s, FifoOp.read k :: ops => withinWindow (s.readOp k).1 ops

/-- A full ring of capacity 1 whose overflow reporter is armed. -/
def fullOne : SampleFifo :=
  { m_data := [⟨0, 0⟩], m_suppressed := -1, m_size := 1, m_fill := 1, m_head := 0, m_tail := 0 }

/-- The full ring of capacity 1 right after a first overflow report. -/
def reportedOne : SampleFifo := { fullOne with m_suppressed := 0 }

/-- A dropping write at 10 ms, a read that empties the ring, a write of two samples at
20 ms that drops one, and a write into the full ring at 30 ms. -/
def mixedOps : List FifoOp :=
  [FifoOp.write [⟨1, 1⟩] 10, FifoOp.read 1, FifoOp.write [⟨2, 2⟩, ⟨3, 3⟩] 20,
    FifoOp.write [⟨4, 4⟩] 30]

/-! ## Arithmetic and vector lemmas -/

theorem MIN_eq_min (x y : Nat) : MIN x y = min x y := by
  unfold MIN; split <;> omega

theorem uintSub_of_le {a b : Nat} (hb : b ≤ a) (ha : a < UINT_MOD) : uintSub a b = a - b := by
  unfold uintSub UINT_MOD at *; omega

theorem uintAdd_of_lt {a b : Nat} (h : a + b < UINT_MOD) : uintAdd a b = a + b := by
  unfold uintAdd; exact Nat.mod_eq_of_lt h

theorem length_copyAt (src : List Sample) : ∀ (data : List Sample) (pos : Nat),
    (copyAt data pos src).length = data.length := by
  induction src with
  | nil => intro data pos; rfl
  | cons x xs ih => intro data pos; simp [copyAt, ih]

theorem getD_copyAt (src : List Sample) : ∀ (data : List Sample) (pos j : Nat),
    (copyAt data pos src).getD j default =
      if pos ≤ j ∧ j < pos + src.length ∧ j < data.length then src.getD (j - pos) default
      else data.getD j default := by
  induction src with
  | nil =>
    intro data pos j
    have h : ¬ (pos ≤ j ∧ j < pos + ([] : List Sample).length ∧ j < data.length) := by
      simp only [List.length_nil]; omega
    rw [if_neg h]; rfl
  | cons x xs ih =>
    intro data pos j
    simp only [copyAt, ih, List.length_set, List.length_cons]
    by_cases h1 : pos + 1 ≤ j ∧ j < pos + 1 + xs.length ∧ j < data.length
    · have h2 : pos ≤ j ∧ j < pos + (xs.length + 1) ∧ j < data.length := by omega
      rw [if_pos h1, if_pos h2]
      obtain ⟨k, hk⟩ : ∃ k, j - pos = k + 1 := ⟨j - pos - 1, by omega⟩
      rw [hk, show j - (pos + 1) = k by omega]; simp
    · rw [if_neg h1]
      by_cases h3 : j = pos ∧ j < data.length
      · obtain ⟨rfl, h4⟩ := h3
        rw [if_pos (by omega)]
        simp [List.getD_eq_getElem?_getD, List.getElem?_set, h4]
      · have h5 : ¬ (pos ≤ j ∧ j < pos + (xs.length + 1) ∧ j < data.length) := by omega
        rw [if_neg h5]
        simp only [List.getD_eq_getElem?_getD, List.getElem?_set]
        by_cases h6 : pos = j
        · subst h6
          have h7 : ¬ pos < data.length := by omega
          have h8 : data.length ≤ pos := by omega
          simp [h7, List.getElem?_eq_none h8]
        · simp [h6]

theorem map_getD_range (src : List Sample) : ∀ (n : Nat), n ≤ src.length →
    (List.range n).map (fun j => src.getD j default) = src.take n := by
  intro n hn
  apply List.ext_getElem
  · simp; omega
  · intro i h1 h2
    simp at h1 h2
    simp [List.getD_eq_getElem?_getD, List.getElem?_eq_getElem (show i < src.length by omega)]

theorem mod_add_of_lt {h f n t j : Nat} (ht : (h + f) % n = t) (hj : t + j < n) :
    (h + (f + j)) % n = t + j := by
  rw [← Nat.add_assoc, Nat.add_mod, ht, Nat.add_mod_mod, Nat.mod_eq_of_lt hj]

theorem mod_add_inj {h i k n : Nat} (hi : i < n) (hk : k < n)
    (he : (h + i) % n = (h + k) % n) : i = k := by
  have h1 : i ≡ k [MOD n] := Nat.ModEq.add_left_cancel' h he
  have h2 := h1
  unfold Nat.ModEq at h2
  rwa [Nat.mod_eq_of_lt hi, Nat.mod_eq_of_lt hk] at h2


/-! ## The copy loop of `write` -/

theorem writeLoop_fields : ∀ (fuel : Nat) (s : SampleFifo) (src : List Sample) (rem : Nat),
    s.m_tail < s.m_size → s.m_fill + rem ≤ s.m_size → s.m_size < UINT_MOD → rem ≤ fuel →
    ∃ s', SampleFifo.writeLoop fuel s src rem = some s' ∧ s'.m_size = s.m_size ∧
      s'.m_head = s.m_head ∧ s'.m_fill = s.m_fill + rem ∧
      s'.m_tail = (s.m_tail + rem) % s.m_size ∧ s'.m_suppressed = s.m_suppressed ∧
      s'.m_data.length = s.m_data.length := by
  intro fuel
  induction fuel with
  | zero =>
    intro s src rem ht _ _ hf
    have h0 : rem = 0 := by omega
    subst h0
    exact ⟨s, by simp [SampleFifo.writeLoop], rfl, rfl, rfl, by
      simp [Nat.mod_eq_of_lt ht], rfl, rfl⟩
  | succ fuel ih =>
    intro s src rem ht hfill hsz hf
    by_cases hr : rem > 0
    · have hsub : uintSub s.m_size s.m_tail = s.m_size - s.m_tail :=
        uintSub_of_le (by omega) hsz
      have hlen : MIN rem (uintSub s.m_size s.m_tail) = min rem (s.m_size - s.m_tail) := by
        rw [hsub, MIN_eq_min]
      have hl1 : 0 < min rem (s.m_size - s.m_tail) := by omega
      have hl2 : min rem (s.m_size - s.m_tail) ≤ rem := by omega
      have hmod : (s.m_tail + min rem (s.m_size - s.m_tail)) % s.m_size < s.m_size :=
        Nat.mod_lt _ (by omega)
      have hsub2 : uintSub rem (min rem (s.m_size - s.m_tail))
          = rem - min rem (s.m_size - s.m_tail) := uintSub_of_le hl2 (by omega)
      have hadd1 : uintAdd s.m_tail (min rem (s.m_size - s.m_tail))
          = s.m_tail + min rem (s.m_size - s.m_tail) := uintAdd_of_lt (by omega)
      have hadd2 : uintAdd s.m_fill (min rem (s.m_size - s.m_tail))
          = s.m_fill + min rem (s.m_size - s.m_tail) := uintAdd_of_lt (by omega)
      obtain ⟨s', h1, h2, h3, h4, h5, h6, h7⟩ := ih
        { s with
          m_data := copyAt s.m_data s.m_tail (src.take (min rem (s.m_size - s.m_tail)))
          m_tail := (s.m_tail + min rem (s.m_size - s.m_tail)) % s.m_size
          m_fill := s.m_fill + min rem (s.m_size - s.m_tail) }
        (src.drop (min rem (s.m_size - s.m_tail))) (rem - min rem (s.m_size - s.m_tail))
        hmod (by simp only; omega) hsz (by omega)
      refine ⟨s', ?_, h2, h3, ?_, ?_, h6, ?_⟩
      · rw [SampleFifo.writeLoop, if_pos hr]
        simp only [hlen, hsub2, hadd1, hadd2]
        exact h1
      · rw [h4]; simp only; omega
      · rw [h5]; simp only
        rw [Nat.mod_add_mod]
        congr 1; omega
      · rw [h7]; simp only [length_copyAt]
    · have h0 : rem = 0 := by omega
      subst h0
      exact ⟨s, by simp [SampleFifo.writeLoop], rfl, rfl, rfl, by
        simp [Nat.mod_eq_of_lt ht], rfl, rfl⟩

theorem reportOverflow_fields (s : SampleFifo) (count total : Nat) (elapsed : Int) :
    (s.reportOverflow count total elapsed).1.m_size = s.m_size ∧
    (s.reportOverflow count total elapsed).1.m_fill = s.m_fill ∧
    (s.reportOverflow count total elapsed).1.m_head = s.m_head ∧
    (s.reportOverflow count total elapsed).1.m_tail = s.m_tail ∧
    (s.reportOverflow count total elapsed).1.m_data = s.m_data := by
  unfold SampleFifo.reportOverflow
  split
  · simp
  · split <;> simp

/-- The state on which the copy loop of `write` starts. -/
theorem write_start_fields (s : SampleFifo) (c : Prop) [Decidable c] (count total : Nat)
    (elapsed : Int) :
    (if c then s.reportOverflow count total elapsed else (s, [])).1.m_size = s.m_size ∧
    (if c then s.reportOverflow count total elapsed else (s, [])).1.m_fill = s.m_fill ∧
    (if c then s.reportOverflow count total elapsed else (s, [])).1.m_head = s.m_head ∧
    (if c then s.reportOverflow count total elapsed else (s, [])).1.m_tail = s.m_tail ∧
    (if c then s.reportOverflow count total elapsed else (s, [])).1.m_data = s.m_data := by
  split
  · exact reportOverflow_fields s count total elapsed
  · simp

/-- One pass of the copy loop from an arbitrary tail index, then the rest. -/
theorem writeLoop_any_tail (s : SampleFifo) (src : List Sample) (rem : Nat)
    (hfill : s.m_fill + rem ≤ s.m_size) (hsz : s.m_size < UINT_MOD) :
    ∃ s', SampleFifo.writeLoop (rem + 1) s src rem = some s' ∧ s'.m_size = s.m_size ∧
      s'.m_head = s.m_head ∧ s'.m_fill = s.m_fill + rem ∧ s'.m_suppressed = s.m_suppressed := by
  by_cases hr : rem > 0
  · have hl2 : MIN rem (uintSub s.m_size s.m_tail) ≤ rem := by
      rw [MIN_eq_min]; omega
    have hsub2 : uintSub rem (MIN rem (uintSub s.m_size s.m_tail))
        = rem - MIN rem (uintSub s.m_size s.m_tail) := uintSub_of_le hl2 (by omega)
    have hadd2 : uintAdd s.m_fill (MIN rem (uintSub s.m_size s.m_tail))
        = s.m_fill + MIN rem (uintSub s.m_size s.m_tail) := uintAdd_of_lt (by omega)
    obtain ⟨s', h1, h2, h3, h4, _, h6, _⟩ := writeLoop_fields rem
      { s with
        m_data := copyAt s.m_data s.m_tail (src.take (MIN rem (uintSub s.m_size s.m_tail)))
        m_tail := uintAdd s.m_tail (MIN rem (uintSub s.m_size s.m_tail)) % s.m_size
        m_fill := s.m_fill + MIN rem (uintSub s.m_size s.m_tail) }
      (src.drop (MIN rem (uintSub s.m_size s.m_tail)))
      (rem - MIN rem (uintSub s.m_size s.m_tail))
      (Nat.mod_lt _ (by omega)) (by simp only; omega) hsz (by omega)
    refine ⟨s', ?_, h2, h3, ?_, h6⟩
    · rw [SampleFifo.writeLoop, if_pos hr]
      simp only [hsub2, hadd2]
      exact h1
    · rw [h4]; simp only; omega
  · have h0 : rem = 0 := by omega
    subst h0
    exact ⟨s, by simp [SampleFifo.writeLoop], rfl, rfl, rfl, rfl⟩

/-- C1 (as amended). Ring saturation: on every state with `fill <= capacity`, `write` of
a span of `n < 2^32` samples returns `min(n, capacity - fill)`, the fill afterwards is
the fill before plus the returned value, and the fill does not exceed the (unchanged)
capacity. -/
theorem write_saturation (s : SampleFifo) (span : List Sample) (elapsed : Int)
    (hsz : s.m_size < UINT_MOD) (hfill : s.m_fill ≤ s.m_size) (hn : span.length < UINT_MOD) :
    ∃ s' ev, s.write span elapsed = some (s', min span.length (s.m_size - s.m_fill), ev) ∧
      s'.m_fill = s.m_fill + min span.length (s.m_size - s.m_fill) ∧
      s'.m_size = s.m_size ∧ s'.m_fill ≤ s'.m_size := by
  have hcount : toUInt span.length = span.length := Nat.mod_eq_of_lt hn
  have htotal : MIN span.length (uintSub s.m_size s.m_fill)
      = min span.length (s.m_size - s.m_fill) := by
    rw [uintSub_of_le hfill hsz, MIN_eq_min]
  obtain ⟨g1, g2, g3, g4, g5⟩ := write_start_fields s
    (min span.length (s.m_size - s.m_fill) < span.length) span.length
    (min span.length (s.m_size - s.m_fill)) elapsed
  obtain ⟨s', h1, h2, _, h4, _⟩ := writeLoop_any_tail
    (if min span.length (s.m_size - s.m_fill) < span.length then
      s.reportOverflow span.length (min span.length (s.m_size - s.m_fill)) elapsed
     else (s, [])).1 span (min span.length (s.m_size - s.m_fill))
    (by rw [g1, g2]; omega) (by rw [g1]; exact hsz)
  have hw : s.write span elapsed = some (s', min span.length (s.m_size - s.m_fill),
      (if min span.length (s.m_size - s.m_fill) < span.length then
        s.reportOverflow span.length (min span.length (s.m_size - s.m_fill)) elapsed
       else (s, [])).2 ++ (if s'.m_fill > 0 then [FifoEvent.dataReady] else [])) := by
    unfold SampleFifo.write
    simp only [hcount, htotal, h1]
  refine ⟨s', _, hw, ?_, ?_, ?_⟩
  · rw [h4, g2]
  · rw [h2, g1]
  · rw [h2, g1, h4, g2]; omega


theorem write_saturation_witness :
    ((SampleFifo.ofSize 2).m_size < UINT_MOD ∧
      (SampleFifo.ofSize 2).m_fill ≤ (SampleFifo.ofSize 2).m_size ∧
      [(⟨1, 2⟩ : Sample), ⟨3, 4⟩, ⟨5, 6⟩].length < UINT_MOD) ∧
    ∃ s' ev, (SampleFifo.ofSize 2).write [⟨1, 2⟩, ⟨3, 4⟩, ⟨5, 6⟩] 0
        = some (s', min [(⟨1, 2⟩ : Sample), ⟨3, 4⟩, ⟨5, 6⟩].length
            ((SampleFifo.ofSize 2).m_size - (SampleFifo.ofSize 2).m_fill), ev) ∧
      s'.m_fill = (SampleFifo.ofSize 2).m_fill + min [(⟨1, 2⟩ : Sample), ⟨3, 4⟩, ⟨5, 6⟩].length
            ((SampleFifo.ofSize 2).m_size - (SampleFifo.ofSize 2).m_fill) ∧
      s'.m_size = (SampleFifo.ofSize 2).m_size ∧ s'.m_fill ≤ s'.m_size :=
  ⟨by decide, write_saturation (SampleFifo.ofSize 2) [⟨1, 2⟩, ⟨3, 4⟩, ⟨5, 6⟩] 0
    (by decide) (by decide) (by decide)⟩

/-! ## `readBegin` -/


theorem spanOf_length (data : List Sample) (b e : Nat) : (spanOf data b e).length = e - b := by
  simp [spanOf]

/-- The ranges handed out by `readBegin` when the request does not reach the end of the vector. -/
theorem readBegin_flat (s : SampleFifo) (r : Nat) (hsz : s.m_size < UINT_MOD)
    (hhead : s.m_head < s.m_size) (hpos : 0 < min r s.m_fill)
    (hfit : s.m_head + min r s.m_fill ≤ s.m_size) :
    s.readBegin r = (s, ⟨min r s.m_fill, s.m_head, s.m_head + min r s.m_fill,
        s.m_data.length, s.m_data.length⟩,
      if min r s.m_fill < r then [FifoEvent.underflow (uintSub r (min r s.m_fill))] else []) := by
  have hsub : uintSub s.m_size s.m_head = s.m_size - s.m_head := uintSub_of_le (by omega) hsz
  have hlen : min (min r s.m_fill) (s.m_size - s.m_head) = min r s.m_fill := by omega
  have hrem : uintSub (min r s.m_fill) (min r s.m_fill) = 0 := by
    rw [uintSub_of_le (le_refl _) (by omega)]; omega
  have hdone : uintAdd 0 (min r s.m_fill) = min r s.m_fill := by
    rw [uintAdd_of_lt (by omega)]; omega
  unfold SampleFifo.readBegin
  simp only [MIN_eq_min, hsub, hlen, hrem, hdone, gt_iff_lt, if_pos hpos, lt_irrefl, if_false]

/-- The ranges handed out by `readBegin` when the request wraps around the end of the vector. -/
theorem readBegin_wrapped (s : SampleFifo) (r : Nat) (hsz : s.m_size < UINT_MOD)
    (hhead : s.m_head < s.m_size) (hfill : s.m_fill ≤ s.m_size)
    (hfit : s.m_size < s.m_head + min r s.m_fill) :
    s.readBegin r = (s, ⟨min r s.m_fill, s.m_head, s.m_size, 0,
        s.m_head + min r s.m_fill - s.m_size⟩,
      if min r s.m_fill < r then [FifoEvent.underflow (uintSub r (min r s.m_fill))] else []) := by
  have hpos : 0 < min r s.m_fill := by omega
  have hsub : uintSub s.m_size s.m_head = s.m_size - s.m_head := uintSub_of_le (by omega) hsz
  have hlen : min (min r s.m_fill) (s.m_size - s.m_head) = s.m_size - s.m_head := by omega
  have hrem : uintSub (min r s.m_fill) (s.m_size - s.m_head)
      = s.m_head + min r s.m_fill - s.m_size := by
    rw [uintSub_of_le (by omega) (by omega)]; omega
  have hdone : uintAdd 0 (s.m_size - s.m_head) = s.m_size - s.m_head := by
    rw [uintAdd_of_lt (by omega)]; omega
  have hh1 : uintAdd s.m_head (s.m_size - s.m_head) % s.m_size = 0 := by
    rw [uintAdd_of_lt (by omega), show s.m_head + (s.m_size - s.m_head) = s.m_size by omega,
      Nat.mod_self]
  have hsub0 : uintSub s.m_size 0 = s.m_size := by
    rw [uintSub_of_le (by omega) hsz]; omega
  have hpos2 : 0 < s.m_head + min r s.m_fill - s.m_size := by omega
  have hlen2 : min (s.m_head + min r s.m_fill - s.m_size) s.m_size
      = s.m_head + min r s.m_fill - s.m_size := by omega
  have hdone2 : uintAdd (s.m_size - s.m_head) (s.m_head + min r s.m_fill - s.m_size)
      = min r s.m_fill := by
    rw [uintAdd_of_lt (by omega)]; omega
  have he1 : s.m_head + (s.m_size - s.m_head) = s.m_size := by omega
  unfold SampleFifo.readBegin
  simp only [MIN_eq_min, hsub, hlen, hrem, hdone, hh1, hsub0, hlen2, hdone2, he1, gt_iff_lt,
    if_pos hpos, if_pos hpos2, Nat.zero_add]

/-- The ranges handed out by `readBegin` when nothing can be read. -/
theorem readBegin_none (s : SampleFifo) (r : Nat) (hzero : min r s.m_fill = 0) :
    s.readBegin r = (s, ⟨0, s.m_data.length, s.m_data.length, s.m_data.length,
        s.m_data.length⟩,
      if 0 < r then [FifoEvent.underflow (uintSub r 0)] else []) := by
  unfold SampleFifo.readBegin
  simp only [MIN_eq_min, hzero, gt_iff_lt, lt_irrefl, if_false]

theorem spanOf_self (data : List Sample) (b : Nat) : spanOf data b b = [] := by
  simp [spanOf]

/-- A range that stays below the capacity is the logical slice starting at `head`. -/
theorem spanOf_flat (s : SampleFifo) (d : Nat) (hfit : s.m_head + d ≤ s.m_size) :
    spanOf s.m_data s.m_head (s.m_head + d)
      = (List.range d).map (fun i => s.m_data.getD ((s.m_head + i) % s.m_size) default) := by
  unfold spanOf
  rw [Nat.add_sub_cancel_left]
  apply List.map_congr_left
  intro i hi
  rw [List.mem_range] at hi
  rw [Nat.mod_eq_of_lt (by omega)]

/-- A range that wraps: the tail of the vector followed by its start. -/
theorem spanOf_wrapped (s : SampleFifo) (d : Nat) (hhead : s.m_head < s.m_size)
    (hd : d ≤ s.m_size) (hfit : s.m_size < s.m_head + d) :
    spanOf s.m_data s.m_head s.m_size ++ spanOf s.m_data 0 (s.m_head + d - s.m_size)
      = (List.range d).map (fun i => s.m_data.getD ((s.m_head + i) % s.m_size) default) := by
  have hsplit : d = (s.m_size - s.m_head) + (s.m_head + d - s.m_size) := by omega
  have h1 := spanOf_flat s (s.m_size - s.m_head) (by omega)
  rw [show s.m_head + (s.m_size - s.m_head) = s.m_size by omega] at h1
  conv_rhs => rw [hsplit, List.range_add, List.map_append, List.map_map]
  rw [h1]
  congr 1
  unfold spanOf
  rw [Nat.sub_zero]
  apply List.map_congr_left
  intro j hj
  rw [List.mem_range] at hj
  simp only [Function.comp, Nat.zero_add]
  rw [show s.m_head + (s.m_size - s.m_head + j) = j + s.m_size by omega, Nat.add_mod_right,
    Nat.mod_eq_of_lt (by omega)]

/-- The count returned by `readBegin` and the samples of the two ranges together. -/
theorem readBegin_concat (s : SampleFifo) (r : Nat)
    (hsz : s.m_size < UINT_MOD) (hhead : s.m_head < s.m_size) (hfill : s.m_fill ≤ s.m_size) :
    (s.readBegin r).2.1.done = min r s.m_fill ∧
    spanOf s.m_data (s.readBegin r).2.1.part1Begin (s.readBegin r).2.1.part1End
      ++ spanOf s.m_data (s.readBegin r).2.1.part2Begin (s.readBegin r).2.1.part2End
      = (List.range (min r s.m_fill)).map
          (fun i => s.m_data.getD ((s.m_head + i) % s.m_size) default) := by
  by_cases hz : min r s.m_fill = 0
  · rw [readBegin_none s r hz]
    refine ⟨hz.symm, ?_⟩
    simp only [spanOf_self, hz]; rfl
  · by_cases hfit : s.m_head + min r s.m_fill ≤ s.m_size
    · rw [readBegin_flat s r hsz hhead (by omega) hfit]
      refine ⟨rfl, ?_⟩
      simp only [spanOf_self, List.append_nil]; exact spanOf_flat s _ hfit
    · rw [readBegin_wrapped s r hsz hhead hfill (by omega)]
      exact ⟨rfl, spanOf_wrapped s _ hhead (by omega) (by omega)⟩

/-- C3. Ring wrap: on a state with `head < capacity` (so `capacity > 0`) and
`fill <= capacity`, `readBegin(r)` returns `d = min(r, fill)`; the two parts have `d`
samples together; `part1 ++ part2` is the stored samples at the logical positions
`head, ..., head + d - 1` modulo the capacity; `part2` is non-empty exactly when
`head + d > capacity`; and the state (head, tail, fill) is left unchanged. -/
theorem readBegin_ring_wrap (s : SampleFifo) (r : Nat)
    (hsz : s.m_size < UINT_MOD) (hhead : s.m_head < s.m_size) (hfill : s.m_fill ≤ s.m_size) :
    (s.readBegin r).2.1.done = min r s.m_fill ∧
    (spanOf s.m_data (s.readBegin r).2.1.part1Begin (s.readBegin r).2.1.part1End).length
      + (spanOf s.m_data (s.readBegin r).2.1.part2Begin (s.readBegin r).2.1.part2End).length
      = min r s.m_fill ∧
    spanOf s.m_data (s.readBegin r).2.1.part1Begin (s.readBegin r).2.1.part1End
      ++ spanOf s.m_data (s.readBegin r).2.1.part2Begin (s.readBegin r).2.1.part2End
      = (List.range (min r s.m_fill)).map
          (fun i => s.m_data.getD ((s.m_head + i) % s.m_size) default) ∧
    ((s.readBegin r).2.1.part2Begin ≠ (s.readBegin r).2.1.part2End
      ↔ s.m_size < s.m_head + min r s.m_fill) ∧
    (s.readBegin r).1.m_head = s.m_head ∧ (s.readBegin r).1.m_tail = s.m_tail ∧
    (s.readBegin r).1.m_fill = s.m_fill := by
  by_cases hz : min r s.m_fill = 0
  · rw [readBegin_none s r hz]
    refine ⟨hz.symm, ?_, ?_, ?_, rfl, rfl, rfl⟩
    · simp only [spanOf_length]; omega
    · simp only [spanOf_self, hz]; rfl
    · constructor
      · intro h; exact absurd rfl h
      · intro h; omega
  · by_cases hfit : s.m_head + min r s.m_fill ≤ s.m_size
    · rw [readBegin_flat s r hsz hhead (by omega) hfit]
      refine ⟨rfl, ?_, ?_, ?_, rfl, rfl, rfl⟩
      · simp only [spanOf_length]; omega
      · simp only [spanOf_self, List.append_nil]; exact spanOf_flat s _ hfit
      · constructor
        · intro h; exact absurd rfl h
        · intro h; omega
    · rw [readBegin_wrapped s r hsz hhead hfill (by omega)]
      refine ⟨rfl, ?_, ?_, ?_, rfl, rfl, rfl⟩
      · simp only [spanOf_length]; omega
      · exact spanOf_wrapped s _ hhead (by omega) (by omega)
      · constructor
        · intro _; omega
        · intro _; simp only; omega


theorem readBegin_ring_wrap_witness :
    (wrapFifo.m_size < UINT_MOD ∧ wrapFifo.m_head < wrapFifo.m_size ∧
      wrapFifo.m_fill ≤ wrapFifo.m_size) ∧
    ((wrapFifo.readBegin 5).2.1.done = min 5 wrapFifo.m_fill ∧
    (spanOf wrapFifo.m_data (wrapFifo.readBegin 5).2.1.part1Begin
        (wrapFifo.readBegin 5).2.1.part1End).length
      + (spanOf wrapFifo.m_data (wrapFifo.readBegin 5).2.1.part2Begin
        (wrapFifo.readBegin 5).2.1.part2End).length
      = min 5 wrapFifo.m_fill ∧
    spanOf wrapFifo.m_data (wrapFifo.readBegin 5).2.1.part1Begin
        (wrapFifo.readBegin 5).2.1.part1End
      ++ spanOf wrapFifo.m_data (wrapFifo.readBegin 5).2.1.part2Begin
        (wrapFifo.readBegin 5).2.1.part2End
      = (List.range (min 5 wrapFifo.m_fill)).map
          (fun i => wrapFifo.m_data.getD ((wrapFifo.m_head + i) % wrapFifo.m_size) default) ∧
    ((wrapFifo.readBegin 5).2.1.part2Begin ≠ (wrapFifo.readBegin 5).2.1.part2End
      ↔ wrapFifo.m_size < wrapFifo.m_head + min 5 wrapFifo.m_fill) ∧
    (wrapFifo.readBegin 5).1.m_head = wrapFifo.m_head ∧
    (wrapFifo.readBegin 5).1.m_tail = wrapFifo.m_tail ∧
    (wrapFifo.readBegin 5).1.m_fill = wrapFifo.m_fill) :=
  ⟨by decide, readBegin_ring_wrap wrapFifo 5 (by decide) (by decide) (by decide)⟩

/-! ## `readCommit` -/

/-- The result of `readCommit` when `m_head + count` does not wrap. -/
theorem readCommit_eq (s : SampleFifo) (n : Nat) (hfill : s.m_fill < UINT_MOD)
    (hno : s.m_head + min n s.m_fill < UINT_MOD) :
    s.readCommit n = ({ s with m_head := (s.m_head + min n s.m_fill) % s.m_size,
                               m_fill := s.m_fill - min n s.m_fill },
      min n s.m_fill, if n > s.m_fill then [FifoEvent.cannotCommit] else []) := by
  have hc : (if n > s.m_fill then s.m_fill else n) = min n s.m_fill := by
    split <;> omega
  unfold SampleFifo.readCommit
  simp only [hc, uintAdd_of_lt hno, uintSub_of_le (show min n s.m_fill ≤ s.m_fill by omega) hfill]

/-- The fields after `readCommit` when `m_head + count` does not wrap. -/
theorem readCommit_fields_of_lt (s : SampleFifo) (n : Nat) (hfill : s.m_fill < UINT_MOD)
    (hno : s.m_head + min n s.m_fill < UINT_MOD) :
    (s.readCommit n).1.m_head = (s.m_head + min n s.m_fill) % s.m_size ∧
    (s.readCommit n).1.m_fill = s.m_fill - min n s.m_fill ∧
    (s.readCommit n).1.m_tail = s.m_tail ∧ (s.readCommit n).1.m_data = s.m_data ∧
    (s.readCommit n).1.m_size = s.m_size := by
  rw [readCommit_eq s n hfill hno]
  exact ⟨rfl, rfl, rfl, rfl, rfl⟩

/-- `readCommit` keeps the ring invariant when `m_head + count` does not wrap. -/
theorem readCommit_ringInv_of_lt (s : SampleFifo) (n : Nat) (hinv : s.ringInv)
    (hpos : 0 < s.m_size) (hfill : s.m_fill < UINT_MOD)
    (hno : s.m_head + min n s.m_fill < UINT_MOD) : (s.readCommit n).1.ringInv := by
  obtain ⟨h1, h2⟩ := hinv
  obtain ⟨h3, h4, h5⟩ := h2 hpos
  rw [readCommit_eq s n hfill hno]
  refine ⟨by simp only; omega, fun _ => ⟨Nat.mod_lt _ hpos, h4, ?_⟩⟩
  simp only
  rw [Nat.mod_add_mod, ← h5]
  congr 1; omega

theorem readCommit_ringInv (s : SampleFifo) (n : Nat) (hinv : s.ringInv) (hpos : 0 < s.m_size)
    (hcap : s.m_size ≤ 2147483648) : (s.readCommit n).1.ringInv := by
  obtain ⟨h1, h2⟩ := hinv
  obtain ⟨h3, h4, h5⟩ := h2 hpos
  exact readCommit_ringInv_of_lt s n ⟨h1, h2⟩ hpos (by unfold UINT_MOD; omega)
    (by unfold UINT_MOD; omega)

/-- C5 (as amended). On a ring of capacity `0 < c <= 2^31` with `head < c` and
`fill <= c`, `readCommit(n)` returns `m = min(n, fill)`, sets head to
`(head + m) mod c` and fill to `fill - m`, and leaves tail, capacity and the stored
samples unchanged: a commit of more than is available is clamped to `fill`. -/
theorem readCommit_clamped (s : SampleFifo) (n : Nat) (hcap : s.m_size ≤ 2147483648)
    (hhead : s.m_head < s.m_size) (hfill : s.m_fill ≤ s.m_size) :
    (s.readCommit n).2.1 = min n s.m_fill ∧
    (s.readCommit n).1.m_head = (s.m_head + min n s.m_fill) % s.m_size ∧
    (s.readCommit n).1.m_fill = s.m_fill - min n s.m_fill ∧
    (s.readCommit n).1.m_tail = s.m_tail ∧ (s.readCommit n).1.m_data = s.m_data ∧
    (s.readCommit n).1.m_size = s.m_size := by
  rw [readCommit_eq s n (by unfold UINT_MOD; omega) (by unfold UINT_MOD; omega)]
  exact ⟨rfl, rfl, rfl, rfl, rfl, rfl⟩

theorem readCommit_clamped_witness :
    (wrapFifo.m_size ≤ 2147483648 ∧ wrapFifo.m_head < wrapFifo.m_size ∧
      wrapFifo.m_fill ≤ wrapFifo.m_size) ∧
    ((wrapFifo.readCommit 7).2.1 = min 7 wrapFifo.m_fill ∧
    (wrapFifo.readCommit 7).1.m_head = (wrapFifo.m_head + min 7 wrapFifo.m_fill) % wrapFifo.m_size ∧
    (wrapFifo.readCommit 7).1.m_fill = wrapFifo.m_fill - min 7 wrapFifo.m_fill ∧
    (wrapFifo.readCommit 7).1.m_tail = wrapFifo.m_tail ∧
    (wrapFifo.readCommit 7).1.m_data = wrapFifo.m_data ∧
    (wrapFifo.readCommit 7).1.m_size = wrapFifo.m_size) :=
  ⟨by decide, readCommit_clamped wrapFifo 7 (by decide) (by decide) (by decide)⟩

/-- C5, counterexample. On the full ring of capacity `3 * 2^30` with head at the last
slot, `readCommit(2^30 + 1)` leaves head at 0: the 32-bit sum `m_head + count` wraps
to 0, whereas `(head + m) mod capacity` is `2^30`. -/
theorem readCommit_head_wraps :
    0 < bigFifo.m_size ∧ bigFifo.ringInv ∧
    (bigFifo.readCommit 1073741825).2.1 = 1073741825 ∧
    (bigFifo.readCommit 1073741825).1.m_head = 0 ∧
    (bigFifo.m_head + min 1073741825 bigFifo.m_fill) % bigFifo.m_size = 1073741824 ∧
    ¬ ((bigFifo.readCommit 1073741825).1.m_head
        = (bigFifo.m_head + min 1073741825 bigFifo.m_fill) % bigFifo.m_size) := by
  decide

/-! ## Contents of the ring -/

/-- Copying a chunk at the tail of a consistent ring appends it to the contents. -/
theorem contents_copy (s : SampleFifo) (chunk : List Sample) (t : Nat)
    (hinv : (s.m_head + s.m_fill) % s.m_size = s.m_tail)
    (hfit : s.m_tail + chunk.length ≤ s.m_size) (hfill : s.m_fill + chunk.length ≤ s.m_size)
    (hlen : s.m_data.length = s.m_size) :
    SampleFifo.contents { s with m_data := copyAt s.m_data s.m_tail chunk, m_tail := t,
                                 m_fill := s.m_fill + chunk.length }
      = s.contents ++ chunk := by
  unfold SampleFifo.contents
  simp only
  rw [List.range_add, List.map_append, List.map_map]
  congr 1
  · apply List.map_congr_left
    intro i hi
    rw [List.mem_range] at hi
    rw [getD_copyAt, if_neg]
    rintro ⟨h1, h2, _⟩
    have h3 : (s.m_head + (s.m_fill + ((s.m_head + i) % s.m_size - s.m_tail))) % s.m_size
        = s.m_tail + ((s.m_head + i) % s.m_size - s.m_tail) :=
      mod_add_of_lt hinv (by omega)
    have h4 : s.m_tail + ((s.m_head + i) % s.m_size - s.m_tail) = (s.m_head + i) % s.m_size := by
      omega
    rw [h4] at h3
    have h5 := mod_add_inj (by omega) (by omega) h3
    omega
  · have h6 : (List.range chunk.length).map
        ((fun i => (copyAt s.m_data s.m_tail chunk).getD ((s.m_head + i) % s.m_size) default)
          ∘ fun x => s.m_fill + x)
        = (List.range chunk.length).map (fun j => chunk.getD j default) := by
      apply List.map_congr_left
      intro j hj
      rw [List.mem_range] at hj
      simp only [Function.comp]
      rw [mod_add_of_lt hinv (by omega), getD_copyAt, if_pos (by omega), Nat.add_sub_cancel_left]
    rw [h6, map_getD_range chunk _ (le_refl _), List.take_length]

theorem writeLoop_contents : ∀ (fuel : Nat) (s : SampleFifo) (src : List Sample) (rem : Nat)
    (s' : SampleFifo), SampleFifo.writeLoop fuel s src rem = some s' →
    s.m_tail < s.m_size → (s.m_head + s.m_fill) % s.m_size = s.m_tail →
    s.m_fill + rem ≤ s.m_size → s.m_size < UINT_MOD → rem ≤ src.length →
    s.m_data.length = s.m_size → s'.contents = s.contents ++ src.take rem := by
  intro fuel
  induction fuel with
  | zero =>
    intro s src rem s' hrun _ _ _ _ _ _
    by_cases hr : rem > 0
    · simp [SampleFifo.writeLoop, hr] at hrun
    · have h0 : rem = 0 := by omega
      subst h0
      simp [SampleFifo.writeLoop] at hrun
      subst hrun
      simp
  | succ fuel ih =>
    intro s src rem s' hrun ht hinv hfill hsz hsrc hlen
    by_cases hr : rem > 0
    · have hsub : uintSub s.m_size s.m_tail = s.m_size - s.m_tail :=
        uintSub_of_le (by omega) hsz
      have hlen1 : MIN rem (uintSub s.m_size s.m_tail) = min rem (s.m_size - s.m_tail) := by
        rw [hsub, MIN_eq_min]
      have hl2 : min rem (s.m_size - s.m_tail) ≤ rem := by omega
      have hsub2 : uintSub rem (min rem (s.m_size - s.m_tail))
          = rem - min rem (s.m_size - s.m_tail) := uintSub_of_le hl2 (by omega)
      have hadd1 : uintAdd s.m_tail (min rem (s.m_size - s.m_tail))
          = s.m_tail + min rem (s.m_size - s.m_tail) := uintAdd_of_lt (by omega)
      have hadd2 : uintAdd s.m_fill (min rem (s.m_size - s.m_tail))
          = s.m_fill + min rem (s.m_size - s.m_tail) := uintAdd_of_lt (by omega)
      have hchunk : (src.take (min rem (s.m_size - s.m_tail))).length
          = min rem (s.m_size - s.m_tail) := by
        rw [List.length_take]; omega
      rw [SampleFifo.writeLoop, if_pos hr] at hrun
      simp only [hlen1, hsub2, hadd1, hadd2] at hrun
      have hstep := contents_copy s (src.take (min rem (s.m_size - s.m_tail)))
        ((s.m_tail + min rem (s.m_size - s.m_tail)) % s.m_size) hinv
        (by rw [hchunk]; omega) (by rw [hchunk]; omega) hlen
      rw [hchunk] at hstep
      have hrec := ih _ _ _ s' hrun (Nat.mod_lt _ (by omega))
        (by simp only; rw [← Nat.add_assoc, ← Nat.mod_add_mod, hinv])
        (by simp only; omega) hsz (by rw [List.length_drop]; omega)
        (by simp only [length_copyAt]; exact hlen)
      rw [hrec, hstep, List.append_assoc]
      congr 1
      conv_rhs => rw [show rem = min rem (s.m_size - s.m_tail)
        + (rem - min rem (s.m_size - s.m_tail)) by omega, List.take_add]
    · have h0 : rem = 0 := by omega
      subst h0
      simp [SampleFifo.writeLoop] at hrun
      subst hrun
      simp

/-- What `write` does on a consistent ring of non-zero capacity. -/
theorem write_spec (s : SampleFifo) (span : List Sample) (elapsed : Int)
    (hsz : s.m_size < UINT_MOD) (hpos : 0 < s.m_size) (hinv : s.ringInv) :
    ∃ s' ev, s.write span elapsed
        = some (s', min (span.length % UINT_MOD) (s.m_size - s.m_fill), ev) ∧
      s'.m_size = s.m_size ∧ s'.m_head = s.m_head ∧
      s'.m_fill = s.m_fill + min (span.length % UINT_MOD) (s.m_size - s.m_fill) ∧
      s'.m_tail = (s.m_tail + min (span.length % UINT_MOD) (s.m_size - s.m_fill)) % s.m_size ∧
      s'.m_data.length = s.m_data.length ∧
      (s.m_data.length = s.m_size →
        s'.contents = s.contents
          ++ span.take (min (span.length % UINT_MOD) (s.m_size - s.m_fill))) := by
  obtain ⟨h1, h2⟩ := hinv
  obtain ⟨_, h4, h5⟩ := h2 hpos
  have htotal : MIN (toUInt span.length) (uintSub s.m_size s.m_fill)
      = min (span.length % UINT_MOD) (s.m_size - s.m_fill) := by
    rw [uintSub_of_le h1 hsz, MIN_eq_min]; rfl
  obtain ⟨g1, g2, g3, g4, g5⟩ := write_start_fields s
    (min (span.length % UINT_MOD) (s.m_size - s.m_fill) < toUInt span.length)
    (toUInt span.length) (min (span.length % UINT_MOD) (s.m_size - s.m_fill)) elapsed
  unfold SampleFifo.write
  simp only [htotal]
  generalize (if min (span.length % UINT_MOD) (s.m_size - s.m_fill) < toUInt span.length then
      s.reportOverflow (toUInt span.length)
        (min (span.length % UINT_MOD) (s.m_size - s.m_fill)) elapsed
     else (s, [])) = st at g1 g2 g3 g4 g5 ⊢
  have hmod : span.length % UINT_MOD ≤ span.length := Nat.mod_le _ _
  obtain ⟨s', k1, k2, k3, k4, k5, _, k7⟩ := writeLoop_fields
    (min (span.length % UINT_MOD) (s.m_size - s.m_fill) + 1) st.1 span
    (min (span.length % UINT_MOD) (s.m_size - s.m_fill))
    (by rw [g1, g4]; exact h4) (by rw [g1, g2]; omega) (by rw [g1]; exact hsz) (by omega)
  have hc := writeLoop_contents _ _ _ _ s' k1
    (by rw [g1, g4]; exact h4) (by rw [g1, g2, g3, g4]; exact h5) (by rw [g1, g2]; omega)
    (by rw [g1]; exact hsz) (by omega)
  rw [k1]
  refine ⟨s', _, rfl, by rw [k2, g1], by rw [k3, g3], by rw [k4, g2], by rw [k5, g1, g4],
    by rw [k7, g5], ?_⟩
  intro hlen
  rw [hc (by rw [g5, g1]; exact hlen)]
  congr 1
  unfold SampleFifo.contents
  rw [g1, g2, g3, g5]

theorem write_ringInv (s : SampleFifo) (span : List Sample) (elapsed : Int)
    (hsz : s.m_size < UINT_MOD) (hpos : 0 < s.m_size) (hinv : s.ringInv) :
    ∃ s' n ev, s.write span elapsed = some (s', n, ev) ∧ s'.ringInv := by
  obtain ⟨s', ev, hw, k2, k3, k4, k5, _, _⟩ := write_spec s span elapsed hsz hpos hinv
  obtain ⟨h1, h2⟩ := hinv
  obtain ⟨h3, _, h5⟩ := h2 hpos
  refine ⟨s', _, ev, hw, ?_, fun _ => ⟨?_, ?_, ?_⟩⟩
  · rw [k4, k2]; omega
  · rw [k3, k2]; exact h3
  · rw [k5, k2]; exact Nat.mod_lt _ hpos
  · rw [k2, k3, k4, k5, ← Nat.add_assoc, ← Nat.mod_add_mod, h5]

/-- C1, counterexample. A span of `2^32 + 1` samples written into an empty ring of
capacity 2: the count narrowed to `uint` is 1, so `write` returns 1 and the fill
afterwards is 1, while `min(n, capacity - fill_before)` is 2. -/
theorem write_truncates_count :
    (SampleFifo.ofSize 2).m_fill ≤ (SampleFifo.ofSize 2).m_size ∧
    (List.replicate 4294967297 (⟨0, 0⟩ : Sample)).length = 4294967297 ∧
    min (List.replicate 4294967297 (⟨0, 0⟩ : Sample)).length
      ((SampleFifo.ofSize 2).m_size - (SampleFifo.ofSize 2).m_fill) = 2 ∧
    ∃ s' ev, (SampleFifo.ofSize 2).write (List.replicate 4294967297 ⟨0, 0⟩) 0
        = some (s', 1, ev) ∧ s'.m_fill = 1 := by
  have hlen : (List.replicate 4294967297 (⟨0, 0⟩ : Sample)).length = 4294967297 :=
    List.length_replicate _ _
  obtain ⟨s', ev, hw, _, _, k4, _, _, _⟩ := write_spec (SampleFifo.ofSize 2)
    (List.replicate 4294967297 ⟨0, 0⟩) 0 (by decide) (by decide) (by decide)
  have hmin : min ((List.replicate 4294967297 (⟨0, 0⟩ : Sample)).length % UINT_MOD)
      ((SampleFifo.ofSize 2).m_size - (SampleFifo.ofSize 2).m_fill) = 1 := by
    rw [hlen]; decide
  rw [hmin] at hw k4
  refine ⟨by decide, hlen, ?_, s', ev, hw, ?_⟩
  · rw [hlen]; decide
  · rw [k4]; decide

/-! ## The ring invariant -/

theorem create_ringInv (f : SampleFifo) (s : Nat) : (f.create s).1.ringInv := by
  unfold SampleFifo.create SampleFifo.ringInv
  simp only
  exact ⟨Nat.zero_le _, fun h => ⟨h, h, Nat.zero_mod _⟩⟩

theorem setSize_ringInv (f : SampleFifo) (size : Int) : (f.setSize size).1.ringInv := by
  unfold SampleFifo.setSize
  exact create_ringInv f _

/-- C4 (as amended). The ring invariant holds after `create(s)` and `setSize(s)`; on a
ring of capacity `> 0` it is preserved by every `write` and every `readBegin`, and by
every `readCommit` when the capacity is at most `2^31`. -/
theorem ring_invariant :
    (∀ (f : SampleFifo) (s : Nat), (f.create s).1.ringInv) ∧
    (∀ (f : SampleFifo) (size : Int), (f.setSize size).1.ringInv) ∧
    (∀ (s : SampleFifo) (span : List Sample) (elapsed : Int), s.m_size < UINT_MOD →
      0 < s.m_size → s.ringInv →
      ∃ s' n ev, s.write span elapsed = some (s', n, ev) ∧ s'.ringInv) ∧
    (∀ (s : SampleFifo) (r : Nat), 0 < s.m_size → s.ringInv → (s.readBegin r).1.ringInv) ∧
    (∀ (s : SampleFifo) (n : Nat), 0 < s.m_size → s.m_size ≤ 2147483648 → s.ringInv →
      (s.readCommit n).1.ringInv) :=
  ⟨create_ringInv, setSize_ringInv, write_ringInv,
    fun _ _ _ h => h, fun s n hpos hcap hinv => readCommit_ringInv s n hinv hpos hcap⟩

theorem ring_invariant_witness :
    (wrapFifo.m_size < UINT_MOD ∧ 0 < wrapFifo.m_size ∧ wrapFifo.m_size ≤ 2147483648 ∧
      wrapFifo.ringInv) ∧
    (∃ s' n ev, wrapFifo.write [⟨1, 2⟩, ⟨3, 4⟩] 0 = some (s', n, ev) ∧ s'.ringInv) ∧
    (wrapFifo.readBegin 2).1.ringInv ∧ (wrapFifo.readCommit 2).1.ringInv :=
  ⟨by decide, ring_invariant.2.2.1 wrapFifo [⟨1, 2⟩, ⟨3, 4⟩] 0 (by decide) (by decide) (by decide),
    ring_invariant.2.2.2.1 wrapFifo 2 (by decide) (by decide),
    ring_invariant.2.2.2.2 wrapFifo 2 (by decide) (by decide) (by decide)⟩

/-- C4, counterexample. The full ring of capacity `3 * 2^30` with head at the last
slot satisfies the ring invariant, and `readCommit(2^30 + 1)` breaks it: the 32-bit sum
`m_head + count` wraps, so head becomes 0 and `(head + fill) mod capacity` is no longer
the tail index. -/
theorem readCommit_breaks_ringInv :
    0 < bigFifo.m_size ∧ bigFifo.ringInv ∧ ¬ (bigFifo.readCommit 1073741825).1.ringInv := by
  decide

/-! ## FIFO order -/

theorem readBegin_state (s : SampleFifo) (r : Nat) : (s.readBegin r).1 = s := rfl

theorem contents_take (s : SampleFifo) (d : Nat) (hd : d ≤ s.m_fill) :
    s.contents.take d
      = (List.range d).map (fun i => s.m_data.getD ((s.m_head + i) % s.m_size) default) := by
  unfold SampleFifo.contents
  rw [← List.map_take, List.take_range, Nat.min_eq_left hd]

theorem contents_readCommit (s : SampleFifo) (n : Nat) (hfill : s.m_fill < UINT_MOD)
    (hno : s.m_head + min n s.m_fill < UINT_MOD) :
    (s.readCommit n).1.contents = s.contents.drop (min n s.m_fill) := by
  rw [readCommit_eq s n hfill hno]
  unfold SampleFifo.contents
  apply List.ext_getElem
  · simp
  · intro i h1 h2
    simp only [List.getElem_map, List.getElem_range, List.getElem_drop]
    rw [Nat.mod_add_mod, Nat.add_assoc]

/-- A read hands out the first `min k fill` stored samples and drops them from the ring. -/
theorem readOp_spec (s : SampleFifo) (k : Nat) (hsz : s.m_size < UINT_MOD)
    (hhead : s.m_head < s.m_size) (hfill : s.m_fill ≤ s.m_size) :
    (s.readOp k).2 = s.contents.take (min k s.m_fill) ∧
    (s.readOp k).1 = (s.readCommit (min k s.m_fill)).1 := by
  obtain ⟨r1, r3⟩ := readBegin_concat s k hsz hhead hfill
  unfold SampleFifo.readOp
  simp only [readBegin_state, r1]
  exact ⟨by rw [r3, contents_take s _ (by omega)], trivial⟩

theorem runOps_spec : ∀ (ops : List FifoOp) (s : SampleFifo), s.ringInv → 0 < s.m_size →
    s.m_size ≤ 2147483648 → s.m_data.length = s.m_size → withinCapacity s ops = true →
    ∃ s' out, runOps s ops = some (s', out) ∧ out ++ s'.contents = s.contents ++ written ops := by
  intro ops
  induction ops with
  | nil =>
    intro s _ _ _ _ _
    exact ⟨s, [], rfl, by simp [written]⟩
  | cons op ops ih =>
    intro s hinv hpos hcap hlen hfits
    have hsz : s.m_size < UINT_MOD := by unfold UINT_MOD; omega
    cases op with
    | write span elapsed =>
      rw [withinCapacity, Bool.and_eq_true, decide_eq_true_eq] at hfits
      obtain ⟨hfit, hrest⟩ := hfits
      obtain ⟨s1, ev, hw, k2, _, k4, _, k6, k7⟩ := write_spec s span elapsed hsz hpos hinv
      obtain ⟨s1', n', ev', hw', hinv1⟩ := write_ringInv s span elapsed hsz hpos hinv
      rw [hw] at hw'
      have hs1 : s1' = s1 := by
        have := Option.some.inj hw'
        exact (congrArg Prod.fst this).symm
      subst hs1
      have hT : min (span.length % UINT_MOD) (s.m_size - s.m_fill) = span.length := by
        rw [Nat.mod_eq_of_lt (by omega)]; omega
      rw [hw] at hrest
      obtain ⟨s', out, hrun, hout⟩ := ih s1' hinv1 (by rw [k2]; exact hpos)
        (by rw [k2]; exact hcap) (by rw [k6, k2]; exact hlen) hrest
      refine ⟨s', out, ?_, ?_⟩
      · simp only [runOps, hw]; exact hrun
      · rw [hout, k7 hlen, hT, List.take_length, written, List.append_assoc]
    | read k =>
      have hno : s.m_head + min k s.m_fill < UINT_MOD := by
        obtain ⟨h1, h2⟩ := hinv
        obtain ⟨h3, _, _⟩ := h2 hpos
        unfold UINT_MOD; omega
      obtain ⟨q1, q2⟩ := readOp_spec s k hsz (hinv.2 hpos).1 hinv.1
      have hfill : s.m_fill < UINT_MOD := by
        have := hinv.1
        omega
      have hc := contents_readCommit s (min k s.m_fill) hfill (by
        rw [Nat.min_assoc, Nat.min_self]; exact hno)
      rw [Nat.min_assoc, Nat.min_self] at hc
      have hinv1 := readCommit_ringInv s (min k s.m_fill) hinv hpos hcap
      obtain ⟨_, _, _, f5, f6⟩ := readCommit_fields_of_lt s (min k s.m_fill) hfill (by
        rw [Nat.min_assoc, Nat.min_self]; exact hno)
      have hfits1 : withinCapacity (s.readOp k).1 ops = true := hfits
      rw [q2] at hfits1
      obtain ⟨s', out, hrun, hout⟩ := ih _ hinv1 (by rw [f6]; exact hpos)
        (by rw [f6]; exact hcap) (by rw [f5, f6]; exact hlen) hfits1
      refine ⟨s', (s.readOp k).2 ++ out, ?_, ?_⟩
      · simp only [runOps, q2, hrun]
      · rw [List.append_assoc, hout, hc, q1, ← List.append_assoc, List.take_append_drop, written]

/-- The fields of a freshly created ring: the default constructor followed by
`create(c)`, as the sized constructor does. -/
theorem create_fields (c : Nat) (hc : c < UINT_MOD) :
    (SampleFifo.empty.create c).1.m_size = c ∧ (SampleFifo.empty.create c).1.m_fill = 0 ∧
    (SampleFifo.empty.create c).1.m_head = 0 ∧ (SampleFifo.empty.create c).1.m_tail = 0 ∧
    (SampleFifo.empty.create c).1.m_data.length = c ∧
    (SampleFifo.empty.create c).1.ringInv := by
  have hlen : (resize [] c).length = c := by simp [resize]
  refine ⟨?_, rfl, rfl, rfl, ?_, create_ringInv _ _⟩
  · unfold SampleFifo.create
    simp only [SampleFifo.empty, hlen, toUInt]
    exact Nat.mod_eq_of_lt hc
  · unfold SampleFifo.create
    simp only [SampleFifo.empty, hlen]

/-- C2 (as amended). Ring FIFO: starting from a freshly created ring of capacity
`0 < c <= 2^31`, for every sequence of writes and reads in which no write exceeds the
free space, the run completes and the concatenation of all `part1 ++ part2` regions
handed out by the reads is the leading part, of the total length read, of the
concatenation of all spans written. -/
theorem ring_fifo (c : Nat) (ops : List FifoOp) (hpos : 0 < c) (hcap : c ≤ 2147483648)
    (hfits : withinCapacity (SampleFifo.empty.create c).1 ops = true) :
    ∃ s out, runOps (SampleFifo.empty.create c).1 ops = some (s, out) ∧
      out = (written ops).take out.length := by
  obtain ⟨f1, f2, _, _, f5, f6⟩ := create_fields c (by unfold UINT_MOD; omega)
  obtain ⟨s, out, hrun, hout⟩ := runOps_spec ops (SampleFifo.empty.create c).1 f6
    (by rw [f1]; exact hpos) (by rw [f1]; exact hcap) (by rw [f5, f1]) hfits
  refine ⟨s, out, hrun, ?_⟩
  have hempty : (SampleFifo.empty.create c).1.contents = [] := by
    unfold SampleFifo.contents; rw [f2]; rfl
  rw [hempty, List.nil_append] at hout
  rw [← hout, List.take_left]

theorem ring_fifo_witness :
    (0 < 3 ∧ 3 ≤ 2147483648 ∧
      withinCapacity (SampleFifo.empty.create 3).1
        [FifoOp.write [⟨1, 2⟩, ⟨3, 4⟩] 0, FifoOp.read 1, FifoOp.write [⟨5, 6⟩, ⟨7, 8⟩] 0,
          FifoOp.read 5] = true) ∧
    ∃ s out, runOps (SampleFifo.empty.create 3).1
        [FifoOp.write [⟨1, 2⟩, ⟨3, 4⟩] 0, FifoOp.read 1, FifoOp.write [⟨5, 6⟩, ⟨7, 8⟩] 0,
          FifoOp.read 5] = some (s, out) ∧
      out = (written [FifoOp.write [⟨1, 2⟩, ⟨3, 4⟩] 0, FifoOp.read 1,
          FifoOp.write [⟨5, 6⟩, ⟨7, 8⟩] 0, FifoOp.read 5]).take out.length :=
  ⟨⟨by decide, by decide, by decide⟩,
    ring_fifo 3 _ (by decide) (by decide) (by decide)⟩

theorem contents_length (s : SampleFifo) : s.contents.length = s.m_fill := by
  simp [SampleFifo.contents]

theorem contents_getD (s : SampleFifo) (i : Nat) (hi : i < s.m_fill) :
    s.contents.getD i default = s.m_data.getD ((s.m_head + i) % s.m_size) default := by
  unfold SampleFifo.contents
  rw [List.getD_eq_getElem?_getD, List.getElem?_map, List.getElem?_range hi]
  rfl

theorem runOps_write_some (s : SampleFifo) (span : List Sample) (elapsed : Int)
    (ops : List FifoOp) (r : SampleFifo × Nat × List FifoEvent) (res : SampleFifo × List Sample)
    (hw : s.write span elapsed = some r) (hrest : runOps r.1 ops = some res) :
    runOps s (FifoOp.write span elapsed :: ops) = some res := by
  simp only [runOps, hw, hrest]

theorem runOps_read_some (s : SampleFifo) (k : Nat) (ops : List FifoOp)
    (res : SampleFifo × List Sample) (hrest : runOps (s.readOp k).1 ops = some res) :
    runOps s (FifoOp.read k :: ops) = some (res.1, (s.readOp k).2 ++ res.2) := by
  simp only [runOps, hrest]

theorem withinCapacity_write (s : SampleFifo) (span : List Sample) (elapsed : Int)
    (ops : List FifoOp) (r : SampleFifo × Nat × List FifoEvent)
    (hw : s.write span elapsed = some r) (hfit : span.length ≤ s.m_size - s.m_fill)
    (hrest : withinCapacity r.1 ops = true) :
    withinCapacity s (FifoOp.write span elapsed :: ops) = true := by
  simp only [withinCapacity, hw, hrest, Bool.and_true, decide_eq_true_eq]
  exact hfit

theorem withinCapacity_read (s : SampleFifo) (k : Nat) (ops : List FifoOp)
    (hrest : withinCapacity (s.readOp k).1 ops = true) :
    withinCapacity s (FifoOp.read k :: ops) = true := by
  simp only [withinCapacity, hrest]

/-- A run that drives `m_head + count` past `2^32` in `readCommit`. -/
theorem wrap_run (span1 q : List Sample) (a b : Sample) (h1 : span1.length = 3221225472)
    (hq : q.length = 1073741823) (hab : a ≠ b) :
    withinCapacity ((SampleFifo.empty.create 3221225472).1)
      [FifoOp.write span1 0, FifoOp.read 3221225471, FifoOp.write (a :: (q ++ [b])) 0,
        FifoOp.read 1073741825, FifoOp.read 1] = true ∧
    ∃ s out, runOps ((SampleFifo.empty.create 3221225472).1)
      [FifoOp.write span1 0, FifoOp.read 3221225471, FifoOp.write (a :: (q ++ [b])) 0,
        FifoOp.read 1073741825, FifoOp.read 1] = some (s, out) ∧
      out ≠ (written [FifoOp.write span1 0, FifoOp.read 3221225471,
        FifoOp.write (a :: (q ++ [b])) 0, FifoOp.read 1073741825, FifoOp.read 1]).take
          out.length := by
  obtain ⟨f1, f2, f3, f4, f5, f6⟩ := create_fields 3221225472 (by decide)
  generalize (SampleFifo.empty.create 3221225472).1 = s0 at f1 f2 f3 f4 f5 f6 ⊢
  have hU : UINT_MOD = 4294967296 := rfl
  -- first write: the ring is filled
  obtain ⟨s1, ev1, hw1, a2, a3, a4, a5, a6, a7⟩ :=
    write_spec s0 span1 0 (by rw [f1]; decide) (by rw [f1]; decide) f6
  obtain ⟨_, _, _, hw1', i1⟩ :=
    write_ringInv s0 span1 0 (by rw [f1]; decide) (by rw [f1]; decide) f6
  rw [hw1] at hw1'
  obtain rfl : s1 = _ := congrArg Prod.fst (Option.some.inj hw1')
  have hT1 : min (span1.length % UINT_MOD) (s0.m_size - s0.m_fill) = 3221225472 := by
    rw [h1, f1, f2, hU]; decide
  rw [hT1] at a4 a5 a7 hw1
  rw [f1] at a2; rw [f3] at a3; rw [f2, Nat.zero_add] at a4; rw [f5] at a6
  have c0 : s0.contents = [] := by unfold SampleFifo.contents; rw [f2]; rfl
  have c1 : s1.contents = span1 := by
    rw [a7 (by rw [f5, f1]), c0, List.nil_append, ← h1, List.take_length]
  -- first read: all but one sample
  obtain ⟨q1, q2⟩ := readOp_spec s1 3221225471 (by rw [a2]; decide) (by rw [a2, a3]; decide)
    (by rw [a2, a4])
  have hm1 : min 3221225471 s1.m_fill = 3221225471 := by rw [a4]; rfl
  rw [hm1] at q1 q2
  have hno1 : s1.m_head + min 3221225471 s1.m_fill < UINT_MOD := by rw [hm1, a3]; decide
  obtain ⟨e3, e4, _, e6, e2⟩ := readCommit_fields_of_lt s1 3221225471 (by rw [a4]; decide) hno1
  have c2 := contents_readCommit s1 3221225471 (by rw [a4]; decide) hno1
  have i2 := readCommit_ringInv_of_lt s1 3221225471 i1 (by rw [a2]; decide)
    (by rw [a4]; decide) hno1
  rw [hm1] at e3 e4 c2
  rw [a3, a2] at e3; rw [a4] at e4; rw [a2] at e2; rw [← e6] at a6
  generalize (s1.readCommit 3221225471).1 = s2 at q2 c2 i2 e2 e3 e4 a6
  have b2 : s2.m_size = 3221225472 := e2
  have b3 : s2.m_head = 3221225471 := e3
  have b4 : s2.m_fill = 1 := e4
  have b6 : s2.m_data.length = 3221225472 := a6
  -- second write
  obtain ⟨s3, ev3, hw3, d2, d3, d4, d5, d6, d7⟩ :=
    write_spec s2 (a :: (q ++ [b])) 0 (by rw [b2]; decide) (by rw [b2]; decide) i2
  have hlen2 : (a :: (q ++ [b])).length = 1073741825 := by
    simp only [List.length_cons, List.length_append, hq, List.length_nil]
  have hT3 : min ((a :: (q ++ [b])).length % UINT_MOD) (s2.m_size - s2.m_fill) = 1073741825 := by
    rw [hlen2, b2, b4, hU]; decide
  rw [hT3] at d4 d5 d7 hw3
  rw [b2] at d2; rw [b3] at d3; rw [b4] at d4
  have d4' : s3.m_fill = 1073741826 := by rw [d4]
  have c3 : s3.contents = s2.contents ++ (a :: (q ++ [b])) := by
    rw [d7 (by rw [b6, b2]), ← hlen2, List.take_length]
  -- second read: the commit wraps
  obtain ⟨r1, r2⟩ := readOp_spec s3 1073741825 (by rw [d2]; decide) (by rw [d2, d3]; decide)
    (by rw [d2, d4]; decide)
  have hm3 : min 1073741825 s3.m_fill = 1073741825 := by rw [d4]; rfl
  rw [hm3] at r1 r2
  generalize hs4 : (s3.readCommit 1073741825).1 = s4 at r2
  have g2 : s4.m_size = 3221225472 := by rw [← hs4]; exact d2
  have g3 : s4.m_head = 0 := by
    rw [← hs4]; unfold SampleFifo.readCommit; simp only; rw [d3, d4, d2]; decide
  have g4 : s4.m_fill = 1 := by
    rw [← hs4]; unfold SampleFifo.readCommit; simp only; rw [d4]; decide
  have g5 : s4.m_data = s3.m_data := by rw [← hs4]; rfl
  -- third read: one sample, taken from slot 0
  obtain ⟨t1, t2⟩ := readOp_spec s4 1 (by rw [g2]; decide) (by rw [g2, g3]; decide)
    (by rw [g2, g4]; decide)
  have hm4 : min 1 s4.m_fill = 1 := by rw [g4]; rfl
  rw [hm4] at t1
  have hslot : s3.m_data.getD 0 default = a := by
    have h := contents_getD s3 1 (by rw [d4]; decide)
    rw [d3, d2, c3, List.getD_append_right _ _ _ _ (by rw [contents_length, b4]),
      contents_length, b4] at h
    exact h.symm
  have c4 : s4.contents.take 1 = [a] := by
    rw [contents_take s4 1 (by rw [g4]), g3, g2, g5]
    rw [show List.range 1 = [0] from rfl]
    simp only [List.map_cons, List.map_nil]
    rw [show (0 + 0) % 3221225472 = 0 from rfl, hslot]
  rw [c4] at t1
  -- assemble the run
  have hrun : runOps s0 [FifoOp.write span1 0, FifoOp.read 3221225471,
      FifoOp.write (a :: (q ++ [b])) 0, FifoOp.read 1073741825, FifoOp.read 1]
      = some ((s4.readOp 1).1, s1.contents.take 3221225471
          ++ (s3.contents.take 1073741825 ++ ([a] ++ []))) := by
    have k5 := runOps_read_some s4 1 [] ((s4.readOp 1).1, []) rfl
    rw [t1] at k5
    have k4 := runOps_read_some s3 1073741825 [FifoOp.read 1] _ (by rw [r2]; exact k5)
    rw [r1] at k4
    have k3 := runOps_write_some s2 (a :: (q ++ [b])) 0 _ _ _ hw3 k4
    have k2 := runOps_read_some s1 3221225471 _ _ (by rw [q2]; exact k3)
    rw [q1] at k2
    exact runOps_write_some s0 span1 0 _ _ _ hw1 k2
  have hfit : withinCapacity s0 [FifoOp.write span1 0, FifoOp.read 3221225471,
      FifoOp.write (a :: (q ++ [b])) 0, FifoOp.read 1073741825, FifoOp.read 1] = true := by
    apply withinCapacity_write _ _ _ _ _ hw1 (by rw [h1, f1, f2])
    apply withinCapacity_read
    rw [q2]
    apply withinCapacity_write _ _ _ _ _ hw3 (by rw [hlen2, b2, b4]; decide)
    apply withinCapacity_read
    apply withinCapacity_read
    rfl
  refine ⟨hfit, _, _, hrun, ?_⟩
  have hout : s1.contents.take 3221225471 ++ (s3.contents.take 1073741825 ++ ([a] ++ []))
      = span1 ++ ((a :: q) ++ [a]) := by
    have hd : (span1.drop 3221225471).length = 1 := by rw [List.length_drop, h1]
    have hB : s3.contents.take 1073741825 = span1.drop 3221225471 ++ (a :: q) := by
      rw [c3, c2, c1, List.take_append_eq_append_take, hd,
        List.take_of_length_le (l := span1.drop 3221225471) (by rw [hd]; decide),
        ← List.cons_append]
      congr 1
      exact List.take_left' (by simp only [List.length_cons, hq])
    rw [hB, c1, List.append_nil, List.append_assoc, ← List.append_assoc,
      List.take_append_drop]
  have hwr : written [FifoOp.write span1 0, FifoOp.read 3221225471,
      FifoOp.write (a :: (q ++ [b])) 0, FifoOp.read 1073741825, FifoOp.read 1]
      = span1 ++ ((a :: q) ++ [b]) := by
    simp only [written, List.append_nil, List.cons_append]
  rw [hout, hwr]
  have hl : (span1 ++ ((a :: q) ++ [a])).length = (span1 ++ ((a :: q) ++ [b])).length := by
    simp only [List.length_append, List.length_cons, List.length_nil]
  rw [hl, List.take_length]
  intro heq
  have h2 := List.append_cancel_left (List.append_cancel_left heq)
  exact hab (List.head_eq_of_cons_eq h2)

/-- C2, counterexample. On a freshly created ring of capacity `3 * 2^30`: fill the
ring, read all but one sample, write `2^30 + 1` more samples (first sample `(1, 0)`,
the others `(0, 0)`), read `2^30 + 1` samples and then one sample. No write exceeds
the free space, yet the regions handed out are not the leading part of what was
written: the commit of the second read wraps `m_head + count` to 0, so the last read
hands out slot 0, which holds `(1, 0)`, instead of slot `2^30`. -/
theorem ring_fifo_fails_on_wrap :
    withinCapacity (SampleFifo.empty.create 3221225472).1
      [FifoOp.write (List.replicate 3221225472 ⟨0, 0⟩) 0, FifoOp.read 3221225471,
        FifoOp.write (⟨1, 0⟩ :: (List.replicate 1073741823 ⟨0, 0⟩ ++ [⟨0, 0⟩])) 0,
        FifoOp.read 1073741825, FifoOp.read 1] = true ∧
    ∃ s out, runOps (SampleFifo.empty.create 3221225472).1
      [FifoOp.write (List.replicate 3221225472 ⟨0, 0⟩) 0, FifoOp.read 3221225471,
        FifoOp.write (⟨1, 0⟩ :: (List.replicate 1073741823 ⟨0, 0⟩ ++ [⟨0, 0⟩])) 0,
        FifoOp.read 1073741825, FifoOp.read 1] = some (s, out) ∧
      out ≠ (written [FifoOp.write (List.replicate 3221225472 ⟨0, 0⟩) 0,
        FifoOp.read 3221225471,
        FifoOp.write (⟨1, 0⟩ :: (List.replicate 1073741823 ⟨0, 0⟩ ++ [⟨0, 0⟩])) 0,
        FifoOp.read 1073741825, FifoOp.read 1]).take out.length :=
  wrap_run (List.replicate 3221225472 ⟨0, 0⟩) (List.replicate 1073741823 ⟨0, 0⟩) ⟨1, 0⟩ ⟨0, 0⟩
    (List.length_replicate _ _) (List.length_replicate _ _) (by decide)

/-! ## The engine state machine -/

/-- C6. State machine for `AcquisitionStart` as handled by `handleMessages`: from
`StNotStarted` the resulting and returned state is `StNotStarted`; from `StIdle` with no
source it is `StError`; from `StError` with a source whose `startInput` succeeds it is
`StRunning`. -/
theorem acquisitionStart_state_machine :
    (∀ e : DSPEngine, e.m_state = State.StNotStarted →
      (e.handleMessage Command.acquisitionStart).1.m_state = State.StNotStarted ∧
      (e.handleMessage Command.acquisitionStart).2 = Reply.state State.StNotStarted) ∧
    (∀ e : DSPEngine, e.m_state = State.StIdle → e.m_sampleSource = none →
      (e.handleMessage Command.acquisitionStart).1.m_state = State.StError ∧
      (e.handleMessage Command.acquisitionStart).2 = Reply.state State.StError) ∧
    (∀ (e : DSPEngine) (src : SampleSource), e.m_state = State.StError →
      e.m_sampleSource = some src → src.startInputResult = true →
      (e.handleMessage Command.acquisitionStart).1.m_state = State.StRunning ∧
      (e.handleMessage Command.acquisitionStart).2 = Reply.state State.StRunning) := by
  refine ⟨?_, ?_, ?_⟩
  · intro e h
    simp [DSPEngine.handleMessage, DSPEngine.gotoIdle, h]
  · intro e h hs
    simp [DSPEngine.handleMessage, DSPEngine.gotoIdle, DSPEngine.gotoRunning,
      DSPEngine.gotoError, h, hs]
  · intro e src h hs hok
    simp [DSPEngine.handleMessage, DSPEngine.gotoIdle, DSPEngine.gotoRunning,
      DSPEngine.gotoError, h, hs, hok]

theorem acquisitionStart_state_machine_witness :
    (DSPEngine.init.m_state = State.StNotStarted ∧
      ({ DSPEngine.init with m_state := State.StIdle } : DSPEngine).m_state = State.StIdle ∧
      ({ DSPEngine.init with m_state := State.StIdle } : DSPEngine).m_sampleSource = none ∧
      errorEngine.m_state = State.StError ∧ errorEngine.m_sampleSource = some goodSource ∧
      goodSource.startInputResult = true) ∧
    ((DSPEngine.init.handleMessage Command.acquisitionStart).1.m_state = State.StNotStarted ∧
      (DSPEngine.init.handleMessage Command.acquisitionStart).2
        = Reply.state State.StNotStarted) ∧
    ((({ DSPEngine.init with m_state := State.StIdle } : DSPEngine).handleMessage
        Command.acquisitionStart).1.m_state = State.StError ∧
      (({ DSPEngine.init with m_state := State.StIdle } : DSPEngine).handleMessage
        Command.acquisitionStart).2 = Reply.state State.StError) ∧
    ((errorEngine.handleMessage Command.acquisitionStart).1.m_state = State.StRunning ∧
      (errorEngine.handleMessage Command.acquisitionStart).2 = Reply.state State.StRunning) :=
  ⟨by decide,
    acquisitionStart_state_machine.1 DSPEngine.init (by decide),
    acquisitionStart_state_machine.2.1 { DSPEngine.init with m_state := State.StIdle }
      (by decide) (by decide),
    acquisitionStart_state_machine.2.2 errorEngine goodSource (by decide) (by decide)
      (by decide)⟩

/-! ## The drain pass -/

/-- C7, evaluation at the failing input. One sink, corrections off, ring of capacity 4
with head 3 and fill 3: the pass commits `(40,41), (10,11), (20,21)` (fill is 0
afterwards), but the sink is fed `part1 = [(40,41)]` twice and never sees `part2`. -/
theorem work_feeds_part1_twice :
    wrapFifo.contents = [⟨40, 41⟩, ⟨10, 11⟩, ⟨20, 21⟩] ∧
    (runningEngine.work 0).map (fun e => e.trace)
      = some [EngineEvent.sinkFeed 1 [⟨40, 41⟩] true, EngineEvent.sinkFeed 1 [⟨40, 41⟩] false] ∧
    (runningEngine.work 0).map (fun e => e.m_sampleSource.map (fun s => s.fifo.m_fill))
      = some (some 0) := by
  decide

theorem correct_fields (e : DSPEngine) (data : List Sample) (b en : Nat) :
    (e.correct data b en).1.trace = e.trace ∧
    (e.correct data b en).1.m_sampleSinks = e.m_sampleSinks ∧
    (e.correct data b en).1.m_sampleRate = e.m_sampleRate := by
  unfold DSPEngine.correct DSPEngine.dcOffset DSPEngine.imbalance
  by_cases h1 : e.m_dcOffsetCorrection = true <;> by_cases h2 : e.m_iqImbalanceCorrection = true <;>
    simp [h1, h2]

theorem workLoop_exit (fuel : Nat) (e : DSPEngine) (fifo : SampleFifo)
    (pending samplesDone : Nat) (first : Bool)
    (h : ¬ (fifo.m_fill > 0 ∧ pending = 0 ∧ samplesDone < intToSizeT e.m_sampleRate)) :
    DSPEngine.workLoop fuel e fifo pending samplesDone first = some (e, fifo) := by
  cases fuel with
  | zero => rw [DSPEngine.workLoop, if_neg h]
  | succ n => rw [DSPEngine.workLoop, if_neg h]

theorem readCommit_all (f : SampleFifo) (hfill : f.m_fill < UINT_MOD) :
    (f.readCommit f.m_fill).1.m_fill = 0 := by
  unfold SampleFifo.readCommit
  simp only [gt_iff_lt, lt_irrefl, if_false]
  rw [uintSub_of_le (le_refl _) hfill, Nat.sub_self]

theorem firstFeeds_append (k : Nat) (a b : List EngineEvent) :
    firstFeeds k (a ++ b) = firstFeeds k a + firstFeeds k b := by
  unfold firstFeeds
  rw [List.filter_append, List.length_append]

theorem firstFeeds_feedAll (k : Nat) (span : List Sample) (first : Bool) (sinks : List Nat) :
    firstFeeds k (feedAll sinks span first) = if first then sinks.count k else 0 := by
  induction sinks with
  | nil => cases first <;> rfl
  | cons x xs ih =>
    have hcons : feedAll (x :: xs) span first
        = [EngineEvent.sinkFeed x span first] ++ feedAll xs span first := rfl
    rw [hcons, firstFeeds_append, ih]
    cases first
    · simp [firstFeeds]
    · by_cases hx : x = k
      · subst hx
        simp [firstFeeds]
        omega
      · have hne : ¬ (x == k) = true := by simpa using hx
        simp [firstFeeds, hx, List.count_cons, hne]

theorem firstFeeds_feedSeq_false (k : Nat) (sinks : List Nat) (spans : List (List Sample)) :
    firstFeeds k (feedSeq sinks spans false) = 0 := by
  induction spans with
  | nil => rfl
  | cons sp rest ih =>
    rw [feedSeq, firstFeeds_append, firstFeeds_feedAll, ih]
    rfl

/-- Among the feeds of a pass, a sink gets `firstOfBurst = true` once for each of its
entries in the sink list if anything is fed, and never otherwise. -/
theorem firstFeeds_feedSeq (k : Nat) (sinks : List Nat) (spans : List (List Sample)) :
    firstFeeds k (feedSeq sinks spans true) = if spans = [] then 0 else sinks.count k := by
  cases spans with
  | nil => rfl
  | cons sp rest =>
    rw [feedSeq, firstFeeds_append, firstFeeds_feedAll, firstFeeds_feedSeq_false]
    simp

theorem correct_off (e : DSPEngine) (data : List Sample) (b en : Nat)
    (h1 : e.m_dcOffsetCorrection = false) (h2 : e.m_iqImbalanceCorrection = false) :
    e.correct data b en = (e, data) := by
  unfold DSPEngine.correct
  simp [h1, h2]

/-- One iteration of the loop of `work` on a consistent, non-empty ring: the spans fed
are non-empty, one if the stored samples are contiguous and two if they wrap, each as
long as the first region handed out by `readBegin` (and equal to it when both
corrections are off); every sink-list entry gets each of them in order, and the ring
is empty afterwards. -/
theorem workBody_spec (e : DSPEngine) (fifo : SampleFifo) (samplesDone : Nat) (first : Bool)
    (hinv : fifo.ringInv) (hsz : fifo.m_size < UINT_MOD) (hfill : 0 < fifo.m_fill) :
    ∃ spans : List (List Sample),
      (e.workBody fifo samplesDone first).1.trace
        = e.trace ++ feedSeq e.m_sampleSinks spans first ∧
      (e.workBody fifo samplesDone first).1.m_sampleSinks = e.m_sampleSinks ∧
      (∀ sp ∈ spans, sp ≠ []) ∧ spans.length ≤ 2 ∧
      (e.workBody fifo samplesDone first).2.1.m_fill = 0 ∧
      spans.length = (if fifo.m_head + fifo.m_fill ≤ fifo.m_size then 1 else 2) ∧
      (∀ sp ∈ spans, sp.length = min fifo.m_fill (fifo.m_size - fifo.m_head)) ∧
      (e.m_dcOffsetCorrection = false → e.m_iqImbalanceCorrection = false →
        ∀ sp ∈ spans, sp = spanOf fifo.m_data fifo.m_head
          (fifo.m_head + min fifo.m_fill (fifo.m_size - fifo.m_head))) := by
  obtain ⟨h1, h2⟩ := hinv
  obtain ⟨h3, _, _⟩ := h2 (by omega)
  have hmin : min fifo.m_fill fifo.m_fill = fifo.m_fill := Nat.min_self _
  have hU : fifo.m_fill < UINT_MOD := by omega
  have hnonempty : ∀ (data : List Sample) (b en : Nat), b < en → spanOf data b en ≠ [] := by
    intro data b en hlt h0
    have hl := congrArg List.length h0
    rw [spanOf_length] at hl
    simp at hl
    omega
  unfold DSPEngine.workBody
  by_cases hfit : fifo.m_head + fifo.m_fill ≤ fifo.m_size
  · have hrb := readBegin_flat fifo fifo.m_fill hsz h3 (by omega) (by omega)
    rw [hmin] at hrb
    have hne : fifo.m_head ≠ fifo.m_head + fifo.m_fill := by omega
    have hlen : min fifo.m_fill (fifo.m_size - fifo.m_head) = fifo.m_fill := by omega
    obtain ⟨c1, c2, _⟩ := correct_fields e fifo.m_data fifo.m_head (fifo.m_head + fifo.m_fill)
    have c3 := correct_off e fifo.m_data fifo.m_head (fifo.m_head + fifo.m_fill)
    simp only [hrb, ne_eq, hne, not_false_eq_true, if_true, not_true_eq_false, if_false]
    generalize e.correct fifo.m_data fifo.m_head (fifo.m_head + fifo.m_fill) = r at c1 c2 c3 ⊢
    refine ⟨[spanOf r.2 fifo.m_head (fifo.m_head + fifo.m_fill)], ?_, c2, ?_, by simp, ?_,
      by rw [if_pos hfit]; rfl, ?_, ?_⟩
    · simp only [c1, c2, feedSeq, List.append_nil]
    · intro sp hsp
      rw [List.mem_singleton] at hsp
      rw [hsp]
      exact hnonempty _ _ _ (by omega)
    · exact readCommit_all { fifo with m_data := _ } hU
    · intro sp hsp
      rw [List.mem_singleton] at hsp
      rw [hsp, spanOf_length, hlen]
      omega
    · intro o1 o2 sp hsp
      rw [List.mem_singleton] at hsp
      rw [hsp, c3 o1 o2, hlen]
  · have hrb := readBegin_wrapped fifo fifo.m_fill hsz h3 h1 (by omega)
    rw [hmin] at hrb
    have hne1 : fifo.m_head ≠ fifo.m_size := by omega
    have hne2 : 0 ≠ fifo.m_head + fifo.m_fill - fifo.m_size := by omega
    have hlen : min fifo.m_fill (fifo.m_size - fifo.m_head) = fifo.m_size - fifo.m_head := by
      omega
    have hend : fifo.m_head + (fifo.m_size - fifo.m_head) = fifo.m_size := by omega
    obtain ⟨c1, c2, _⟩ := correct_fields e fifo.m_data fifo.m_head fifo.m_size
    have c3 := correct_off e fifo.m_data fifo.m_head fifo.m_size
    simp only [hrb, ne_eq, hne1, hne2, not_false_eq_true, if_true]
    generalize e.correct fifo.m_data fifo.m_head fifo.m_size = r at c1 c2 c3 ⊢
    obtain ⟨k1, k2, _⟩ := correct_fields
      { r.1 with trace := r.1.trace
          ++ feedAll r.1.m_sampleSinks (spanOf r.2 fifo.m_head fifo.m_size) first }
      r.2 0 (fifo.m_head + fifo.m_fill - fifo.m_size)
    have k3 := correct_off
      { r.1 with trace := r.1.trace
          ++ feedAll r.1.m_sampleSinks (spanOf r.2 fifo.m_head fifo.m_size) first }
      r.2 0 (fifo.m_head + fifo.m_fill - fifo.m_size)
    generalize DSPEngine.correct
      { r.1 with trace := r.1.trace
          ++ feedAll r.1.m_sampleSinks (spanOf r.2 fifo.m_head fifo.m_size) first }
      r.2 0 (fifo.m_head + fifo.m_fill - fifo.m_size) = r2 at k1 k2 k3 ⊢
    refine ⟨[spanOf r.2 fifo.m_head fifo.m_size, spanOf r2.2 fifo.m_head fifo.m_size],
      ?_, ?_, ?_, by simp, ?_, by rw [if_neg hfit]; rfl, ?_, ?_⟩
    · simp only [k1, k2, c1, c2, feedSeq, List.append_nil, List.append_assoc]
    · simp only [k2, c2]
    · intro sp hsp
      simp only [List.mem_cons, List.mem_singleton, List.not_mem_nil, or_false] at hsp
      rcases hsp with hsp | hsp <;>
        · rw [hsp]
          exact hnonempty _ _ _ (by omega)
    · exact readCommit_all { fifo with m_data := _ } hU
    · intro sp hsp
      simp only [List.mem_cons, List.mem_singleton, List.not_mem_nil, or_false] at hsp
      rcases hsp with hsp | hsp <;>
        · rw [hsp, spanOf_length, hlen]
    · intro o1 o2 sp hsp
      have hr : r = (e, fifo.m_data) := c3 o1 o2
      have hr2 : r2.2 = fifo.m_data := by
        have := k3 (by rw [hr]; exact o1) (by rw [hr]; exact o2)
        rw [this, hr]
      simp only [List.mem_cons, List.mem_singleton, List.not_mem_nil, or_false] at hsp
      rcases hsp with hsp | hsp
      · rw [hsp, hr, hlen, hend]
      · rw [hsp, hr2, hlen, hend]

theorem sumReal_zeros (n : Nat) : sumReal (List.replicate n ⟨0, 0⟩) = 0 := by
  unfold sumReal
  induction n with
  | zero => rfl
  | succ k ih => rw [List.replicate_succ, List.foldl_cons]; exact ih

theorem sumImag_zeros (n : Nat) : sumImag (List.replicate n ⟨0, 0⟩) = 0 := by
  unfold sumImag
  induction n with
  | zero => rfl
  | succ k ih => rw [List.replicate_succ, List.foldl_cons]; exact ih

theorem scan_zeros (n : Nat) :
    (List.replicate n (⟨0, 0⟩ : Sample)).foldl scanStep (0, 0, 0, 0) = (0, 0, 0, 0) := by
  induction n with
  | zero => rfl
  | succ k ih => rw [List.replicate_succ, List.foldl_cons]; exact ih

/-- Both corrections on a span of `k + 1` zero samples, from the neutral state. -/
theorem corrections_on_zeros (e : DSPEngine) (k : Nat) (h1 : e.m_iOffset = 0)
    (h2 : e.m_qOffset = 0) (h3 : e.m_iRange = 65536) (h4 : e.m_qRange = 65536) :
    ((e.dcOffset (List.replicate (k + 1) ⟨0, 0⟩)).1.imbalance
        (e.dcOffset (List.replicate (k + 1) ⟨0, 0⟩)).2)
      = ({ e with m_iOffset := 0, m_qOffset := 0, m_iRange := 61440, m_qRange := 61440,
                  m_imbalance := 65536 }, List.replicate (k + 1) ⟨0, 0⟩) := by
  have hdc : e.dcOffset (List.replicate (k + 1) ⟨0, 0⟩)
      = ({ e with m_iOffset := 0, m_qOffset := 0 }, List.replicate (k + 1) ⟨0, 0⟩) := by
    unfold DSPEngine.dcOffset
    simp only [sumReal_zeros, sumImag_zeros, h1, h2, frameMean, Int.zero_tdiv]
    have hs : slideOffset 0 (wrap32 0) = 0 := by decide
    rw [hs, List.map_replicate]
    rfl
  rw [hdc]
  unfold DSPEngine.imbalance
  have hscan : scanExtrema (List.replicate (k + 1) ⟨0, 0⟩) = (0, 0, 0, 0) := by
    rw [List.replicate_succ]
    exact scan_zeros k
  simp only [hscan, h3, h4]
  have hr : slideRange 65536 0 0 = 61440 := by decide
  have hi : wrap32 (((intToUInt 61440 * 65536 % UINT_MOD / intToUInt 61440 : Nat) : Int))
      = 65536 := by decide
  simp only [hr, hi, List.map_replicate]
  rfl

/-- C9 (as amended). From the neutral correction state, applying `dcOffset` and then
`imbalance` to any non-empty span of all-zero samples leaves `iOffset`, `qOffset` and
`imbalance` at their neutral values and the samples at zero, while `iRange` and
`qRange` both move from 65536 to 61440. -/
theorem silence_keeps_offsets (e : DSPEngine) (span : List Sample) (hne : span ≠ [])
    (hzero : ∀ s ∈ span, s = ⟨0, 0⟩)
    (hneutral : e.m_iOffset = 0 ∧ e.m_qOffset = 0 ∧ e.m_iRange = 65536 ∧ e.m_qRange = 65536 ∧
      e.m_imbalance = 65536) :
    ((e.dcOffset span).1.imbalance (e.dcOffset span).2).1.m_iOffset = 0 ∧
    ((e.dcOffset span).1.imbalance (e.dcOffset span).2).1.m_qOffset = 0 ∧
    ((e.dcOffset span).1.imbalance (e.dcOffset span).2).1.m_imbalance = 65536 ∧
    ((e.dcOffset span).1.imbalance (e.dcOffset span).2).1.m_iRange = 61440 ∧
    ((e.dcOffset span).1.imbalance (e.dcOffset span).2).1.m_qRange = 61440 ∧
    ((e.dcOffset span).1.imbalance (e.dcOffset span).2).2 = span := by
  obtain ⟨h1, h2, h3, h4, _⟩ := hneutral
  have hrep : span = List.replicate span.length ⟨0, 0⟩ := List.eq_replicate_of_mem hzero
  obtain ⟨k, hk⟩ : ∃ k, span.length = k + 1 :=
    ⟨span.length - 1, by have := List.length_pos.mpr hne; omega⟩
  rw [hk] at hrep
  rw [hrep, corrections_on_zeros e k h1 h2 h3 h4]
  exact ⟨rfl, rfl, rfl, rfl, rfl, rfl⟩

theorem silence_keeps_offsets_witness :
    (([⟨0, 0⟩, ⟨0, 0⟩] : List Sample) ≠ [] ∧
      (∀ s ∈ ([⟨0, 0⟩, ⟨0, 0⟩] : List Sample), s = ⟨0, 0⟩) ∧
      (DSPEngine.init.m_iOffset = 0 ∧ DSPEngine.init.m_qOffset = 0 ∧
        DSPEngine.init.m_iRange = 65536 ∧ DSPEngine.init.m_qRange = 65536 ∧
        DSPEngine.init.m_imbalance = 65536)) ∧
    (((DSPEngine.init.dcOffset [⟨0, 0⟩, ⟨0, 0⟩]).1.imbalance
        (DSPEngine.init.dcOffset [⟨0, 0⟩, ⟨0, 0⟩]).2).1.m_iOffset = 0 ∧
    ((DSPEngine.init.dcOffset [⟨0, 0⟩, ⟨0, 0⟩]).1.imbalance
        (DSPEngine.init.dcOffset [⟨0, 0⟩, ⟨0, 0⟩]).2).1.m_qOffset = 0 ∧
    ((DSPEngine.init.dcOffset [⟨0, 0⟩, ⟨0, 0⟩]).1.imbalance
        (DSPEngine.init.dcOffset [⟨0, 0⟩, ⟨0, 0⟩]).2).1.m_imbalance = 65536 ∧
    ((DSPEngine.init.dcOffset [⟨0, 0⟩, ⟨0, 0⟩]).1.imbalance
        (DSPEngine.init.dcOffset [⟨0, 0⟩, ⟨0, 0⟩]).2).1.m_iRange = 61440 ∧
    ((DSPEngine.init.dcOffset [⟨0, 0⟩, ⟨0, 0⟩]).1.imbalance
        (DSPEngine.init.dcOffset [⟨0, 0⟩, ⟨0, 0⟩]).2).1.m_qRange = 61440 ∧
    ((DSPEngine.init.dcOffset [⟨0, 0⟩, ⟨0, 0⟩]).1.imbalance
        (DSPEngine.init.dcOffset [⟨0, 0⟩, ⟨0, 0⟩]).2).2 = [⟨0, 0⟩, ⟨0, 0⟩]) :=
  ⟨⟨by decide, by decide, by decide⟩,
    silence_keeps_offsets DSPEngine.init [⟨0, 0⟩, ⟨0, 0⟩] (by decide) (by decide) (by decide)⟩

/-- C9, counterexample. From the neutral state of a new engine, one span holding a
single zero sample moves `iRange` and `qRange` from 65536 to 61440. -/
theorem silence_moves_ranges :
    DSPEngine.init.m_iOffset = 0 ∧ DSPEngine.init.m_qOffset = 0 ∧
    DSPEngine.init.m_iRange = 65536 ∧ DSPEngine.init.m_qRange = 65536 ∧
    DSPEngine.init.m_imbalance = 65536 ∧
    ((DSPEngine.init.dcOffset [⟨0, 0⟩]).1.imbalance
        (DSPEngine.init.dcOffset [⟨0, 0⟩]).2).1.m_iRange = 61440 ∧
    ((DSPEngine.init.dcOffset [⟨0, 0⟩]).1.imbalance
        (DSPEngine.init.dcOffset [⟨0, 0⟩]).2).1.m_qRange = 61440 ∧
    ¬ (((DSPEngine.init.dcOffset [⟨0, 0⟩]).1.imbalance
        (DSPEngine.init.dcOffset [⟨0, 0⟩]).2).1.m_iRange = 65536) := by
  decide

/-! ## Convergence of the DC estimate -/

theorem asr_two (x : Int) : asr x 2 = x / 4 := by
  show x >>> (2 : Nat) = x / 4
  rw [Int.shiftRight_eq_div_pow]
  norm_num

theorem wrap32_id (x : Int) (h1 : -2147483648 ≤ x) (h2 : x < 2147483648) : wrap32 x = x := by
  unfold wrap32; omega

theorem slideOffset_eq (x c : Int) (hx1 : -32768 ≤ x) (hx2 : x ≤ 32767) (hc1 : -32768 ≤ c)
    (hc2 : c ≤ 32767) : slideOffset x c = (3 * x + c) / 4 := by
  unfold slideOffset
  rw [wrap32_id (x * 3) (by omega) (by omega), wrap32_id (x * 3 + c) (by omega) (by omega),
    asr_two]
  congr 1; omega

theorem dcIter_gap (c : Int) (n : Nat) : dcIter c n = c - dcGap n c := by
  induction n with
  | zero => simp [dcIter, dcGap]
  | succ k ih => rw [dcIter, dcGap, ih]; omega

theorem dcGap_mono (n : Nat) (a b : Int) (h : a ≤ b) : dcGap n a ≤ dcGap n b := by
  induction n with
  | zero => exact h
  | succ k ih => rw [dcGap, dcGap]; omega

set_option maxRecDepth 100000 in
theorem dcGap_settled (c : Int) (hc1 : -32768 ≤ c) (hc2 : c ≤ 32767) (m : Nat) :
    0 ≤ dcGap (34 + m) c ∧ dcGap (34 + m) c ≤ 3 := by
  induction m with
  | zero =>
    have hlo : dcGap 34 (-32768) = 0 := by decide
    have hhi : dcGap 34 32767 = 3 := by decide
    have h1 := dcGap_mono 34 (-32768) c hc1
    have h2 := dcGap_mono 34 c 32767 hc2
    rw [hlo] at h1; rw [hhi] at h2
    exact ⟨h1, h2⟩
  | succ k ih =>
    rw [show 34 + (k + 1) = (34 + k) + 1 from rfl, dcGap]
    omega

theorem dcIter_bounds (c : Int) (hc1 : -32768 ≤ c) (hc2 : c ≤ 32767) (n : Nat) :
    -32768 ≤ dcIter c n ∧ dcIter c n ≤ 32767 := by
  induction n with
  | zero => simp [dcIter]
  | succ k ih => rw [dcIter]; omega

theorem dcOffsetFrames_eq (c d : Int) (hc1 : -32768 ≤ c) (hc2 : c ≤ 32767) (hd1 : -32768 ≤ d)
    (hd2 : d ≤ 32767) : ∀ (frames : List (List Sample)) (e : DSPEngine) (n : Nat),
    e.m_iOffset = dcIter c n → e.m_qOffset = dcIter d n →
    (∀ f ∈ frames, f ≠ [] ∧ frameMean (sumReal f) f = c ∧ frameMean (sumImag f) f = d) →
    (e.dcOffsetFrames frames).m_iOffset = dcIter c (n + frames.length) ∧
    (e.dcOffsetFrames frames).m_qOffset = dcIter d (n + frames.length) := by
  intro frames
  induction frames with
  | nil => intro e n hi hq _; exact ⟨hi, hq⟩
  | cons f rest ih =>
    intro e n hi hq hf
    obtain ⟨_, hmi, hmq⟩ := hf f (List.mem_cons_self _ _)
    obtain ⟨bi1, bi2⟩ := dcIter_bounds c hc1 hc2 n
    obtain ⟨bq1, bq2⟩ := dcIter_bounds d hd1 hd2 n
    have hstep := ih (e.dcOffset f).1 (n + 1)
      (by
        show slideOffset e.m_iOffset (frameMean (sumReal f) f) = dcIter c (n + 1)
        rw [hmi, hi, slideOffset_eq _ _ bi1 bi2 hc1 hc2, dcIter])
      (by
        show slideOffset e.m_qOffset (frameMean (sumImag f) f) = dcIter d (n + 1)
        rw [hmq, hq, slideOffset_eq _ _ bq1 bq2 hd1 hd2, dcIter])
      (fun g hg => hf g (List.mem_cons_of_mem _ hg))
    rw [List.length_cons, show n + (rest.length + 1) = n + 1 + rest.length by omega]
    exact hstep

/-- C11, evaluation at the failing input. `AcquisitionStart` on an idle engine with a
source and `m_imbalance = 32768` ends in `StRunning` with the offsets and ranges
reset, but `m_imbalance` is still 32768: `gotoRunning` does not assign it. -/
theorem acquisitionStart_keeps_imbalance :
    staleEngine.m_imbalance = 32768 ∧
    (staleEngine.handleMessage Command.acquisitionStart).1.m_state = State.StRunning ∧
    (staleEngine.handleMessage Command.acquisitionStart).1.m_iOffset = 0 ∧
    (staleEngine.handleMessage Command.acquisitionStart).1.m_qOffset = 0 ∧
    (staleEngine.handleMessage Command.acquisitionStart).1.m_iRange = 65536 ∧
    (staleEngine.handleMessage Command.acquisitionStart).1.m_qRange = 65536 ∧
    (staleEngine.handleMessage Command.acquisitionStart).1.m_imbalance = 32768 := by
  decide

/-- C12, evaluation at the failing input. With the I/Q flag off and
`iRange = 1000`, `qRange = 2000`, `imbalance = 32768`, handling
`ConfigureCorrection(dc = false, iq = true)` records the flag as on and resets nothing:
the flag is assigned before it is compared with the requested value. -/
theorem configureCorrection_keeps_ranges :
    staleEngine.m_iqImbalanceCorrection = false ∧
    (staleEngine.handleMessage (Command.configureCorrection false true)).1.m_iqImbalanceCorrection
      = true ∧
    (staleEngine.handleMessage (Command.configureCorrection false true)).1.m_iRange = 1000 ∧
    (staleEngine.handleMessage (Command.configureCorrection false true)).1.m_qRange = 2000 ∧
    (staleEngine.handleMessage (Command.configureCorrection false true)).1.m_imbalance
      = 32768 := by
  decide

/-- C13. DC toggle: with DC correction on, handling `ConfigureCorrection` with the same
flags leaves `iOffset`, `qOffset`, `iRange`, `qRange` and `imbalance` unchanged; and
handling `ConfigureCorrection(dc = false, iq)` followed by
`ConfigureCorrection(dc = true, iq)` leaves `iOffset = 0` and `qOffset = 0`. -/
theorem configureCorrection_dc_toggle :
    (∀ e : DSPEngine, e.m_dcOffsetCorrection = true →
      (e.handleMessage (Command.configureCorrection true e.m_iqImbalanceCorrection)).1.m_iOffset
        = e.m_iOffset ∧
      (e.handleMessage (Command.configureCorrection true e.m_iqImbalanceCorrection)).1.m_qOffset
        = e.m_qOffset ∧
      (e.handleMessage (Command.configureCorrection true e.m_iqImbalanceCorrection)).1.m_iRange
        = e.m_iRange ∧
      (e.handleMessage (Command.configureCorrection true e.m_iqImbalanceCorrection)).1.m_qRange
        = e.m_qRange ∧
      (e.handleMessage (Command.configureCorrection true e.m_iqImbalanceCorrection)).1.m_imbalance
        = e.m_imbalance) ∧
    (∀ (e : DSPEngine) (iq : Bool), e.m_dcOffsetCorrection = true →
      (((e.handleMessage (Command.configureCorrection false iq)).1.handleMessage
        (Command.configureCorrection true iq)).1.m_iOffset = 0 ∧
      ((e.handleMessage (Command.configureCorrection false iq)).1.handleMessage
        (Command.configureCorrection true iq)).1.m_qOffset = 0)) := by
  constructor
  · intro e h
    simp [DSPEngine.handleMessage, h]
  · intro e iq h
    simp [DSPEngine.handleMessage, h]

theorem configureCorrection_dc_toggle_witness :
    ({ staleEngine with m_dcOffsetCorrection := true } : DSPEngine).m_dcOffsetCorrection = true ∧
    ((({ staleEngine with m_dcOffsetCorrection := true } : DSPEngine).handleMessage
        (Command.configureCorrection true
          ({ staleEngine with m_dcOffsetCorrection := true } : DSPEngine).m_iqImbalanceCorrection)).1.m_iOffset
        = 10) ∧
    ((({ staleEngine with m_dcOffsetCorrection := true } : DSPEngine).handleMessage
        (Command.configureCorrection false true)).1.handleMessage
        (Command.configureCorrection true true)).1.m_iOffset = 0 :=
  ⟨by decide,
    (configureCorrection_dc_toggle.1 { staleEngine with m_dcOffsetCorrection := true }
      (by decide)).1,
    (configureCorrection_dc_toggle.2 { staleEngine with m_dcOffsetCorrection := true } true
      (by decide)).1⟩
/-! ## Errors of `AcquisitionStart` -/

/-- C14. `AcquisitionStart` error reporting: handled in `StIdle` or `StError` with no
source configured, the resulting state is `StError` and the stored error string is
"No sample source configured"; with a source whose `startInput` returns false, the
resulting state is `StError` and the stored error string is "Could not start sample
source". In both cases the device description is empty and no sink is started: no
call is made in the first case, only `startInput` in the second. -/
theorem acquisitionStart_errors :
    (∀ e : DSPEngine, (e.m_state = State.StIdle ∨ e.m_state = State.StError) →
      e.m_sampleSource = none →
      (e.handleMessage Command.acquisitionStart).1.m_state = State.StError ∧
      (e.handleMessage Command.acquisitionStart).2 = Reply.state State.StError ∧
      (e.handleMessage Command.acquisitionStart).1.m_errorMessage
        = "No sample source configured" ∧
      (e.handleMessage Command.acquisitionStart).1.m_deviceDescription = "" ∧
      (e.handleMessage Command.acquisitionStart).1.trace = e.trace) ∧
    (∀ (e : DSPEngine) (src : SampleSource),
      (e.m_state = State.StIdle ∨ e.m_state = State.StError) →
      e.m_sampleSource = some src → src.startInputResult = false →
      (e.handleMessage Command.acquisitionStart).1.m_state = State.StError ∧
      (e.handleMessage Command.acquisitionStart).2 = Reply.state State.StError ∧
      (e.handleMessage Command.acquisitionStart).1.m_errorMessage
        = "Could not start sample source" ∧
      (e.handleMessage Command.acquisitionStart).1.m_deviceDescription = "" ∧
      (e.handleMessage Command.acquisitionStart).1.trace
        = e.trace ++ [EngineEvent.sourceStartInput]) := by
  constructor
  · intro e hst hsrc
    rcases hst with h | h <;>
      simp [DSPEngine.handleMessage, DSPEngine.gotoIdle, DSPEngine.gotoRunning,
        DSPEngine.gotoError, h, hsrc]
  · intro e src hst hsrc hfail
    rcases hst with h | h <;>
      simp [DSPEngine.handleMessage, DSPEngine.gotoIdle, DSPEngine.gotoRunning,
        DSPEngine.gotoError, h, hsrc, hfail]

theorem acquisitionStart_errors_witness :
    ((({ DSPEngine.init with m_state := State.StIdle } : DSPEngine).m_state = State.StIdle ∨
        ({ DSPEngine.init with m_state := State.StIdle } : DSPEngine).m_state = State.StError) ∧
      ({ DSPEngine.init with m_state := State.StIdle } : DSPEngine).m_sampleSource = none ∧
      (({ staleEngine with m_sampleSource := some otherSource } : DSPEngine).m_state
          = State.StIdle ∨
        ({ staleEngine with m_sampleSource := some otherSource } : DSPEngine).m_state
          = State.StError) ∧
      ({ staleEngine with m_sampleSource := some otherSource } : DSPEngine).m_sampleSource
        = some otherSource ∧
      otherSource.startInputResult = false) ∧
    (({ DSPEngine.init with m_state := State.StIdle } : DSPEngine).handleMessage
        Command.acquisitionStart).1.m_errorMessage = "No sample source configured" ∧
    (({ staleEngine with m_sampleSource := some otherSource } : DSPEngine).handleMessage
        Command.acquisitionStart).1.m_errorMessage = "Could not start sample source" :=
  ⟨by decide,
    (acquisitionStart_errors.1 { DSPEngine.init with m_state := State.StIdle }
      (by decide) (by decide)).2.2.1,
    (acquisitionStart_errors.2 { staleEngine with m_sampleSource := some otherSource }
      otherSource (by decide) (by decide) (by decide)).2.2.1⟩

/-! ## `SetSource` and `Exit` -/

/-- C15, evaluation at the failing input. `SetSource` handled in `StRunning` stops the
sink and the old source and attaches the new source, but the engine state is still
`StRunning` afterwards: `handleSetSource` drops the state that `gotoIdle` returns. -/
theorem setSource_stays_running :
    runningEngine.m_state = State.StRunning ∧
    (runningEngine.handleMessage (Command.setSource otherSource)).1.m_state
      = State.StRunning ∧
    (runningEngine.handleMessage (Command.setSource otherSource)).1.m_sampleSource
      = some otherSource ∧
    (runningEngine.handleMessage (Command.setSource otherSource)).1.trace
      = [EngineEvent.sinkStop 1, EngineEvent.sourceStopInput, EngineEvent.disconnectDataReady,
          EngineEvent.connectDataReady, EngineEvent.sinkSetSampleRate 1 1000000,
          EngineEvent.report 1000000 433000000] := by
  decide

theorem generateReport_fields (e : DSPEngine) (src : SampleSource) :
    (e.generateReport src).m_state = e.m_state ∧
    (e.generateReport src).m_sampleSource = e.m_sampleSource ∧
    (e.generateReport src).m_deviceDescription = e.m_deviceDescription := by
  unfold DSPEngine.generateReport
  by_cases h1 : wrap32 src.sampleRate = e.m_sampleRate <;>
    by_cases h2 : src.centerFrequency = e.m_centerFrequency <;>
    simp [h1, h2]

theorem gotoIdle_fields (e : DSPEngine) :
    e.gotoIdle.1.m_state = e.m_state ∧ e.gotoIdle.1.m_sampleSource = e.m_sampleSource ∧
    e.gotoIdle.2 ≠ State.StRunning := by
  unfold DSPEngine.gotoIdle
  cases h : e.m_state <;> cases hs : e.m_sampleSource <;> simp [h, hs]

/-- The invariant behind `Reachable`: a running engine has a source. -/
theorem handleMessage_running_source (e : DSPEngine) (cmd : Command)
    (ih : e.m_state = State.StRunning → ∃ src, e.m_sampleSource = some src) :
    (e.handleMessage cmd).1.m_state = State.StRunning →
    ∃ src, (e.handleMessage cmd).1.m_sampleSource = some src := by
  obtain ⟨g1, g2, g3⟩ := gotoIdle_fields e
  cases cmd with
  | ping => exact ih
  | exit => intro h; simp [DSPEngine.handleMessage] at h
  | acquisitionStart =>
    intro h
    cases hst : e.m_state <;> cases hs : e.m_sampleSource <;>
      simp [DSPEngine.handleMessage, DSPEngine.gotoIdle, DSPEngine.gotoRunning,
        DSPEngine.gotoError, hst, hs] at h ⊢
    all_goals
      split at h <;> simp_all [DSPEngine.gotoError]
  | acquisitionStop =>
    intro h
    simp only [DSPEngine.handleMessage] at h
    exact absurd h g3
  | getDeviceDescription => exact ih
  | getErrorMessage => exact ih
  | setSource source =>
    intro _
    simp only [DSPEngine.handleMessage, DSPEngine.handleSetSource]
    rw [(generateReport_fields _ _).2.1]
    exact ⟨source, rfl⟩
  | addSink sink =>
    intro h
    by_cases hr : e.m_state = State.StRunning <;>
      simp [DSPEngine.handleMessage, hr] at h ⊢
    exact ih hr
  | removeSink sink =>
    intro h
    by_cases hr : e.m_state = State.StRunning <;>
      simp [DSPEngine.handleMessage, hr] at h ⊢
    exact ih hr
  | configureCorrection dc iq =>
    intro h
    have hs : (e.handleMessage (Command.configureCorrection dc iq)).1.m_state = e.m_state := by
      by_cases h1 : e.m_dcOffsetCorrection = dc <;> simp [DSPEngine.handleMessage, h1]
    have hsrc : (e.handleMessage (Command.configureCorrection dc iq)).1.m_sampleSource
        = e.m_sampleSource := by
      by_cases h1 : e.m_dcOffsetCorrection = dc <;> simp [DSPEngine.handleMessage, h1]
    rw [hsrc]; rw [hs] at h; exact ih h
  | configureSource configure =>
    intro h
    cases hs : e.m_sampleSource with
    | none =>
      simp only [DSPEngine.handleMessage, hs] at h
      obtain ⟨src, hsrc⟩ := ih h
      rw [hs] at hsrc; exact absurd hsrc (by simp)
    | some src =>
      simp only [DSPEngine.handleMessage, hs]
      rw [(generateReport_fields _ _).2.1]
      exact ⟨configure src, rfl⟩
  | other msg => exact ih

/-- A running engine has a source, in every state the worker can reach. -/
theorem reachable_running_source (e : DSPEngine) (h : Reachable e) :
    e.m_state = State.StRunning → ∃ src, e.m_sampleSource = some src := by
  induction h with
  | init => intro h; exact absurd h (by decide)
  | run e _ _ => intro h; exact absurd h (by simp)
  | message e cmd _ ih => exact handleMessage_running_source e cmd ih
  | data e e' pending _ hd ih =>
    intro h
    unfold DSPEngine.handleData at hd
    by_cases hr : e.m_state = State.StRunning
    · rw [if_pos hr] at hd
      unfold DSPEngine.work at hd
      obtain ⟨src, hsrc⟩ := ih hr
      rw [hsrc] at hd
      simp only at hd
      split at hd
      · exact absurd hd (by simp)
      · have := Option.some.inj hd
        rw [← this]
        exact ⟨_, rfl⟩
    · rw [if_neg hr] at hd
      have := Option.some.inj hd
      rw [← this] at h
      exact absurd h hr
  | source e src src' _ _ _ => intro _; exact ⟨src', rfl⟩

/-- C16. Exit from Running: handling `Exit` in `StRunning` (where a source is attached,
as in every running state the engine reaches) calls `stop()` on every sink in list
order, then `stopInput()` on the source, clears the device description, and leaves the
state `StNotStarted`, which is the state handed back; handling `Exit` in any other
state also leaves `StNotStarted` and calls no sink or source hook. In either case the
only other call is the one that ends the event loop. -/
theorem exit_from_running :
    (∀ (e : DSPEngine) (src : SampleSource), e.m_state = State.StRunning →
      e.m_sampleSource = some src →
      (e.handleMessage Command.exit).1.trace
        = e.trace ++ e.m_sampleSinks.map EngineEvent.sinkStop
          ++ [EngineEvent.sourceStopInput] ++ [EngineEvent.exitEventLoop] ∧
      (e.handleMessage Command.exit).1.m_deviceDescription = "" ∧
      (e.handleMessage Command.exit).1.m_state = State.StNotStarted ∧
      (e.handleMessage Command.exit).2 = Reply.state State.StNotStarted) ∧
    (∀ e : DSPEngine, Reachable e → e.m_state = State.StRunning →
      ∃ src, e.m_sampleSource = some src) ∧
    (∀ e : DSPEngine, e.m_state ≠ State.StRunning →
      (e.handleMessage Command.exit).1.trace = e.trace ++ [EngineEvent.exitEventLoop] ∧
      (e.handleMessage Command.exit).1.m_state = State.StNotStarted ∧
      (e.handleMessage Command.exit).2 = Reply.state State.StNotStarted) := by
  refine ⟨?_, reachable_running_source, ?_⟩
  · intro e src hst hsrc
    simp [DSPEngine.handleMessage, DSPEngine.gotoIdle, hst, hsrc]
  · intro e hst
    cases h : e.m_state <;> simp [DSPEngine.handleMessage, DSPEngine.gotoIdle, h] at hst ⊢

theorem exit_from_running_witness :
    (runningEngine.m_state = State.StRunning ∧ runningEngine.m_sampleSource = some goodSource ∧
      Reachable startedEngine ∧ startedEngine.m_state = State.StRunning ∧
      DSPEngine.init.m_state ≠ State.StRunning) ∧
    ((runningEngine.handleMessage Command.exit).1.trace
        = runningEngine.trace ++ runningEngine.m_sampleSinks.map EngineEvent.sinkStop
          ++ [EngineEvent.sourceStopInput] ++ [EngineEvent.exitEventLoop] ∧
      (runningEngine.handleMessage Command.exit).1.m_deviceDescription = "" ∧
      (runningEngine.handleMessage Command.exit).1.m_state = State.StNotStarted ∧
      (runningEngine.handleMessage Command.exit).2 = Reply.state State.StNotStarted) ∧
    (∃ src, startedEngine.m_sampleSource = some src) ∧
    ((DSPEngine.init.handleMessage Command.exit).1.trace
        = DSPEngine.init.trace ++ [EngineEvent.exitEventLoop] ∧
      (DSPEngine.init.handleMessage Command.exit).1.m_state = State.StNotStarted ∧
      (DSPEngine.init.handleMessage Command.exit).2 = Reply.state State.StNotStarted) :=
  ⟨⟨by decide, by decide,
      Reachable.message _ _ (Reachable.message _ _ (Reachable.run _ Reachable.init)),
      by decide, by decide⟩,
    exit_from_running.1 runningEngine goodSource (by decide) (by decide),
    exit_from_running.2.1 startedEngine
      (Reachable.message _ _ (Reachable.message _ _ (Reachable.run _ Reachable.init)))
      (by decide),
    exit_from_running.2.2 DSPEngine.init (by decide)⟩

/-! ## Reports -/

/-- C17. Report generation: `generateReport` records the source's sample rate and
center frequency in the engine; when the rate differs from the recorded one it calls
`setSampleRate(rate)` on every sink in list order (and on no sink otherwise); and it
submits a report, carrying the source's rate and frequency, after those calls, exactly
when the rate or the frequency differs from the recorded value. -/
theorem generateReport_spec (e : DSPEngine) (src : SampleSource)
    (hrate : -2147483648 ≤ src.sampleRate ∧ src.sampleRate < 2147483648) :
    (e.generateReport src).m_sampleRate = src.sampleRate ∧
    (e.generateReport src).m_centerFrequency = src.centerFrequency ∧
    (e.generateReport src).trace
      = e.trace
        ++ (if src.sampleRate ≠ e.m_sampleRate then
              e.m_sampleSinks.map (fun k => EngineEvent.sinkSetSampleRate k src.sampleRate)
            else [])
        ++ (if src.sampleRate ≠ e.m_sampleRate ∨ src.centerFrequency ≠ e.m_centerFrequency then
              [EngineEvent.report src.sampleRate src.centerFrequency]
            else []) := by
  have hw : wrap32 src.sampleRate = src.sampleRate := wrap32_id _ hrate.1 hrate.2
  unfold DSPEngine.generateReport
  rw [hw]
  by_cases h1 : src.sampleRate = e.m_sampleRate <;>
    by_cases h2 : src.centerFrequency = e.m_centerFrequency <;>
    simp [h1, h2]

theorem generateReport_spec_witness :
    (-2147483648 ≤ goodSource.sampleRate ∧ goodSource.sampleRate < 2147483648) ∧
    ((DSPEngine.init.generateReport goodSource).m_sampleRate = goodSource.sampleRate ∧
    (DSPEngine.init.generateReport goodSource).m_centerFrequency = goodSource.centerFrequency ∧
    (DSPEngine.init.generateReport goodSource).trace
      = DSPEngine.init.trace
        ++ (if goodSource.sampleRate ≠ DSPEngine.init.m_sampleRate then
              DSPEngine.init.m_sampleSinks.map
                (fun k => EngineEvent.sinkSetSampleRate k goodSource.sampleRate)
            else [])
        ++ (if goodSource.sampleRate ≠ DSPEngine.init.m_sampleRate ∨
              goodSource.centerFrequency ≠ DSPEngine.init.m_centerFrequency then
              [EngineEvent.report goodSource.sampleRate goodSource.centerFrequency]
            else [])) :=
  ⟨by decide, generateReport_spec DSPEngine.init goodSource (by decide)⟩
/-! ## The DC-offset correction against its formula -/

theorem wrap32_add_left (x y : Int) : wrap32 (wrap32 x + y) = wrap32 (x + y) := by
  unfold wrap32; omega

theorem foldl_real (l : List Sample) : ∀ x : Int,
    l.foldl (fun acc s => wrap32 (acc + s.m_real)) (wrap32 x)
      = wrap32 (x + (l.map Sample.m_real).sum) := by
  induction l with
  | nil => intro x; simp
  | cons s rest ih =>
    intro x
    rw [List.foldl_cons, wrap32_add_left, ih, List.map_cons, List.sum_cons, Int.add_assoc]

theorem foldl_imag (l : List Sample) : ∀ x : Int,
    l.foldl (fun acc s => wrap32 (acc + s.m_imag)) (wrap32 x)
      = wrap32 (x + (l.map Sample.m_imag).sum) := by
  induction l with
  | nil => intro x; simp
  | cons s rest ih =>
    intro x
    rw [List.foldl_cons, wrap32_add_left, ih, List.map_cons, List.sum_cons, Int.add_assoc]

/-- The 32-bit sum `io` is the exact sum of the I components reduced to 32 bits. -/
theorem sumReal_eq (span : List Sample) :
    sumReal span = wrap32 (span.map Sample.m_real).sum := by
  have h := foldl_real span 0
  rw [Int.zero_add] at h
  exact h

/-- The 32-bit sum `qo` is the exact sum of the Q components reduced to 32 bits. -/
theorem sumImag_eq (span : List Sample) :
    sumImag span = wrap32 (span.map Sample.m_imag).sum := by
  have h := foldl_imag span 0
  rw [Int.zero_add] at h
  exact h

theorem tdiv_int32 (a n : Int) (h1 : -2147483648 ≤ a) (h2 : a < 2147483648) (hn : 0 ≤ n) :
    -2147483648 ≤ a.tdiv n ∧ a.tdiv n < 2147483648 := by
  by_cases ha : 0 ≤ a
  · rw [Int.tdiv_eq_ediv ha hn]
    have := Int.ediv_nonneg ha hn
    have := Int.ediv_le_self n ha
    omega
  · have hb : 0 ≤ -a := by omega
    have h3 : a.tdiv n = -((-a) / n) := by
      rw [← Int.tdiv_eq_ediv hb hn, Int.neg_tdiv, Int.neg_neg]
    have := Int.ediv_nonneg hb hn
    have := Int.ediv_le_self n hb
    omega

theorem dcOffset_iOffset (e : DSPEngine) (span : List Sample) :
    (e.dcOffset span).1.m_iOffset
      = slideOffset e.m_iOffset (frameMean (sumReal span) span) := rfl

/-- The update of a running offset when no 32-bit value wraps. -/
theorem slideOffset_exact (x sum : Int) (span : List Sample) (hlen : span.length < 2147483648)
    (hs : -2147483648 ≤ sum ∧ sum < 2147483648)
    (hx : -2147483648 ≤ 3 * x + sum.tdiv span.length ∧
      3 * x + sum.tdiv span.length < 2147483648) :
    slideOffset x (frameMean (wrap32 sum) span) = (3 * x + sum.tdiv span.length) / 4 := by
  have hn : wrap32 (span.length : Int) = span.length := wrap32_id _ (by omega) (by omega)
  have ht := tdiv_int32 sum span.length hs.1 hs.2 (by omega)
  unfold slideOffset frameMean
  rw [wrap32_id sum hs.1 hs.2, hn, wrap32_id _ ht.1 ht.2, wrap32_add_left,
    show x * 3 + sum.tdiv span.length = 3 * x + sum.tdiv span.length by omega,
    wrap32_id _ hx.1 hx.2, asr_two]

theorem wrap16_sub (x o : Int) (hd : -32768 ≤ x - o ∧ x - o ≤ 32767) :
    wrap16 (x - wrap16 o) = x - o := by
  unfold wrap16; omega

/-- C20 (as amended). For every non-empty span of `N` samples with `io` the sum of the I
components and `qo` the sum of the Q components, when no 32-bit value wraps (`N`, `io`,
`qo`, `3*iOffset_old + io/N` and `3*qOffset_old + qo/N` are 32-bit integers), `dcOffset`
sets `iOffset` to `(3*iOffset_old + io/N) >> 2` and `qOffset` to
`(3*qOffset_old + qo/N) >> 2` (`io/N` truncating toward zero, `>>` an arithmetic shift);
it replaces every sample `(I, Q)` by `(I - iOffset_new, Q - qOffset_new)` reduced to
16 bits, which is that difference itself when the differences are 16-bit integers; and
it changes neither `iRange`, `qRange` nor `imbalance`. -/
theorem dcOffset_formula (e : DSPEngine) (span : List Sample) (hne : span ≠ [])
    (hlen : span.length < 2147483648)
    (hio : -2147483648 ≤ (span.map Sample.m_real).sum ∧
      (span.map Sample.m_real).sum < 2147483648)
    (hqo : -2147483648 ≤ (span.map Sample.m_imag).sum ∧
      (span.map Sample.m_imag).sum < 2147483648)
    (hi : -2147483648 ≤ 3 * e.m_iOffset + (span.map Sample.m_real).sum.tdiv span.length ∧
      3 * e.m_iOffset + (span.map Sample.m_real).sum.tdiv span.length < 2147483648)
    (hq : -2147483648 ≤ 3 * e.m_qOffset + (span.map Sample.m_imag).sum.tdiv span.length ∧
      3 * e.m_qOffset + (span.map Sample.m_imag).sum.tdiv span.length < 2147483648) :
    (e.dcOffset span).1.m_iOffset
      = (3 * e.m_iOffset + (span.map Sample.m_real).sum.tdiv span.length) / 4 ∧
    (e.dcOffset span).1.m_qOffset
      = (3 * e.m_qOffset + (span.map Sample.m_imag).sum.tdiv span.length) / 4 ∧
    (e.dcOffset span).2
      = span.map (fun s =>
          ({ m_real := wrap16 (s.m_real - wrap16 (e.dcOffset span).1.m_iOffset),
             m_imag := wrap16 (s.m_imag - wrap16 (e.dcOffset span).1.m_qOffset) } : Sample)) ∧
    ((∀ s ∈ span,
          -32768 ≤ s.m_real - (e.dcOffset span).1.m_iOffset ∧
          s.m_real - (e.dcOffset span).1.m_iOffset ≤ 32767 ∧
          -32768 ≤ s.m_imag - (e.dcOffset span).1.m_qOffset ∧
          s.m_imag - (e.dcOffset span).1.m_qOffset ≤ 32767) →
      (e.dcOffset span).2
        = span.map (fun s =>
            ({ m_real := s.m_real - (e.dcOffset span).1.m_iOffset,
               m_imag := s.m_imag - (e.dcOffset span).1.m_qOffset } : Sample))) ∧
    (e.dcOffset span).1.m_iRange = e.m_iRange ∧ (e.dcOffset span).1.m_qRange = e.m_qRange ∧
    (e.dcOffset span).1.m_imbalance = e.m_imbalance := by
  have _ := hne
  refine ⟨?_, ?_, rfl, ?_, rfl, rfl, rfl⟩
  · show slideOffset e.m_iOffset (frameMean (sumReal span) span) = _
    rw [sumReal_eq, slideOffset_exact _ _ _ hlen hio hi]
  · show slideOffset e.m_qOffset (frameMean (sumImag span) span) = _
    rw [sumImag_eq, slideOffset_exact _ _ _ hlen hqo hq]
  · intro hs
    show span.map (fun s => s.sub (e.dcOffset span).1.m_iOffset (e.dcOffset span).1.m_qOffset)
      = _
    apply List.map_congr_left
    intro s hmem
    obtain ⟨b1, b2, b3, b4⟩ := hs s hmem
    unfold Sample.sub
    rw [wrap16_sub _ _ ⟨b1, b2⟩, wrap16_sub _ _ ⟨b3, b4⟩]

theorem dcOffset_formula_witness :
    (([⟨90, -7⟩, ⟨110, -8⟩] : List Sample) ≠ [] ∧
      ([⟨90, -7⟩, ⟨110, -8⟩] : List Sample).length < 2147483648) ∧
    (staleEngine.dcOffset [⟨90, -7⟩, ⟨110, -8⟩]).1.m_iOffset
      = (3 * staleEngine.m_iOffset
          + (([⟨90, -7⟩, ⟨110, -8⟩] : List Sample).map Sample.m_real).sum.tdiv
              ([⟨90, -7⟩, ⟨110, -8⟩] : List Sample).length) / 4 :=
  ⟨by decide,
    (dcOffset_formula staleEngine [⟨90, -7⟩, ⟨110, -8⟩] (by decide) (by decide) (by decide)
      (by decide) (by decide) (by decide)).1⟩

/-- C20, counterexample. From the state of a new engine: on a four-sample span whose
first I component is 32767 and whose other three are -32768, the new `iOffset` is
-4096 and the first sample becomes -28673, not `32767 - (-4096) = 36863`, which is no
16-bit value; and on a span of 65539 samples with I component 32767 the 32-bit sum
wraps, so the new `iOffset` is -8192, not `(3*0 + io/N) >> 2 = 8191`. -/
theorem dcOffset_wraps :
    (DSPEngine.init.dcOffset spikeSpan).1.m_iOffset = -4096 ∧
    (DSPEngine.init.dcOffset spikeSpan).2.head? = some ⟨-28673, 0⟩ ∧
    spikeSpan.head?.map (fun s => s.m_real - (DSPEngine.init.dcOffset spikeSpan).1.m_iOffset)
      = some 36863 ∧
    (DSPEngine.init.dcOffset (List.replicate 65539 ⟨32767, 0⟩)).1.m_iOffset = -8192 ∧
    ((List.replicate 65539 (⟨32767, 0⟩ : Sample)).map Sample.m_real).sum = 2147516413 ∧
    (3 * DSPEngine.init.m_iOffset + (2147516413 : Int).tdiv 65539) / 4 = 8191 := by
  have hsum : ((List.replicate 65539 (⟨32767, 0⟩ : Sample)).map Sample.m_real).sum
      = 2147516413 := by
    rw [List.map_replicate, List.sum_replicate, nsmul_eq_mul]
    decide
  refine ⟨by decide, by decide, by decide, ?_, hsum, by decide⟩
  rw [dcOffset_iOffset, sumReal_eq, hsum]
  unfold frameMean
  rw [List.length_replicate]
  decide
/-! ## Preset -/

/-- C18, evaluation at the failing input. A preset `q` that already holds two demod
entries deserializes the blob of a new (default) preset `p`: the call returns true and
every other field is that of `p`, but the demod list of `q` still holds its two old
entries, where `p` has none. -/
theorem deserialize_keeps_old_demods :
    (samplePreset.deserialize Preset.new.serialize).2 = true ∧
    Preset.new.m_demodConfigs = [] ∧
    (samplePreset.deserialize Preset.new.serialize).1.m_demodConfigs
      = [("nfm", [9]), ("am", [10, 11])] ∧
    (samplePreset.deserialize Preset.new.serialize).1
      = { Preset.new with m_demodConfigs := [("nfm", [9]), ("am", [10, 11])] } ∧
    (samplePreset.deserialize Preset.new.serialize).1 ≠ Preset.new := by
  decide

/-- C19, evaluation at the failing input. A preset whose `m_sourceGeneralConfig` is
`[6]` deserializes an invalid blob, and a valid blob of version 2: both calls return
false and reset every other field, but `m_sourceGeneralConfig` is still `[6]`, where a
new preset has the empty array. -/
theorem deserialize_failure_keeps_general_config :
    Preset.new.m_sourceGeneralConfig = [] ∧
    (samplePreset.deserialize invalidBlob).2 = false ∧
    (samplePreset.deserialize invalidBlob).1 = { Preset.new with m_sourceGeneralConfig := [6] } ∧
    (samplePreset.deserialize invalidBlob).1 ≠ Preset.new ∧
    (samplePreset.deserialize (Blob.init 2)).2 = false ∧
    (samplePreset.deserialize (Blob.init 2)).1
      = { Preset.new with m_sourceGeneralConfig := [6] } := by
  decide

theorem demod_tags (a : Nat) (ha : a < 1073741773) :
    demodTag a = 101 + 2 * (a : Int) ∧ configTag a = 102 + 2 * (a : Int) := by
  have h2 : wrap32 ((a : Int) * 2) = 2 * (a : Int) := by
    rw [wrap32_id _ (by omega) (by omega)]; omega
  unfold demodTag configTag
  rw [h2]
  exact ⟨wrap32_id _ (by omega) (by omega), wrap32_id _ (by omega) (by omega)⟩

theorem writeDemods_valid (ds : List (String × List Nat)) : ∀ (s : Blob) (i : Nat),
    (writeDemods s i ds).valid = s.valid ∧ (writeDemods s i ds).version = s.version := by
  induction ds with
  | nil => intro s i; exact ⟨rfl, rfl⟩
  | cons d rest ih => intro s i; rw [writeDemods]; exact ih _ _

/-- Tags below 101 are left alone by the demod loop of `serialize`. -/
theorem writeDemods_low (ds : List (String × List Nat)) : ∀ (s : Blob) (i : Nat) (t : Int),
    i + ds.length ≤ 1073741773 → t < 101 + 2 * (i : Int) →
    (writeDemods s i ds).store t = s.store t := by
  induction ds with
  | nil => intro s i t _ _; rfl
  | cons d rest ih =>
    intro s i t hlen ht
    rw [List.length_cons] at hlen
    obtain ⟨h1, h2⟩ := demod_tags i (by omega)
    rw [writeDemods, ih _ (i + 1) t (by omega) (by push_cast; omega)]
    simp only [Blob.write]
    rw [if_neg (by omega), if_neg (by omega)]

/-- The entries the demod loop of `serialize` stores. -/
theorem writeDemods_entry (ds : List (String × List Nat)) : ∀ (s : Blob) (i j : Nat)
    (hj : j < ds.length), i + ds.length ≤ 1073741773 →
    (writeDemods s i ds).store (demodTag (i + j)) = some (Value.string (ds.get ⟨j, hj⟩).1) ∧
    (writeDemods s i ds).store (configTag (i + j)) = some (Value.blob (ds.get ⟨j, hj⟩).2) := by
  induction ds with
  | nil => intro s i j hj; exact absurd hj (by simp)
  | cons d rest ih =>
    intro s i j hj hlen
    rw [List.length_cons] at hlen
    obtain ⟨h1, h2⟩ := demod_tags i (by omega)
    cases j with
    | zero =>
      simp only [Nat.add_zero]
      rw [writeDemods,
        writeDemods_low rest _ (i + 1) (demodTag i) (by omega) (by rw [h1]; push_cast; omega),
        writeDemods_low rest _ (i + 1) (configTag i) (by omega) (by rw [h2]; push_cast; omega)]
      simp only [Blob.write, List.get_cons_zero, h1, h2]
      rw [if_neg (by omega)]
      simp
    | succ k =>
      have hk : k < rest.length := by
        rw [List.length_cons] at hj; omega
      have := ih ((s.write (demodTag i) (Value.string d.1)).write (configTag i)
        (Value.blob d.2)) (i + 1) k hk (by omega)
      rw [writeDemods, show i + (k + 1) = i + 1 + k by omega]
      exact this

theorem foldl_append_singletons {α : Type} (f : Nat → α) (n : Nat) (init : List α) :
    (List.range n).foldl (fun acc i => acc ++ [f i]) init = init ++ (List.range n).map f := by
  induction n with
  | zero => simp
  | succ k ih =>
    rw [List.range_succ, List.foldl_append, ih, List.map_append]
    simp

/-- The demod loop of `deserialize` reads back the list that `serialize` wrote. -/
theorem readDemods_writeDemods (s : Blob) (ds : List (String × List Nat))
    (hlen : ds.length ≤ 1073741773) :
    readDemods (writeDemods s 0 ds) (ds.length : Int) [] = ds := by
  unfold readDemods
  rw [Int.toNat_ofNat, foldl_append_singletons, List.nil_append]
  apply List.ext_get
  · simp
  · intro j h1 h2
    obtain ⟨e1, e2⟩ := writeDemods_entry ds s 0 j h2 (by omega)
    rw [Nat.zero_add] at e1 e2
    simp only [List.get_eq_getElem, List.getElem_map, List.getElem_range, Blob.readString,
      Blob.readBlob, e1, e2]

/-- Round trip into a preset whose demod list is empty: `deserialize` of the blob of
`p` returns true and leaves exactly `p`. -/
theorem deserialize_serialize_of_no_demods (p q : Preset) (hq : q.m_demodConfigs = [])
    (hn : p.m_demodConfigs.length < 1073741773) :
    q.deserialize p.serialize = (p, true) := by
  have hlow : ∀ t : Int, t < 101 →
      p.serialize.store t
        = ((((((((((((((Blob.init 1).write 1 (Value.string p.m_group)).write 2
            (Value.string p.m_description)).write 3 (Value.u64 p.m_centerFrequency)).write 4
            (Value.bool p.m_showScope)).write 5 (Value.blob p.m_layout)).write 6
            (Value.blob p.m_spectrumConfig)).write 7 (Value.bool p.m_dcOffsetCorrection)).write 8
            (Value.bool p.m_iqImbalanceCorrection)).write 9 (Value.blob p.m_scopeConfig)).write 10
            (Value.string p.m_source)).write 11 (Value.blob p.m_sourceGeneralConfig)).write 12
            (Value.blob p.m_sourceConfig)).write 100
            (Value.s32 (wrap32 p.m_demodConfigs.length))).store t := by
    intro t ht
    exact writeDemods_low _ _ 0 t (by omega) (by omega)
  have hvalid : p.serialize.valid = true ∧ p.serialize.version = 1 := by
    unfold Preset.serialize
    simp only [writeDemods_valid]
    exact ⟨rfl, rfl⟩
  have hcount : p.serialize.readS32 100 0 = (p.m_demodConfigs.length : Int) := by
    unfold Blob.readS32
    rw [hlow 100 (by decide)]
    simp only [Blob.write]
    simp only [if_true]
    exact wrap32_id _ (by omega) (by omega)
  have hdemods : readDemods p.serialize (p.m_demodConfigs.length : Int) [] = p.m_demodConfigs :=
    readDemods_writeDemods _ _ (by omega)
  unfold Preset.deserialize
  rw [hvalid.1, hvalid.2, hcount]
  simp only [Bool.not_true, Bool.false_eq_true, if_false, if_true, hq, hdemods]
  simp only [Blob.readString, Blob.readU64, Blob.readBool, Blob.readBlob,
    hlow 1 (by decide), hlow 2 (by decide), hlow 3 (by decide), hlow 4 (by decide),
    hlow 5 (by decide), hlow 6 (by decide), hlow 7 (by decide), hlow 8 (by decide),
    hlow 9 (by decide), hlow 10 (by decide), hlow 11 (by decide), hlow 12 (by decide)]
  simp [Blob.write]

/-! ## The I/Q-imbalance correction against its formula -/

theorem asr_four (x : Int) : asr x 4 = x / 16 := by
  show x >>> (4 : Nat) = x / 16
  rw [Int.shiftRight_eq_div_pow]
  norm_num

theorem asr_sixteen (x : Int) : asr x 16 = x / 65536 := by
  show x >>> (16 : Nat) = x / 65536
  rw [Int.shiftRight_eq_div_pow]
  norm_num

/-- One step of the scan keeps `min <= max` and moves each bound only to the sample. -/
theorem scanStep_spec (acc : Int × Int × Int × Int) (s : Sample) (hi : acc.1 ≤ acc.2.1)
    (hq : acc.2.2.1 ≤ acc.2.2.2) :
    ((scanStep acc s).1 = acc.1 ∧ acc.1 ≤ s.m_real ∨
      (scanStep acc s).1 = s.m_real ∧ s.m_real < acc.1) ∧
    ((scanStep acc s).2.1 = acc.2.1 ∧ s.m_real ≤ acc.2.1 ∨
      (scanStep acc s).2.1 = s.m_real ∧ acc.2.1 < s.m_real) ∧
    ((scanStep acc s).2.2.1 = acc.2.2.1 ∧ acc.2.2.1 ≤ s.m_imag ∨
      (scanStep acc s).2.2.1 = s.m_imag ∧ s.m_imag < acc.2.2.1) ∧
    ((scanStep acc s).2.2.2 = acc.2.2.2 ∧ s.m_imag ≤ acc.2.2.2 ∨
      (scanStep acc s).2.2.2 = s.m_imag ∧ acc.2.2.2 < s.m_imag) := by
  unfold scanStep
  simp only
  refine ⟨?_, ?_, ?_, ?_⟩
  · split
    · right; exact ⟨rfl, by assumption⟩
    · split <;> (left; exact ⟨rfl, by omega⟩)
  · split
    · left; exact ⟨rfl, by omega⟩
    · split
      · right; exact ⟨rfl, by omega⟩
      · left; exact ⟨rfl, by omega⟩
  · split
    · right; exact ⟨rfl, by assumption⟩
    · split <;> (left; exact ⟨rfl, by omega⟩)
  · split
    · left; exact ⟨rfl, by omega⟩
    · split
      · right; exact ⟨rfl, by omega⟩
      · left; exact ⟨rfl, by omega⟩

/-- The scan from an accumulator with `min <= max`: the bounds enclose the accumulator
and every sample, and each bound is the accumulator's or a sample's. -/
theorem scan_fold (l : List Sample) : ∀ acc : Int × Int × Int × Int,
    acc.1 ≤ acc.2.1 → acc.2.2.1 ≤ acc.2.2.2 →
    ((l.foldl scanStep acc).1 ≤ acc.1 ∧ acc.2.1 ≤ (l.foldl scanStep acc).2.1 ∧
      (l.foldl scanStep acc).2.2.1 ≤ acc.2.2.1 ∧ acc.2.2.2 ≤ (l.foldl scanStep acc).2.2.2) ∧
    (∀ s ∈ l, (l.foldl scanStep acc).1 ≤ s.m_real ∧ s.m_real ≤ (l.foldl scanStep acc).2.1 ∧
      (l.foldl scanStep acc).2.2.1 ≤ s.m_imag ∧ s.m_imag ≤ (l.foldl scanStep acc).2.2.2) ∧
    ((l.foldl scanStep acc).1 = acc.1 ∨ ∃ s ∈ l, s.m_real = (l.foldl scanStep acc).1) ∧
    ((l.foldl scanStep acc).2.1 = acc.2.1 ∨ ∃ s ∈ l, s.m_real = (l.foldl scanStep acc).2.1) ∧
    ((l.foldl scanStep acc).2.2.1 = acc.2.2.1 ∨
      ∃ s ∈ l, s.m_imag = (l.foldl scanStep acc).2.2.1) ∧
    ((l.foldl scanStep acc).2.2.2 = acc.2.2.2 ∨
      ∃ s ∈ l, s.m_imag = (l.foldl scanStep acc).2.2.2) := by
  induction l with
  | nil =>
    intro acc _ _
    simp
  | cons x rest ih =>
    intro acc hi hq
    obtain ⟨s1, s2, s3, s4⟩ := scanStep_spec acc x hi hq
    have hi1 : (scanStep acc x).1 ≤ (scanStep acc x).2.1 := by omega
    have hq1 : (scanStep acc x).2.2.1 ≤ (scanStep acc x).2.2.2 := by omega
    have hb := (ih (scanStep acc x) hi1 hq1).1
    have hx : (List.foldl scanStep (scanStep acc x) rest).1 ≤ x.m_real ∧
        x.m_real ≤ (List.foldl scanStep (scanStep acc x) rest).2.1 ∧
        (List.foldl scanStep (scanStep acc x) rest).2.2.1 ≤ x.m_imag ∧
        x.m_imag ≤ (List.foldl scanStep (scanStep acc x) rest).2.2.2 := by omega
    have hacc : (List.foldl scanStep (scanStep acc x) rest).1 ≤ acc.1 ∧
        acc.2.1 ≤ (List.foldl scanStep (scanStep acc x) rest).2.1 ∧
        (List.foldl scanStep (scanStep acc x) rest).2.2.1 ≤ acc.2.2.1 ∧
        acc.2.2.2 ≤ (List.foldl scanStep (scanStep acc x) rest).2.2.2 := by omega
    obtain ⟨_, hall, e1, e2, e3, e4⟩ := ih (scanStep acc x) hi1 hq1
    rw [List.foldl_cons]
    refine ⟨hacc, ?_, ?_, ?_, ?_, ?_⟩
    · intro s hs
      rcases List.mem_cons.mp hs with h | h
      · subst h
        exact hx
      · exact hall s h
    · rcases e1 with h | ⟨s, hs, h⟩
      · rcases s1 with ⟨k, _⟩ | ⟨k, _⟩
        · left; rw [h, k]
        · right; exact ⟨x, List.mem_cons_self _ _, by rw [h, k]⟩
      · right; exact ⟨s, List.mem_cons_of_mem _ hs, h⟩
    · rcases e2 with h | ⟨s, hs, h⟩
      · rcases s2 with ⟨k, _⟩ | ⟨k, _⟩
        · left; rw [h, k]
        · right; exact ⟨x, List.mem_cons_self _ _, by rw [h, k]⟩
      · right; exact ⟨s, List.mem_cons_of_mem _ hs, h⟩
    · rcases e3 with h | ⟨s, hs, h⟩
      · rcases s3 with ⟨k, _⟩ | ⟨k, _⟩
        · left; rw [h, k]
        · right; exact ⟨x, List.mem_cons_self _ _, by rw [h, k]⟩
      · right; exact ⟨s, List.mem_cons_of_mem _ hs, h⟩
    · rcases e4 with h | ⟨s, hs, h⟩
      · rcases s4 with ⟨k, _⟩ | ⟨k, _⟩
        · left; rw [h, k]
        · right; exact ⟨x, List.mem_cons_self _ _, by rw [h, k]⟩
      · right; exact ⟨s, List.mem_cons_of_mem _ hs, h⟩

/-- On a non-empty span the scan finds the least and greatest I and Q components. -/
theorem scanExtrema_spec (span : List Sample) (hne : span ≠ []) :
    IsExtrema span (scanExtrema span) := by
  cases span with
  | nil => exact absurd rfl hne
  | cons x rest =>
    obtain ⟨⟨b1, b2, b3, b4⟩, hall, e1, e2, e3, e4⟩ :=
      scan_fold rest (x.m_real, x.m_real, x.m_imag, x.m_imag) (le_refl _) (le_refl _)
    have hx : x ∈ x :: rest := List.mem_cons_self _ _
    unfold IsExtrema scanExtrema
    simp only at b1 b2 b3 b4 e1 e2 e3 e4
    refine ⟨?_, ?_, ?_, ?_, ?_⟩
    · rcases e1 with h | ⟨s, hs, h⟩
      · exact ⟨x, hx, h.symm⟩
      · exact ⟨s, List.mem_cons_of_mem _ hs, h⟩
    · rcases e2 with h | ⟨s, hs, h⟩
      · exact ⟨x, hx, h.symm⟩
      · exact ⟨s, List.mem_cons_of_mem _ hs, h⟩
    · rcases e3 with h | ⟨s, hs, h⟩
      · exact ⟨x, hx, h.symm⟩
      · exact ⟨s, List.mem_cons_of_mem _ hs, h⟩
    · rcases e4 with h | ⟨s, hs, h⟩
      · exact ⟨x, hx, h.symm⟩
      · exact ⟨s, List.mem_cons_of_mem _ hs, h⟩
    · intro s hs
      rcases List.mem_cons.mp hs with h | h
      · subst h
        exact ⟨b1, b2, b3, b4⟩
      · exact hall s h

/-- The extents `max - min` found on a span of `qint16` samples lie in `[0, 65535]`. -/
theorem scanExtrema_extent (span : List Sample) (hs : ∀ s ∈ span, s.isInt16) :
    (0 ≤ (scanExtrema span).2.1 - (scanExtrema span).1 ∧
      (scanExtrema span).2.1 - (scanExtrema span).1 ≤ 65535) ∧
    (0 ≤ (scanExtrema span).2.2.2 - (scanExtrema span).2.2.1 ∧
      (scanExtrema span).2.2.2 - (scanExtrema span).2.2.1 ≤ 65535) := by
  by_cases hne : span = []
  · subst hne
    simp [scanExtrema]
  · obtain ⟨⟨a, ha, h1⟩, ⟨b, hb, h2⟩, ⟨c, hc, h3⟩, ⟨d, hd, h4⟩, hall⟩ :=
      scanExtrema_spec span hne
    have ka := hs a ha
    have kb := hs b hb
    have kc := hs c hc
    have kd := hs d hd
    have la := hall a ha
    have lc := hall c hc
    unfold Sample.isInt16 at ka kb kc kd
    omega

/-- The update of a running range when no 32-bit value wraps. -/
theorem slideRange_exact (r lo hi : Int) (hr : 0 ≤ r ∧ r ≤ 65536)
    (hx : 0 ≤ hi - lo ∧ hi - lo ≤ 65535) :
    slideRange r lo hi = (15 * r + (hi - lo)) / 16 ∧
    0 ≤ slideRange r lo hi ∧ slideRange r lo hi ≤ 65535 := by
  have h : slideRange r lo hi = (15 * r + (hi - lo)) / 16 := by
    unfold slideRange
    rw [wrap32_id (r * 15) (by omega) (by omega), wrap32_id (hi - lo) (by omega) (by omega),
      wrap32_id _ (by omega) (by omega), asr_four]
    congr 1; omega
  rw [h]
  omega

theorem imbalance_iRange (e : DSPEngine) (span : List Sample) :
    (e.imbalance span).1.m_iRange
      = slideRange e.m_iRange (scanExtrema span).1 (scanExtrema span).2.1 := rfl

theorem imbalance_qRange (e : DSPEngine) (span : List Sample) :
    (e.imbalance span).1.m_qRange
      = slideRange e.m_qRange (scanExtrema span).2.2.1 (scanExtrema span).2.2.2 := rfl

theorem imbalance_value (e : DSPEngine) (span : List Sample) :
    (e.imbalance span).1.m_imbalance
      = if (e.imbalance span).1.m_qRange ≠ 0 then
          wrap32 ((((intToUInt (e.imbalance span).1.m_iRange) * 65536 % UINT_MOD)
            / intToUInt (e.imbalance span).1.m_qRange : Nat) : Int)
        else e.m_imbalance := rfl

theorem imbalance_samples (e : DSPEngine) (span : List Sample) :
    (e.imbalance span).2
      = span.map (fun s =>
          { s with m_imag := wrap16 (asr (wrap32 (s.m_imag * (e.imbalance span).1.m_imbalance)) 16) })
      := rfl

/-- The quotient `((uint)iRange << 16) / (uint)qRange` for range estimates in `[0, 65535]`. -/
theorem shift_quotient (a b : Int) (ha : 0 ≤ a ∧ a ≤ 65535) (hb : 0 ≤ b ∧ b ≤ 65535) :
    intToUInt a * 65536 < UINT_MOD ∧
    (((intToUInt a * 65536 % UINT_MOD) / intToUInt b : Nat) : Int) = a * 65536 / b := by
  have h1 : intToUInt a = a.toNat := by
    unfold intToUInt; rw [Int.emod_eq_of_lt (by omega) (by omega)]
  have h2 : intToUInt b = b.toNat := by
    unfold intToUInt; rw [Int.emod_eq_of_lt (by omega) (by omega)]
  have h3 : a.toNat * 65536 < UINT_MOD := by unfold UINT_MOD; omega
  rw [h1, h2, Nat.mod_eq_of_lt h3]
  refine ⟨h3, ?_⟩
  rw [Int.natCast_div, Nat.cast_mul, Int.toNat_of_nonneg ha.1, Int.toNat_of_nonneg hb.1]
  rfl
/-- C21 (as amended). For every non-empty span of `qint16` samples and range estimates
with `0 <= iRange, qRange <= 65536`: the extrema found by the scan are the least and
greatest I and Q components; `imbalance()` sets `iRange` to
`(15*iRange_old + (iMax - iMin)) >> 4` and `qRange` likewise; when the new `qRange` is
not 0 it sets `imbalance` to `(iRange << 16) / qRange` reduced to a 32-bit signed
integer, which is the quotient itself when that is below `2^31`, and when the new
`qRange` is 0 it keeps the previous `imbalance`; it replaces every Q component by
`(Q * imbalance) >> 16` computed in 32 bits and reduced to 16 bits, which is
`(Q * imbalance) >> 16` itself when the product is a 32-bit and the shifted value a
16-bit integer; and it leaves every I component, `iOffset` and `qOffset` unchanged. -/
theorem imbalance_formula (e : DSPEngine) (span : List Sample) (hne : span ≠ [])
    (hs : ∀ s ∈ span, s.isInt16)
    (hi : 0 ≤ e.m_iRange ∧ e.m_iRange ≤ 65536) (hq : 0 ≤ e.m_qRange ∧ e.m_qRange ≤ 65536) :
    IsExtrema span (scanExtrema span) ∧
    (e.imbalance span).1.m_iRange
      = (15 * e.m_iRange + ((scanExtrema span).2.1 - (scanExtrema span).1)) / 16 ∧
    (e.imbalance span).1.m_qRange
      = (15 * e.m_qRange + ((scanExtrema span).2.2.2 - (scanExtrema span).2.2.1)) / 16 ∧
    ((e.imbalance span).1.m_qRange ≠ 0 →
      (e.imbalance span).1.m_imbalance
        = wrap32 ((e.imbalance span).1.m_iRange * 65536 / (e.imbalance span).1.m_qRange) ∧
      ((e.imbalance span).1.m_iRange * 65536 / (e.imbalance span).1.m_qRange < 2147483648 →
        (e.imbalance span).1.m_imbalance
          = (e.imbalance span).1.m_iRange * 65536 / (e.imbalance span).1.m_qRange)) ∧
    ((e.imbalance span).1.m_qRange = 0 → (e.imbalance span).1.m_imbalance = e.m_imbalance) ∧
    (e.imbalance span).2
      = span.map (fun s =>
          ({ m_real := s.m_real,
             m_imag := wrap16 (asr (wrap32 (s.m_imag * (e.imbalance span).1.m_imbalance)) 16) }
            : Sample)) ∧
    ((∀ s ∈ span,
          -2147483648 ≤ s.m_imag * (e.imbalance span).1.m_imbalance ∧
          s.m_imag * (e.imbalance span).1.m_imbalance < 2147483648 ∧
          -32768 ≤ s.m_imag * (e.imbalance span).1.m_imbalance / 65536 ∧
          s.m_imag * (e.imbalance span).1.m_imbalance / 65536 ≤ 32767) →
      (e.imbalance span).2
        = span.map (fun s =>
            ({ m_real := s.m_real,
               m_imag := s.m_imag * (e.imbalance span).1.m_imbalance / 65536 } : Sample))) ∧
    (e.imbalance span).2.map Sample.m_real = span.map Sample.m_real ∧
    (e.imbalance span).1.m_iOffset = e.m_iOffset ∧
    (e.imbalance span).1.m_qOffset = e.m_qOffset := by
  obtain ⟨xi, xq⟩ := scanExtrema_extent span hs
  obtain ⟨ri, ri1, ri2⟩ := slideRange_exact e.m_iRange _ _ hi xi
  obtain ⟨rq, rq1, rq2⟩ := slideRange_exact e.m_qRange _ _ hq xq
  rw [← imbalance_iRange] at ri ri1 ri2
  rw [← imbalance_qRange] at rq rq1 rq2
  have hquot := (shift_quotient _ _ ⟨ri1, ri2⟩ ⟨rq1, rq2⟩).2
  refine ⟨scanExtrema_spec span hne, ri, rq, ?_, ?_, rfl, ?_, ?_, rfl, rfl⟩
  · intro h0
    have hv : (e.imbalance span).1.m_imbalance
        = wrap32 ((e.imbalance span).1.m_iRange * 65536 / (e.imbalance span).1.m_qRange) := by
      rw [imbalance_value, if_pos h0, hquot]
    refine ⟨hv, fun hlt => ?_⟩
    rw [hv]
    have hnn : 0 ≤ (e.imbalance span).1.m_iRange * 65536 / (e.imbalance span).1.m_qRange :=
      Int.ediv_nonneg (by omega) rq1
    exact wrap32_id _ (by omega) hlt
  · intro h0
    rw [imbalance_value, if_neg (by simpa using h0)]
  · intro hfit
    rw [imbalance_samples]
    apply List.map_congr_left
    intro s hmem
    obtain ⟨b1, b2, b3, b4⟩ := hfit s hmem
    rw [wrap32_id _ b1 b2, asr_sixteen]
    have hw : wrap16 (s.m_imag * (e.imbalance span).1.m_imbalance / 65536)
        = s.m_imag * (e.imbalance span).1.m_imbalance / 65536 := by
      unfold wrap16; omega
    rw [hw]
  · rw [imbalance_samples, List.map_map]
    rfl

theorem imbalance_formula_witness :
    (([⟨90, -7⟩, ⟨110, -8⟩] : List Sample) ≠ [] ∧
      (∀ s ∈ ([⟨90, -7⟩, ⟨110, -8⟩] : List Sample), s.isInt16) ∧
      (0 ≤ staleEngine.m_iRange ∧ staleEngine.m_iRange ≤ 65536) ∧
      (0 ≤ staleEngine.m_qRange ∧ staleEngine.m_qRange ≤ 65536)) ∧
    (staleEngine.imbalance [⟨90, -7⟩, ⟨110, -8⟩]).1.m_iRange
      = (15 * staleEngine.m_iRange
          + ((scanExtrema [⟨90, -7⟩, ⟨110, -8⟩]).2.1 - (scanExtrema [⟨90, -7⟩, ⟨110, -8⟩]).1)) / 16 :=
  ⟨⟨by decide, by decide, by decide, by decide⟩,
    (imbalance_formula staleEngine [⟨90, -7⟩, ⟨110, -8⟩] (by decide) (by decide) (by decide)
      (by decide)).2.1⟩

/-- C21, counterexample. From the state of a new engine, on the two-sample span
`(32767, 32767), (-32768, 32767)` the new `iRange` is 65535, the new `qRange` is 61440
and the new `imbalance` is 69904; both Q components become -30586, not
`(32767 * 69904) >> 16 = 34950`, which is no 16-bit value. From `iRange = 65535`,
`qRange = 2` the same span gives `qRange = 1` and `imbalance = -65536`, not
`(65535 << 16) / 1 = 4294901760`. And from `iRange = 200000000` the product
`15 * iRange` wraps: the new `iRange` is -80931361, not
`(15*200000000 + 65535) >> 4 = 187504095`. -/
theorem imbalance_wraps :
    (DSPEngine.init.imbalance tiltSpan).1.m_iRange = 65535 ∧
    (DSPEngine.init.imbalance tiltSpan).1.m_qRange = 61440 ∧
    (DSPEngine.init.imbalance tiltSpan).1.m_imbalance = 69904 ∧
    (DSPEngine.init.imbalance tiltSpan).2 = [⟨32767, -30586⟩, ⟨-32768, -30586⟩] ∧
    tiltSpan.map (fun s => asr (s.m_imag * (DSPEngine.init.imbalance tiltSpan).1.m_imbalance) 16)
      = [34950, 34950] ∧
    (({ DSPEngine.init with m_iRange := 65535, m_qRange := 2 } : DSPEngine).imbalance
      tiltSpan).1.m_iRange = 65535 ∧
    (({ DSPEngine.init with m_iRange := 65535, m_qRange := 2 } : DSPEngine).imbalance
      tiltSpan).1.m_qRange = 1 ∧
    (({ DSPEngine.init with m_iRange := 65535, m_qRange := 2 } : DSPEngine).imbalance
      tiltSpan).1.m_imbalance = -65536 ∧
    (65535 * 65536 : Int) / 1 = 4294901760 ∧
    (({ DSPEngine.init with m_iRange := 200000000 } : DSPEngine).imbalance
      tiltSpan).1.m_iRange = -80931361 ∧
    asr (15 * 200000000 + (32767 - (-32768))) 4 = 187504095 := by
  decide
/-! ## Bounds on the correction arithmetic -/

/-- The exact sum of the I components of `qint16` samples. -/
theorem sum_real_bounds (l : List Sample) (hs : ∀ s ∈ l, s.isInt16) :
    -32768 * (l.length : Int) ≤ (l.map Sample.m_real).sum ∧
    (l.map Sample.m_real).sum ≤ 32767 * (l.length : Int) := by
  induction l with
  | nil => simp
  | cons x rest ih =>
    have hx := hs x (List.mem_cons_self _ _)
    have hr := ih (fun s h => hs s (List.mem_cons_of_mem _ h))
    unfold Sample.isInt16 at hx
    rw [List.map_cons, List.sum_cons, List.length_cons, Nat.cast_succ]
    omega

/-- The exact sum of the Q components of `qint16` samples. -/
theorem sum_imag_bounds (l : List Sample) (hs : ∀ s ∈ l, s.isInt16) :
    -32768 * (l.length : Int) ≤ (l.map Sample.m_imag).sum ∧
    (l.map Sample.m_imag).sum ≤ 32767 * (l.length : Int) := by
  induction l with
  | nil => simp
  | cons x rest ih =>
    have hx := hs x (List.mem_cons_self _ _)
    have hr := ih (fun s h => hs s (List.mem_cons_of_mem _ h))
    unfold Sample.isInt16 at hx
    rw [List.map_cons, List.sum_cons, List.length_cons, Nat.cast_succ]
    omega

/-- The truncating mean of `n` values of the `qint16` range is in that range. -/
theorem tdiv_mean (a n : Int) (hn : 0 < n) (h1 : -32768 * n ≤ a) (h2 : a ≤ 32767 * n) :
    -32768 ≤ a.tdiv n ∧ a.tdiv n ≤ 32767 := by
  by_cases ha : 0 ≤ a
  · rw [Int.tdiv_eq_ediv ha (le_of_lt hn)]
    have := Int.ediv_nonneg ha (le_of_lt hn)
    have := Int.ediv_le_of_le_mul hn h2
    omega
  · have hb : 0 ≤ -a := by omega
    have h3 : a.tdiv n = -((-a) / n) := by
      rw [← Int.tdiv_eq_ediv hb (le_of_lt hn), Int.neg_tdiv, Int.neg_neg]
    have := Int.ediv_nonneg hb (le_of_lt hn)
    have : (-a) / n ≤ 32768 := Int.ediv_le_of_le_mul hn (by omega)
    omega

/-- The mean `io / count` of a frame of fewer than `2^31` `qint16` values whose exact
sum is a 32-bit integer. -/
theorem frameMean_int16 (sum : Int) (span : List Sample) (hne : span ≠ [])
    (hlen : span.length < 2147483648)
    (h1 : -32768 * (span.length : Int) ≤ sum) (h2 : sum ≤ 32767 * (span.length : Int))
    (hfit : -2147483648 ≤ sum ∧ sum < 2147483648) :
    frameMean (wrap32 sum) span = sum.tdiv span.length ∧
    -32768 ≤ sum.tdiv span.length ∧ sum.tdiv span.length ≤ 32767 := by
  have hpos : 0 < (span.length : Int) := by
    have := List.length_pos.mpr hne
    omega
  have hn : wrap32 (span.length : Int) = span.length := wrap32_id _ (by omega) (by omega)
  obtain ⟨m1, m2⟩ := tdiv_mean sum span.length hpos h1 h2
  unfold frameMean
  rw [wrap32_id sum hfit.1 hfit.2, hn, wrap32_id _ (by omega) (by omega)]
  exact ⟨rfl, m1, m2⟩

theorem dcOffset_qOffset (e : DSPEngine) (span : List Sample) :
    (e.dcOffset span).1.m_qOffset
      = slideOffset e.m_qOffset (frameMean (sumImag span) span) := rfl

/-- One call of `dcOffset` keeps offsets of the `qint16` range in that range. -/
theorem dcOffset_step_range (e : DSPEngine) (span : List Sample) (hne : span ≠ [])
    (hlen : span.length < 2147483648) (hs : ∀ s ∈ span, s.isInt16)
    (hio : -2147483648 ≤ (span.map Sample.m_real).sum ∧
      (span.map Sample.m_real).sum < 2147483648)
    (hqo : -2147483648 ≤ (span.map Sample.m_imag).sum ∧
      (span.map Sample.m_imag).sum < 2147483648)
    (hi : -32768 ≤ e.m_iOffset ∧ e.m_iOffset ≤ 32767)
    (hq : -32768 ≤ e.m_qOffset ∧ e.m_qOffset ≤ 32767) :
    ((e.dcOffset span).1.m_iOffset
        = (3 * e.m_iOffset + (span.map Sample.m_real).sum.tdiv span.length) / 4 ∧
      -32768 ≤ (span.map Sample.m_real).sum.tdiv span.length ∧
      (span.map Sample.m_real).sum.tdiv span.length ≤ 32767) ∧
    ((e.dcOffset span).1.m_qOffset
        = (3 * e.m_qOffset + (span.map Sample.m_imag).sum.tdiv span.length) / 4 ∧
      -32768 ≤ (span.map Sample.m_imag).sum.tdiv span.length ∧
      (span.map Sample.m_imag).sum.tdiv span.length ≤ 32767) := by
  obtain ⟨a1, a2⟩ := sum_real_bounds span hs
  obtain ⟨b1, b2⟩ := sum_imag_bounds span hs
  obtain ⟨f1, f2, f3⟩ := frameMean_int16 _ span hne hlen a1 a2 hio
  obtain ⟨g1, g2, g3⟩ := frameMean_int16 _ span hne hlen b1 b2 hqo
  refine ⟨⟨?_, f2, f3⟩, ⟨?_, g2, g3⟩⟩
  · rw [dcOffset_iOffset, sumReal_eq, f1, slideOffset_eq _ _ hi.1 hi.2 f2 f3]
  · rw [dcOffset_qOffset, sumImag_eq, g1, slideOffset_eq _ _ hq.1 hq.2 g2 g3]

/-- The range estimates stay in `[0, 65536]` over any frames of `qint16` samples. -/
theorem imbalanceFrames_ranges (frames : List (List Sample)) : ∀ e : DSPEngine,
    (∀ f ∈ frames, ∀ s ∈ f, s.isInt16) →
    (0 ≤ e.m_iRange ∧ e.m_iRange ≤ 65536) → (0 ≤ e.m_qRange ∧ e.m_qRange ≤ 65536) →
    (0 ≤ (e.imbalanceFrames frames).m_iRange ∧ (e.imbalanceFrames frames).m_iRange ≤ 65536) ∧
    (0 ≤ (e.imbalanceFrames frames).m_qRange ∧ (e.imbalanceFrames frames).m_qRange ≤ 65536) := by
  induction frames with
  | nil => intro e _ hi hq; exact ⟨hi, hq⟩
  | cons f rest ih =>
    intro e hs hi hq
    obtain ⟨xi, xq⟩ := scanExtrema_extent f (hs f (List.mem_cons_self _ _))
    obtain ⟨_, ri1, ri2⟩ := slideRange_exact e.m_iRange _ _ hi xi
    obtain ⟨_, rq1, rq2⟩ := slideRange_exact e.m_qRange _ _ hq xq
    exact ih (e.imbalance f).1 (fun g hg => hs g (List.mem_cons_of_mem _ hg))
      (by rw [imbalance_iRange]; omega) (by rw [imbalance_qRange]; omega)

/-- C26. Bound on the range estimates: if `0 <= iRange <= 65536` and
`0 <= qRange <= 65536` before `imbalance()` is applied to any span of `qint16`
samples, then after its range update `0 <= iRange <= 65535` and `0 <= qRange <= 65535`,
so the unsigned shift `(uint)iRange << 16` of the same call is below `2^32` and does
not wrap; hence from such a state, the neutral or reset state (65536) included, the
shift wraps at no invocation over any sequence of frames of `qint16` samples. -/
theorem range_estimates_bounded :
    (∀ (e : DSPEngine) (span : List Sample), (∀ s ∈ span, s.isInt16) →
      (0 ≤ e.m_iRange ∧ e.m_iRange ≤ 65536) → (0 ≤ e.m_qRange ∧ e.m_qRange ≤ 65536) →
      (0 ≤ (e.imbalance span).1.m_iRange ∧ (e.imbalance span).1.m_iRange ≤ 65535) ∧
      (0 ≤ (e.imbalance span).1.m_qRange ∧ (e.imbalance span).1.m_qRange ≤ 65535) ∧
      intToUInt (e.imbalance span).1.m_iRange * 65536 < UINT_MOD) ∧
    (∀ (e : DSPEngine) (frames : List (List Sample)) (span : List Sample),
      (∀ f ∈ frames, ∀ s ∈ f, s.isInt16) → (∀ s ∈ span, s.isInt16) →
      (0 ≤ e.m_iRange ∧ e.m_iRange ≤ 65536) → (0 ≤ e.m_qRange ∧ e.m_qRange ≤ 65536) →
      intToUInt ((e.imbalanceFrames frames).imbalance span).1.m_iRange * 65536 < UINT_MOD) := by
  have hstep : ∀ (e : DSPEngine) (span : List Sample), (∀ s ∈ span, s.isInt16) →
      (0 ≤ e.m_iRange ∧ e.m_iRange ≤ 65536) → (0 ≤ e.m_qRange ∧ e.m_qRange ≤ 65536) →
      (0 ≤ (e.imbalance span).1.m_iRange ∧ (e.imbalance span).1.m_iRange ≤ 65535) ∧
      (0 ≤ (e.imbalance span).1.m_qRange ∧ (e.imbalance span).1.m_qRange ≤ 65535) ∧
      intToUInt (e.imbalance span).1.m_iRange * 65536 < UINT_MOD := by
    intro e span hs hi hq
    obtain ⟨xi, xq⟩ := scanExtrema_extent span hs
    obtain ⟨_, ri1, ri2⟩ := slideRange_exact e.m_iRange _ _ hi xi
    obtain ⟨_, rq1, rq2⟩ := slideRange_exact e.m_qRange _ _ hq xq
    rw [← imbalance_iRange] at ri1 ri2
    rw [← imbalance_qRange] at rq1 rq2
    exact ⟨⟨ri1, ri2⟩, ⟨rq1, rq2⟩, (shift_quotient _ _ ⟨ri1, ri2⟩ ⟨rq1, rq2⟩).1⟩
  refine ⟨hstep, ?_⟩
  intro e frames span hf hs hi hq
  obtain ⟨ki, kq⟩ := imbalanceFrames_ranges frames e hf hi hq
  exact (hstep _ span hs ki kq).2.2

theorem range_estimates_bounded_witness :
    ((∀ s ∈ tiltSpan, s.isInt16) ∧
      (0 ≤ DSPEngine.init.m_iRange ∧ DSPEngine.init.m_iRange ≤ 65536) ∧
      (0 ≤ DSPEngine.init.m_qRange ∧ DSPEngine.init.m_qRange ≤ 65536) ∧
      (∀ f ∈ [tiltSpan, spikeSpan], ∀ s ∈ f, s.isInt16)) ∧
    ((0 ≤ (DSPEngine.init.imbalance tiltSpan).1.m_iRange ∧
        (DSPEngine.init.imbalance tiltSpan).1.m_iRange ≤ 65535) ∧
      (0 ≤ (DSPEngine.init.imbalance tiltSpan).1.m_qRange ∧
        (DSPEngine.init.imbalance tiltSpan).1.m_qRange ≤ 65535) ∧
      intToUInt (DSPEngine.init.imbalance tiltSpan).1.m_iRange * 65536 < UINT_MOD) ∧
    intToUInt ((DSPEngine.init.imbalanceFrames [tiltSpan, spikeSpan]).imbalance
      tiltSpan).1.m_iRange * 65536 < UINT_MOD :=
  ⟨⟨by decide, by decide, by decide, by decide⟩,
    range_estimates_bounded.1 DSPEngine.init tiltSpan (by decide) (by decide) (by decide),
    range_estimates_bounded.2 DSPEngine.init [tiltSpan, spikeSpan] tiltSpan (by decide)
      (by decide) (by decide) (by decide)⟩
/-- C22 (as amended). For every non-empty frame of at most 65536 `qint16` samples and
every correction state with `-32768 <= iOffset, qOffset <= 32767` and
`0 <= iRange, qRange <= 65536`, the intermediate values of `dcOffset` (the sums `io`
and `qo`, `3*offset + mean`) and of `imbalance` (`15*range + extent`, `iRange << 16`)
fit in 32 bits, so that the 32-bit computation equals the unbounded one; and the
product `imag * imbalance` fits in 32 bits whenever the imbalance in use is between 0
and 65536. -/
theorem correction_arithmetic_fits (e : DSPEngine) (span : List Sample) (hne : span ≠ [])
    (hlen : span.length ≤ 65536) (hs : ∀ s ∈ span, s.isInt16)
    (hio : -32768 ≤ e.m_iOffset ∧ e.m_iOffset ≤ 32767)
    (hqo : -32768 ≤ e.m_qOffset ∧ e.m_qOffset ≤ 32767)
    (hi : 0 ≤ e.m_iRange ∧ e.m_iRange ≤ 65536) (hq : 0 ≤ e.m_qRange ∧ e.m_qRange ≤ 65536) :
    (sumReal span = (span.map Sample.m_real).sum ∧
      -2147483648 ≤ (span.map Sample.m_real).sum ∧
      (span.map Sample.m_real).sum < 2147483648) ∧
    (sumImag span = (span.map Sample.m_imag).sum ∧
      -2147483648 ≤ (span.map Sample.m_imag).sum ∧
      (span.map Sample.m_imag).sum < 2147483648) ∧
    ((e.dcOffset span).1.m_iOffset
        = (3 * e.m_iOffset + (span.map Sample.m_real).sum.tdiv span.length) / 4 ∧
      -2147483648 ≤ 3 * e.m_iOffset + (span.map Sample.m_real).sum.tdiv span.length ∧
      3 * e.m_iOffset + (span.map Sample.m_real).sum.tdiv span.length < 2147483648) ∧
    ((e.dcOffset span).1.m_qOffset
        = (3 * e.m_qOffset + (span.map Sample.m_imag).sum.tdiv span.length) / 4 ∧
      -2147483648 ≤ 3 * e.m_qOffset + (span.map Sample.m_imag).sum.tdiv span.length ∧
      3 * e.m_qOffset + (span.map Sample.m_imag).sum.tdiv span.length < 2147483648) ∧
    ((e.imbalance span).1.m_iRange
        = (15 * e.m_iRange + ((scanExtrema span).2.1 - (scanExtrema span).1)) / 16 ∧
      0 ≤ 15 * e.m_iRange + ((scanExtrema span).2.1 - (scanExtrema span).1) ∧
      15 * e.m_iRange + ((scanExtrema span).2.1 - (scanExtrema span).1) < 2147483648) ∧
    ((e.imbalance span).1.m_qRange
        = (15 * e.m_qRange + ((scanExtrema span).2.2.2 - (scanExtrema span).2.2.1)) / 16 ∧
      0 ≤ 15 * e.m_qRange + ((scanExtrema span).2.2.2 - (scanExtrema span).2.2.1) ∧
      15 * e.m_qRange + ((scanExtrema span).2.2.2 - (scanExtrema span).2.2.1) < 2147483648) ∧
    intToUInt (e.imbalance span).1.m_iRange * 65536 < UINT_MOD ∧
    ((0 ≤ (e.imbalance span).1.m_imbalance ∧ (e.imbalance span).1.m_imbalance ≤ 65536) →
      ∀ s ∈ span,
        wrap32 (s.m_imag * (e.imbalance span).1.m_imbalance)
          = s.m_imag * (e.imbalance span).1.m_imbalance ∧
        -2147483648 ≤ s.m_imag * (e.imbalance span).1.m_imbalance ∧
        s.m_imag * (e.imbalance span).1.m_imbalance < 2147483648) := by
  obtain ⟨a1, a2⟩ := sum_real_bounds span hs
  obtain ⟨b1, b2⟩ := sum_imag_bounds span hs
  have hl : (span.length : Int) ≤ 65536 := by omega
  have hsi : -2147483648 ≤ (span.map Sample.m_real).sum ∧
      (span.map Sample.m_real).sum < 2147483648 := by omega
  have hsq : -2147483648 ≤ (span.map Sample.m_imag).sum ∧
      (span.map Sample.m_imag).sum < 2147483648 := by omega
  obtain ⟨⟨c1, c2, c3⟩, ⟨d1, d2, d3⟩⟩ :=
    dcOffset_step_range e span hne (by omega) hs hsi hsq hio hqo
  obtain ⟨xi, xq⟩ := scanExtrema_extent span hs
  obtain ⟨ri, ri1, ri2⟩ := slideRange_exact e.m_iRange _ _ hi xi
  obtain ⟨rq, rq1, rq2⟩ := slideRange_exact e.m_qRange _ _ hq xq
  rw [← imbalance_iRange] at ri ri1 ri2
  rw [← imbalance_qRange] at rq rq1 rq2
  refine ⟨⟨?_, hsi⟩, ⟨?_, hsq⟩, ⟨c1, by omega, by omega⟩, ⟨d1, by omega, by omega⟩,
    ⟨ri, by omega, by omega⟩, ⟨rq, by omega, by omega⟩,
    (shift_quotient _ _ ⟨ri1, ri2⟩ ⟨rq1, rq2⟩).1, ?_⟩
  · rw [sumReal_eq, wrap32_id _ hsi.1 hsi.2]
  · rw [sumImag_eq, wrap32_id _ hsq.1 hsq.2]
  · intro hm s hmem
    have hx := hs s hmem
    unfold Sample.isInt16 at hx
    have p1 : -2147483648 ≤ s.m_imag * (e.imbalance span).1.m_imbalance := by
      nlinarith [hx.2.2.1, hm.1, hm.2]
    have p2 : s.m_imag * (e.imbalance span).1.m_imbalance < 2147483648 := by
      nlinarith [hx.2.2.2, hm.1, hm.2]
    exact ⟨wrap32_id _ p1 p2, p1, p2⟩

theorem correction_arithmetic_fits_witness :
    (spikeSpan ≠ [] ∧ spikeSpan.length ≤ 65536 ∧ (∀ s ∈ spikeSpan, s.isInt16) ∧
      (-32768 ≤ staleEngine.m_iOffset ∧ staleEngine.m_iOffset ≤ 32767) ∧
      (-32768 ≤ staleEngine.m_qOffset ∧ staleEngine.m_qOffset ≤ 32767) ∧
      (0 ≤ staleEngine.m_iRange ∧ staleEngine.m_iRange ≤ 65536) ∧
      (0 ≤ staleEngine.m_qRange ∧ staleEngine.m_qRange ≤ 65536)) ∧
    (sumReal spikeSpan = (spikeSpan.map Sample.m_real).sum ∧
      -2147483648 ≤ (spikeSpan.map Sample.m_real).sum ∧
      (spikeSpan.map Sample.m_real).sum < 2147483648) :=
  ⟨⟨by decide, by decide, by decide, by decide, by decide, by decide, by decide⟩,
    (correction_arithmetic_fits staleEngine spikeSpan (by decide) (by decide) (by decide)
      (by decide) (by decide) (by decide) (by decide)).1⟩

/-- C22, counterexample. From the state of a new engine, the frame
`(32767, 32767), (-32768, 32767)` of `qint16` samples sets `imbalance` to 69904, and
the product `imag * imbalance = 32767 * 69904 = 2290544368` is no 32-bit integer: the
32-bit product is -2004422928. And on a frame of 65539 samples with I component 32767
the exact sum 2147516413 is no 32-bit integer: the 32-bit sum `io` is -2147450883. -/
theorem correction_arithmetic_wraps :
    (∀ s ∈ tiltSpan, s.isInt16) ∧
    (DSPEngine.init.imbalance tiltSpan).1.m_imbalance = 69904 ∧
    tiltSpan.map (fun s => s.m_imag * (DSPEngine.init.imbalance tiltSpan).1.m_imbalance)
      = [2290544368, 2290544368] ∧
    tiltSpan.map (fun s => wrap32 (s.m_imag * (DSPEngine.init.imbalance tiltSpan).1.m_imbalance))
      = [-2004422928, -2004422928] ∧
    ¬ ((2290544368 : Int) < 2147483648) ∧
    (∀ s ∈ List.replicate 65539 (⟨32767, 0⟩ : Sample), s.isInt16) ∧
    ((List.replicate 65539 (⟨32767, 0⟩ : Sample)).map Sample.m_real).sum = 2147516413 ∧
    sumReal (List.replicate 65539 ⟨32767, 0⟩) = -2147450883 := by
  have hsum : ((List.replicate 65539 (⟨32767, 0⟩ : Sample)).map Sample.m_real).sum
      = 2147516413 := by
    rw [List.map_replicate, List.sum_replicate, nsmul_eq_mul]
    decide
  refine ⟨by decide, by decide, by decide, by decide, by decide, ?_, hsum, ?_⟩
  · intro s hmem
    rw [List.eq_of_mem_replicate hmem]
    decide
  · rw [sumReal_eq, hsum]
    decide

/-! ## The DC estimate stays in the input range -/

/-- Offsets of the `qint16` range stay in it over any sequence of admissible frames. -/
theorem dcOffsetFrames_range (frames : List (List Sample)) : ∀ e : DSPEngine,
    (∀ f ∈ frames, f ≠ [] ∧ f.length < 2147483648 ∧ (∀ s ∈ f, s.isInt16) ∧
      (-2147483648 ≤ (f.map Sample.m_real).sum ∧ (f.map Sample.m_real).sum < 2147483648) ∧
      (-2147483648 ≤ (f.map Sample.m_imag).sum ∧ (f.map Sample.m_imag).sum < 2147483648)) →
    (-32768 ≤ e.m_iOffset ∧ e.m_iOffset ≤ 32767) →
    (-32768 ≤ e.m_qOffset ∧ e.m_qOffset ≤ 32767) →
    (-32768 ≤ (e.dcOffsetFrames frames).m_iOffset ∧
      (e.dcOffsetFrames frames).m_iOffset ≤ 32767) ∧
    (-32768 ≤ (e.dcOffsetFrames frames).m_qOffset ∧
      (e.dcOffsetFrames frames).m_qOffset ≤ 32767) := by
  induction frames with
  | nil => intro e _ hi hq; exact ⟨hi, hq⟩
  | cons f rest ih =>
    intro e hf hi hq
    obtain ⟨k1, k2, k3, k4, k5⟩ := hf f (List.mem_cons_self _ _)
    obtain ⟨⟨c1, c2, c3⟩, ⟨d1, d2, d3⟩⟩ := dcOffset_step_range e f k1 k2 k3 k4 k5 hi hq
    exact ih (e.dcOffset f).1 (fun g hg => hf g (List.mem_cons_of_mem _ hg))
      (by rw [c1]; omega) (by rw [d1]; omega)

/-- C23 (as amended). The DC estimate stays in the input range: if
`-32768 <= iOffset, qOffset <= 32767` before `dcOffset` is applied to a non-empty span
of fewer than `2^31` `qint16` samples whose sums do not overflow, then
`-32768 <= iOffset, qOffset <= 32767` afterwards; hence from such a state, the neutral
state included, the offsets stay within the `qint16` range after any number of such
frames. -/
theorem dcOffset_stays_in_range :
    (∀ (e : DSPEngine) (span : List Sample), span ≠ [] → span.length < 2147483648 →
      (∀ s ∈ span, s.isInt16) →
      (-2147483648 ≤ (span.map Sample.m_real).sum ∧
        (span.map Sample.m_real).sum < 2147483648) →
      (-2147483648 ≤ (span.map Sample.m_imag).sum ∧
        (span.map Sample.m_imag).sum < 2147483648) →
      (-32768 ≤ e.m_iOffset ∧ e.m_iOffset ≤ 32767) →
      (-32768 ≤ e.m_qOffset ∧ e.m_qOffset ≤ 32767) →
      (-32768 ≤ (e.dcOffset span).1.m_iOffset ∧ (e.dcOffset span).1.m_iOffset ≤ 32767) ∧
      (-32768 ≤ (e.dcOffset span).1.m_qOffset ∧ (e.dcOffset span).1.m_qOffset ≤ 32767)) ∧
    (∀ (e : DSPEngine) (frames : List (List Sample)),
      (∀ f ∈ frames, f ≠ [] ∧ f.length < 2147483648 ∧ (∀ s ∈ f, s.isInt16) ∧
        (-2147483648 ≤ (f.map Sample.m_real).sum ∧ (f.map Sample.m_real).sum < 2147483648) ∧
        (-2147483648 ≤ (f.map Sample.m_imag).sum ∧
          (f.map Sample.m_imag).sum < 2147483648)) →
      (-32768 ≤ e.m_iOffset ∧ e.m_iOffset ≤ 32767) →
      (-32768 ≤ e.m_qOffset ∧ e.m_qOffset ≤ 32767) →
      (-32768 ≤ (e.dcOffsetFrames frames).m_iOffset ∧
        (e.dcOffsetFrames frames).m_iOffset ≤ 32767) ∧
      (-32768 ≤ (e.dcOffsetFrames frames).m_qOffset ∧
        (e.dcOffsetFrames frames).m_qOffset ≤ 32767)) := by
  refine ⟨?_, fun e frames => dcOffsetFrames_range frames e⟩
  intro e span hne hlen hs hio hqo hi hq
  obtain ⟨⟨c1, c2, c3⟩, ⟨d1, d2, d3⟩⟩ := dcOffset_step_range e span hne hlen hs hio hqo hi hq
  rw [c1, d1]
  omega

theorem dcOffset_stays_in_range_witness :
    (spikeSpan ≠ [] ∧ spikeSpan.length < 2147483648 ∧ (∀ s ∈ spikeSpan, s.isInt16) ∧
      (-2147483648 ≤ (spikeSpan.map Sample.m_real).sum ∧
        (spikeSpan.map Sample.m_real).sum < 2147483648) ∧
      (-2147483648 ≤ (spikeSpan.map Sample.m_imag).sum ∧
        (spikeSpan.map Sample.m_imag).sum < 2147483648) ∧
      (-32768 ≤ DSPEngine.init.m_iOffset ∧ DSPEngine.init.m_iOffset ≤ 32767) ∧
      (-32768 ≤ DSPEngine.init.m_qOffset ∧ DSPEngine.init.m_qOffset ≤ 32767)) ∧
    ((-32768 ≤ (DSPEngine.init.dcOffset spikeSpan).1.m_iOffset ∧
        (DSPEngine.init.dcOffset spikeSpan).1.m_iOffset ≤ 32767) ∧
      (-32768 ≤ (DSPEngine.init.dcOffset spikeSpan).1.m_qOffset ∧
        (DSPEngine.init.dcOffset spikeSpan).1.m_qOffset ≤ 32767)) :=
  ⟨⟨by decide, by decide, by decide, by decide, by decide, by decide, by decide⟩,
    dcOffset_stays_in_range.1 DSPEngine.init spikeSpan (by decide) (by decide) (by decide)
      (by decide) (by decide) (by decide) (by decide)⟩

/-- C23, counterexample. A span of `2^32 - 1` `qint16` samples, all zero but eight with
I component 32767: the sums are 262136 and 0 and do not overflow, but the count
narrowed to `int` is -1, so from the neutral state `io / count = -262136` and the new
`iOffset` is -65534, below the `qint16` range. -/
theorem dcOffset_long_span :
    longSpan ≠ [] ∧ longSpan.length = 4294967295 ∧ (∀ s ∈ longSpan, s.isInt16) ∧
    (longSpan.map Sample.m_real).sum = 262136 ∧ (longSpan.map Sample.m_imag).sum = 0 ∧
    sumReal longSpan = 262136 ∧ sumImag longSpan = 0 ∧
    DSPEngine.init.m_iOffset = 0 ∧ DSPEngine.init.m_qOffset = 0 ∧
    frameMean (sumReal longSpan) longSpan = -262136 ∧
    (DSPEngine.init.dcOffset longSpan).1.m_iOffset = -65534 ∧
    ¬ (-32768 ≤ (DSPEngine.init.dcOffset longSpan).1.m_iOffset) := by
  have hlen : longSpan.length = 4294967295 := by
    unfold longSpan
    rw [List.length_append, List.length_replicate, List.length_replicate]
  have hre : (longSpan.map Sample.m_real).sum = 262136 := by
    unfold longSpan
    rw [List.map_append, List.sum_append, List.map_replicate, List.map_replicate,
      List.sum_replicate, List.sum_replicate, nsmul_eq_mul, nsmul_eq_mul]
    simp
  have him : (longSpan.map Sample.m_imag).sum = 0 := by
    unfold longSpan
    rw [List.map_append, List.sum_append, List.map_replicate, List.map_replicate,
      List.sum_replicate, List.sum_replicate, nsmul_eq_mul, nsmul_eq_mul]
    simp
  have hsr : sumReal longSpan = 262136 := by rw [sumReal_eq, hre]; decide
  have hsq : sumImag longSpan = 0 := by rw [sumImag_eq, him]; decide
  have hmean : frameMean (sumReal longSpan) longSpan = -262136 := by
    rw [hsr]; unfold frameMean; rw [hlen]; decide
  have hoff : (DSPEngine.init.dcOffset longSpan).1.m_iOffset = -65534 := by
    rw [dcOffset_iOffset, hmean]; decide
  refine ⟨?_, hlen, ?_, hre, him, hsr, hsq, rfl, rfl, hmean, hoff, ?_⟩
  · intro h
    rw [h] at hlen
    exact absurd hlen (by decide)
  · intro s hmem
    unfold longSpan at hmem
    rcases List.mem_append.mp hmem with h | h
    · rw [List.eq_of_mem_replicate h]; decide
    · rw [List.eq_of_mem_replicate h]; decide
  · rw [hoff]; decide

/-! ## Rate limiting of the overflow report -/

/-- What `write` returns and emits on a ring with `fill <= capacity`. -/
theorem write_events (s : SampleFifo) (span : List Sample) (elapsed : Int)
    (hsz : s.m_size < UINT_MOD) (hfill : s.m_fill ≤ s.m_size) :
    ∃ s', s.write span elapsed
        = some (s', MIN (toUInt span.length) (uintSub s.m_size s.m_fill),
            (if s.drops span then
                s.reportOverflow (toUInt span.length)
                  (MIN (toUInt span.length) (uintSub s.m_size s.m_fill)) elapsed
              else (s, [])).2
              ++ (if s'.m_fill > 0 then [FifoEvent.dataReady] else [])) ∧
      s'.m_suppressed
        = (if s.drops span then
              s.reportOverflow (toUInt span.length)
                (MIN (toUInt span.length) (uintSub s.m_size s.m_fill)) elapsed
            else (s, [])).1.m_suppressed ∧
      s'.m_size = s.m_size ∧ s'.m_fill ≤ s'.m_size := by
  have htotal : MIN (toUInt span.length) (uintSub s.m_size s.m_fill)
      ≤ s.m_size - s.m_fill := by
    rw [uintSub_of_le hfill hsz, MIN_eq_min]; omega
  obtain ⟨g1, g2, _, _, _⟩ := write_start_fields s (s.drops span) (toUInt span.length)
    (MIN (toUInt span.length) (uintSub s.m_size s.m_fill)) elapsed
  obtain ⟨s', h1, h2, _, h4, h5⟩ := writeLoop_any_tail
    (if s.drops span then
      s.reportOverflow (toUInt span.length)
        (MIN (toUInt span.length) (uintSub s.m_size s.m_fill)) elapsed
     else (s, [])).1 span (MIN (toUInt span.length) (uintSub s.m_size s.m_fill))
    (by rw [g1, g2]; omega) (by rw [g1]; exact hsz)
  refine ⟨s', ?_, h5, by rw [h2, g1], by rw [h2, g1, h4, g2]; omega⟩
  unfold SampleFifo.write
  simp only
  unfold SampleFifo.drops at h1 ⊢
  rw [h1]

theorem reportOverflow_armed (s : SampleFifo) (count total : Nat) (elapsed : Int)
    (h : s.m_suppressed < 0) :
    s.reportOverflow count total elapsed
      = ({ s with m_suppressed := 0 },
          [FifoEvent.timerStart, FifoEvent.overflow (uintSub count total)]) := by
  unfold SampleFifo.reportOverflow
  rw [if_pos h]

theorem reportOverflow_quiet (s : SampleFifo) (count total : Nat) (elapsed : Int)
    (h : 0 ≤ s.m_suppressed) (hm : s.m_suppressed < 2147483647) (he : elapsed ≤ 2500) :
    s.reportOverflow count total elapsed
      = ({ s with m_suppressed := s.m_suppressed + 1 }, []) := by
  unfold SampleFifo.reportOverflow
  rw [if_neg (by omega), if_neg (by omega), wrap32_id _ (by omega) (by omega)]

theorem reportOverflow_summary (s : SampleFifo) (count total : Nat) (elapsed : Int)
    (h : 0 ≤ s.m_suppressed) (he : 2500 < elapsed) :
    s.reportOverflow count total elapsed
      = ({ s with m_suppressed := -1 },
          [FifoEvent.messagesDropped s.m_suppressed,
            FifoEvent.overflow (uintSub count total)]) := by
  unfold SampleFifo.reportOverflow
  rw [if_neg (by omega), if_pos (by omega)]

theorem reports_dataReady (c : Prop) [Decidable c] :
    reports (if c then [FifoEvent.dataReady] else []) = [] := by
  split <;> rfl

theorem timerStart_dataReady (c : Prop) [Decidable c] :
    FifoEvent.timerStart ∉ (if c then [FifoEvent.dataReady] else []) := by
  split <;> simp

theorem reports_append (a b : List FifoEvent) : reports (a ++ b) = reports a ++ reports b := by
  unfold reports
  rw [List.filter_append]

theorem readOp_fields (s : SampleFifo) (k : Nat) (hsz : s.m_size < UINT_MOD)
    (hfill : s.m_fill ≤ s.m_size) :
    (s.readOp k).1.m_suppressed = s.m_suppressed ∧ (s.readOp k).1.m_size = s.m_size ∧
    (s.readOp k).1.m_fill ≤ s.m_size := by
  refine ⟨rfl, rfl, ?_⟩
  unfold SampleFifo.readOp SampleFifo.readCommit
  simp only [readBegin_state]
  split
  · rw [uintSub_of_le (le_refl _) (by omega)]; omega
  · rw [uintSub_of_le (by omega) (by omega)]; omega

/-- After the first report: a sequence of operations whose dropping writes all fall
inside the 2500 ms window emits no report and counts its dropping writes. -/
theorem runEvents_suppressed (ops : List FifoOp) : ∀ s : SampleFifo,
    0 < s.m_size → s.m_size < UINT_MOD → s.m_fill ≤ s.m_size → 0 ≤ s.m_suppressed →
    s.m_suppressed + droppingWrites s ops < 2147483648 → withinWindow s ops = true →
    ∃ s' ev, runEvents s ops = some (s', ev) ∧ reports ev = [] ∧
      FifoEvent.timerStart ∉ ev ∧
      s'.m_suppressed = s.m_suppressed + droppingWrites s ops ∧
      s'.m_size = s.m_size ∧ s'.m_fill ≤ s'.m_size := by
  induction ops with
  | nil =>
    intro s _ _ hfill _ _ _
    exact ⟨s, [], rfl, rfl, by simp, by simp [droppingWrites], rfl, hfill⟩
  | cons op ops ih =>
    intro s hpos hsz hfill hsup hcount hwin
    cases op with
    | write span elapsed =>
      obtain ⟨s1, hw, k1, k2, k3⟩ := write_events s span elapsed hsz hfill
      rw [withinWindow, Bool.and_eq_true, decide_eq_true_eq, hw] at hwin
      rw [droppingWrites, hw] at hcount ⊢
      simp only at hwin hcount ⊢
      obtain ⟨he, hrest⟩ := hwin
      by_cases hd : s.drops span
      · rw [if_pos hd] at hcount k1 hw ⊢
        rw [reportOverflow_quiet s _ _ _ hsup (by omega) (he hd)] at k1 hw
        simp only at k1
        obtain ⟨s', ev, hrun, r1, r2, r3, r4, r5⟩ := ih s1 (by rw [k2]; exact hpos)
          (by rw [k2]; exact hsz) k3 (by rw [k1]; omega) (by rw [k1]; omega) hrest
        have hrun2 : runEvents s (FifoOp.write span elapsed :: ops)
            = some (s', (([] : List FifoEvent)
                ++ if s1.m_fill > 0 then [FifoEvent.dataReady] else []) ++ ev) := by
          simp only [runEvents, hw, hrun]
        refine ⟨s', _, hrun2, ?_, ?_, ?_, by rw [r4, k2], r5⟩
        · rw [reports_append, reports_append, r1, reports_dataReady]; rfl
        · simp only [List.mem_append, not_or]
          exact ⟨⟨by simp, timerStart_dataReady _⟩, r2⟩
        · rw [r3, k1]; push_cast; omega
      · rw [if_neg hd] at hcount k1 hw ⊢
        simp only at k1
        obtain ⟨s', ev, hrun, r1, r2, r3, r4, r5⟩ := ih s1 (by rw [k2]; exact hpos)
          (by rw [k2]; exact hsz) k3 (by rw [k1]; exact hsup) (by rw [k1]; omega) hrest
        have hrun2 : runEvents s (FifoOp.write span elapsed :: ops)
            = some (s', (([] : List FifoEvent)
                ++ if s1.m_fill > 0 then [FifoEvent.dataReady] else []) ++ ev) := by
          simp only [runEvents, hw, hrun]
        refine ⟨s', _, hrun2, ?_, ?_, ?_, by rw [r4, k2], r5⟩
        · rw [reports_append, reports_append, r1, reports_dataReady]; rfl
        · simp only [List.mem_append, not_or]
          exact ⟨⟨by simp, timerStart_dataReady _⟩, r2⟩
        · rw [r3, k1]; push_cast; omega
    | read k =>
      obtain ⟨f1, f2, f3⟩ := readOp_fields s k hsz hfill
      rw [withinWindow] at hwin
      rw [droppingWrites] at hcount ⊢
      obtain ⟨s', ev, hrun, r1, r2, r3, r4, r5⟩ := ih (s.readOp k).1 (by rw [f2]; exact hpos)
        (by rw [f2]; exact hsz) (by rw [f2]; exact f3) (by rw [f1]; exact hsup)
        (by rw [f1]; exact hcount) hwin
      have hread : s.readOpChecked k = some (s.readOp k) := by
        unfold SampleFifo.readOpChecked
        rw [if_neg (by omega)]
      exact ⟨s', ev, by simp only [runEvents, hread, hrun], r1, r2, by rw [r3, f1],
        by rw [r4, f2], r5⟩
/-- One burst of 1500 samples into a new ring of capacity 1000. -/
theorem burst_write (span : List Sample) (elapsed : Int) (hlen : span.length = 1500) :
    ∃ s' ev, (SampleFifo.ofSize 1000).write span elapsed = some (s', 1000, ev) ∧
      reports ev = [FifoEvent.overflow 500] ∧
      ∀ k, (s'.readOp k).2 = span.take (min k 1000) := by
  have hofs : SampleFifo.ofSize 1000 = (SampleFifo.empty.create 1000).1 := rfl
  obtain ⟨f1, f2, f3, _, f5, f6⟩ := create_fields 1000 (by decide)
  have hsup : (SampleFifo.empty.create 1000).1.m_suppressed = -1 := rfl
  have hsz : (SampleFifo.empty.create 1000).1.m_size < UINT_MOD := by rw [f1]; decide
  have hcount : toUInt span.length = 1500 := by rw [hlen]; rfl
  have htotal : MIN (toUInt span.length)
      (uintSub (SampleFifo.empty.create 1000).1.m_size (SampleFifo.empty.create 1000).1.m_fill)
      = 1000 := by
    rw [hcount, f1, f2]; decide
  have hdrops : (SampleFifo.empty.create 1000).1.drops span := by
    unfold SampleFifo.drops
    rw [htotal, hcount]; decide
  obtain ⟨s', ev, hw, k2, k3, k4, _, _, k7⟩ := write_spec (SampleFifo.empty.create 1000).1
    span elapsed hsz (by rw [f1]; decide) f6
  obtain ⟨s1, hw1, _, _, _⟩ := write_events (SampleFifo.empty.create 1000).1 span elapsed hsz
    (by rw [f1, f2]; decide)
  have hmin : min (span.length % UINT_MOD)
      ((SampleFifo.empty.create 1000).1.m_size - (SampleFifo.empty.create 1000).1.m_fill)
      = 1000 := by
    rw [hlen, f1, f2]; decide
  rw [hmin] at hw k4 k7
  rw [htotal, if_pos hdrops, reportOverflow_armed _ _ _ _ (by rw [hsup]; decide), hw] at hw1
  have hinj := Option.some.inj hw1
  have hs : s' = s1 := congrArg Prod.fst hinj
  have hev : ev = [FifoEvent.timerStart, FifoEvent.overflow (uintSub (toUInt span.length) 1000)]
      ++ (if s1.m_fill > 0 then [FifoEvent.dataReady] else []) :=
    congrArg (fun r => r.2.2) hinj
  have hcont : s'.contents = span.take 1000 := by
    have hc := k7 (by rw [f5, f1])
    have hempty : (SampleFifo.empty.create 1000).1.contents = [] := by
      unfold SampleFifo.contents; rw [f2]; rfl
    rw [hempty, List.nil_append] at hc
    exact hc
  have hfill : s'.m_fill = 1000 := by rw [k4, f2]
  refine ⟨s', ev, by rw [hofs]; exact hw, ?_, ?_⟩
  · rw [hev, reports_append, reports_dataReady, hcount]
    decide
  · intro k
    have hr := (readOp_spec s' k (by rw [k2]; exact hsz) (by rw [k3, k2, f3, f1]; decide)
      (by rw [hfill, k2, f1])).1
    rw [hr, hcont, hfill, List.take_take, Nat.min_assoc, Nat.min_self]

/-- A dropping write into a full ring of capacity 1 with the reporter not armed and the
timer inside the window. -/
theorem write_full_quiet (s : SampleFifo) (x : Sample) (elapsed : Int) (h1 : s.m_size = 1)
    (h2 : s.m_fill = 1) (h3 : 0 ≤ s.m_suppressed) (he : elapsed ≤ 2500) :
    s.write [x] elapsed
      = some ({ s with m_suppressed := wrap32 (s.m_suppressed + 1) }, 0,
          [FifoEvent.dataReady]) := by
  have hc : toUInt [x].length = 1 := rfl
  have ht : MIN 1 (uintSub s.m_size s.m_fill) = 0 := by
    rw [h1, h2]; decide
  unfold SampleFifo.write
  simp only [hc, ht]
  rw [if_pos (by decide)]
  unfold SampleFifo.reportOverflow
  rw [if_neg (by omega), if_neg (by omega)]
  simp only [SampleFifo.writeLoop]
  rw [if_neg (by decide)]
  simp only [h2]
  rfl

theorem reports_replicate (k : Nat) : reports (List.replicate k FifoEvent.dataReady) = [] := by
  induction k with
  | zero => rfl
  | succ n ih =>
    rw [List.replicate_succ]
    exact ih

/-- The run of `k` dropping writes inside the window on a full ring of capacity 1. -/
theorem runEvents_full (k : Nat) : ∀ s : SampleFifo, s.m_size = 1 → s.m_fill = 1 →
    0 ≤ s.m_suppressed → s.m_suppressed + k < 2147483648 →
    runEvents s (List.replicate k (FifoOp.write [⟨1, 1⟩] 1))
      = some ({ s with m_suppressed := s.m_suppressed + k },
          List.replicate k FifoEvent.dataReady) := by
  induction k with
  | zero =>
    intro s _ _ _ _
    simp [runEvents]
  | succ n ih =>
    intro s h1 h2 h3 h4
    have hw := write_full_quiet s ⟨1, 1⟩ 1 h1 h2 h3 (by decide)
    rw [wrap32_id _ (by omega) (by omega)] at hw
    have hrec := ih { s with m_suppressed := s.m_suppressed + 1 } h1 h2
      (by simp only; omega) (by simp only; push_cast at h4; omega)
    rw [List.replicate_succ, runEvents, hw]
    simp only
    rw [hrec]
    simp only [List.replicate_succ, List.singleton_append, Nat.cast_succ, Int.add_assoc]
    have : (1 : Int) + (n : Int) = (n : Int) + 1 := by omega
    rw [this]

theorem runEvents_write_some (s : SampleFifo) (span : List Sample) (elapsed : Int)
    (ops : List FifoOp) (r : SampleFifo × Nat × List FifoEvent)
    (res : SampleFifo × List FifoEvent)
    (hw : s.write span elapsed = some r) (hrest : runEvents r.1 ops = some res) :
    runEvents s (FifoOp.write span elapsed :: ops) = some (res.1, r.2.2 ++ res.2) := by
  simp only [runEvents, hw, hrest]

/-- One handled command keeps: outside `StRunning` the device description is empty. -/
theorem handleMessage_description (e : DSPEngine) (cmd : Command)
    (hd : e.m_state ≠ State.StRunning → e.m_deviceDescription = "")
    (hsrc : e.m_state = State.StRunning → ∃ src, e.m_sampleSource = some src) :
    (e.handleMessage cmd).1.m_state ≠ State.StRunning →
    (e.handleMessage cmd).1.m_deviceDescription = "" := by
  cases cmd with
  | ping => exact hd
  | exit =>
    intro _
    cases hst : e.m_state with
    | StRunning =>
      obtain ⟨src, hs⟩ := hsrc hst
      simp [DSPEngine.handleMessage, DSPEngine.gotoIdle, hst, hs]
    | StNotStarted =>
      simpa [DSPEngine.handleMessage, DSPEngine.gotoIdle, hst] using hd (by rw [hst]; decide)
    | StIdle =>
      simpa [DSPEngine.handleMessage, DSPEngine.gotoIdle, hst] using hd (by rw [hst]; decide)
    | StError =>
      simpa [DSPEngine.handleMessage, DSPEngine.gotoIdle, hst] using hd (by rw [hst]; decide)
  | acquisitionStart =>
    intro h
    cases hst : e.m_state with
    | StRunning =>
      obtain ⟨src, hs⟩ := hsrc hst
      cases hr : src.startInputResult <;>
        simp [DSPEngine.handleMessage, DSPEngine.gotoIdle, DSPEngine.gotoRunning,
          DSPEngine.gotoError, hst, hs, hr] at h ⊢
    | StNotStarted =>
      simpa [DSPEngine.handleMessage, DSPEngine.gotoIdle, hst] using hd (by rw [hst]; decide)
    | StIdle =>
      cases hs : e.m_sampleSource with
      | none =>
        simp [DSPEngine.handleMessage, DSPEngine.gotoIdle, DSPEngine.gotoRunning,
          DSPEngine.gotoError, hst, hs]
      | some src =>
        cases hr : src.startInputResult <;>
          simp [DSPEngine.handleMessage, DSPEngine.gotoIdle, DSPEngine.gotoRunning,
            DSPEngine.gotoError, hst, hs, hr] at h ⊢
    | StError =>
      cases hs : e.m_sampleSource with
      | none =>
        simp [DSPEngine.handleMessage, DSPEngine.gotoIdle, DSPEngine.gotoRunning,
          DSPEngine.gotoError, hst, hs]
      | some src =>
        cases hr : src.startInputResult <;>
          simp [DSPEngine.handleMessage, DSPEngine.gotoIdle, DSPEngine.gotoRunning,
            DSPEngine.gotoError, hst, hs, hr] at h ⊢
  | acquisitionStop =>
    intro _
    cases hst : e.m_state with
    | StRunning =>
      obtain ⟨src, hs⟩ := hsrc hst
      simp [DSPEngine.handleMessage, DSPEngine.gotoIdle, hst, hs]
    | StNotStarted =>
      simpa [DSPEngine.handleMessage, DSPEngine.gotoIdle, hst] using hd (by rw [hst]; decide)
    | StIdle =>
      simpa [DSPEngine.handleMessage, DSPEngine.gotoIdle, hst] using hd (by rw [hst]; decide)
    | StError =>
      simpa [DSPEngine.handleMessage, DSPEngine.gotoIdle, hst] using hd (by rw [hst]; decide)
  | getDeviceDescription => exact hd
  | getErrorMessage => exact hd
  | setSource source =>
    intro h
    simp only [DSPEngine.handleMessage, DSPEngine.handleSetSource] at h ⊢
    rw [(generateReport_fields _ _).1] at h
    rw [(generateReport_fields _ _).2.2]
    cases hst : e.m_state with
    | StRunning =>
      obtain ⟨src, hs⟩ := hsrc hst
      simp [DSPEngine.gotoIdle, hst, hs] at h ⊢
    | StNotStarted =>
      have hd1 := hd (by rw [hst]; decide)
      cases hs : e.m_sampleSource <;> simp [DSPEngine.gotoIdle, hst, hs, hd1]
    | StIdle =>
      have hd1 := hd (by rw [hst]; decide)
      cases hs : e.m_sampleSource <;> simp [DSPEngine.gotoIdle, hst, hs, hd1]
    | StError =>
      have hd1 := hd (by rw [hst]; decide)
      cases hs : e.m_sampleSource <;> simp [DSPEngine.gotoIdle, hst, hs, hd1]
  | addSink sink =>
    intro h
    by_cases hr : e.m_state = State.StRunning <;>
      simp [DSPEngine.handleMessage, hr] at h ⊢
    exact hd hr
  | removeSink sink =>
    intro h
    by_cases hr : e.m_state = State.StRunning <;>
      simp [DSPEngine.handleMessage, hr] at h ⊢
    exact hd hr
  | configureCorrection dc iq =>
    intro h
    have hs : (e.handleMessage (Command.configureCorrection dc iq)).1.m_state = e.m_state := by
      by_cases h1 : e.m_dcOffsetCorrection = dc <;> simp [DSPEngine.handleMessage, h1]
    have hdesc : (e.handleMessage (Command.configureCorrection dc iq)).1.m_deviceDescription
        = e.m_deviceDescription := by
      by_cases h1 : e.m_dcOffsetCorrection = dc <;> simp [DSPEngine.handleMessage, h1]
    rw [hdesc]; rw [hs] at h; exact hd h
  | configureSource configure =>
    intro h
    cases hs : e.m_sampleSource with
    | none =>
      simp only [DSPEngine.handleMessage, hs] at h ⊢
      exact hd h
    | some src =>
      simp only [DSPEngine.handleMessage, hs] at h ⊢
      rw [(generateReport_fields _ _).1] at h
      rw [(generateReport_fields _ _).2.2]
      exact hd h
  | other msg => exact hd

/-- Handling any sequence of commands keeps both parts of the invariant. -/
theorem handleMessages_description (cmds : List Command) : ∀ e : DSPEngine,
    (e.m_state ≠ State.StRunning → e.m_deviceDescription = "") →
    (e.m_state = State.StRunning → ∃ src, e.m_sampleSource = some src) →
    ((DSPEngine.handleMessages e cmds).1.m_state ≠ State.StRunning →
      (DSPEngine.handleMessages e cmds).1.m_deviceDescription = "") ∧
    ((DSPEngine.handleMessages e cmds).1.m_state = State.StRunning →
      ∃ src, (DSPEngine.handleMessages e cmds).1.m_sampleSource = some src) := by
  induction cmds with
  | nil => intro e hd hsrc; exact ⟨hd, hsrc⟩
  | cons cmd rest ih =>
    intro e hd hsrc
    exact ih (e.handleMessage cmd).1 (handleMessage_description e cmd hd hsrc)
      (handleMessage_running_source e cmd hsrc)

/-- C25. Reachable-state invariant of the engine: in the constructed engine, and in
every state reached from it by `run()` and any sequence of handled commands (a
`SetSource` command carries a source), if the engine state is not `StRunning` then the
device description is the empty string. -/
theorem description_empty_unless_running (cmds : List Command) :
    (DSPEngine.init.m_state ≠ State.StRunning ∧ DSPEngine.init.m_deviceDescription = "") ∧
    ((DSPEngine.init.run cmds).1.m_state ≠ State.StRunning →
      (DSPEngine.init.run cmds).1.m_deviceDescription = "") := by
  refine ⟨⟨by decide, rfl⟩, ?_⟩
  unfold DSPEngine.run
  exact (handleMessages_description cmds _ (fun _ => rfl)
    (fun h => absurd h (by simp))).1

theorem description_empty_unless_running_witness :
    (DSPEngine.init.run [Command.setSource goodSource, Command.acquisitionStart,
        Command.getDeviceDescription, Command.acquisitionStop]).1.m_state ≠ State.StRunning ∧
    (DSPEngine.init.run [Command.setSource goodSource, Command.acquisitionStart,
        Command.getDeviceDescription, Command.acquisitionStop]).2
      = [Reply.done, Reply.state State.StRunning, Reply.text "device",
          Reply.state State.StIdle] ∧
    (DSPEngine.init.run [Command.setSource goodSource, Command.acquisitionStart,
        Command.getDeviceDescription, Command.acquisitionStop]).1.m_deviceDescription = "" :=
  ⟨by decide, by decide,
    (description_empty_unless_running [Command.setSource goodSource, Command.acquisitionStart,
      Command.getDeviceDescription, Command.acquisitionStop]).2 (by decide)⟩

end SDRangelove
